import Mathlib

set_option maxRecDepth 8000

/-!
Shallow embedding of the lexer and parser of the hust-cxsj2024 C-subset
analyzer (src/src/Lexer.cpp, src/src/TokenTypes.cpp, src/src/Parser.cpp,
headers in src/include).  Machine integers (`int line`, `int column`,
`size_t pos`) are modelled as `Nat`; the scanner positions only ever grow
from their initial values 1/1/0 and no overflow-relevant arithmetic occurs.
C++ strings are `List Char`; `std::string::operator[]`-style access through
`currentChar`/`peekChar` is bounds-checked in the source and returns `'\0'`
past the end, which `List.getD` models exactly.  Loops are embedded as
fuel-indexed recursions returning `Option`; running out of fuel is `none`,
and termination of the C++ loops is captured by fuel-sufficiency theorems.
-/

/-- Token kinds, from TokenTypes.h (enum class TokenType). -/
inductive TokenType where
  | IDENTIFIER | INTEGER | FLOAT | STRING
  | INT | FLOAT_KW | CHAR | IF | ELSE | WHILE | FOR | RETURN | VOID | BREAK | CONTINUE
  | ASSIGN | PLUS | MINUS | MULTIPLY | DIVIDE | MODULO | INCREMENT | DECREMENT
  | EQ | NE | LT | LE | GT | GE
  | AND | OR | NOT
  | SEMICOLON | COMMA | LPAREN | RPAREN | LBRACE | RBRACE | LANGLE | RANGLE
  | HASH | INCLUDE | DEFINE
  | EOF_TOKEN | NEWLINE | WHITESPACE
  | ERROR
deriving DecidableEq, Repr

/-- A token: kind, raw text, 1-based line and column (TokenTypes.h, class Token). -/
structure Token where
  type : TokenType
  value : String
  line : Nat
  column : Nat
deriving DecidableEq, Repr

/-- Keyword table of TokenTypeUtils::keywords (TokenTypes.cpp). -/
def keywords : List (String × TokenType) :=
  [("int", TokenType.INT), ("float", TokenType.FLOAT_KW), ("char", TokenType.CHAR),
   ("if", TokenType.IF), ("else", TokenType.ELSE), ("while", TokenType.WHILE),
   ("for", TokenType.FOR), ("return", TokenType.RETURN), ("void", TokenType.VOID),
   ("break", TokenType.BREAK), ("continue", TokenType.CONTINUE),
   ("include", TokenType.INCLUDE), ("define", TokenType.DEFINE)]

/-- TokenTypeUtils::getKeywordType: keyword lookup, identifiers otherwise. -/
def getKeywordType (word : String) : TokenType :=
  match (keywords.lookup word) with
  | some t => t
  | none => TokenType.IDENTIFIER

/-- The NUL character used by the scanner as its end-of-input sentinel. -/
def nulChar : Char := Char.ofNat 0

def backslashChar : Char := Char.ofNat 92

def dquoteChar : Char := Char.ofNat 34

def squoteChar : Char := Char.ofNat 39

/-- C `isspace` on the default locale, as used by the scanner. -/
def cIsSpace (c : Char) : Bool :=
  c == ' ' || c == '\t' || c == '\n' || c == Char.ofNat 11 || c == Char.ofNat 12 || c == '\r'

/-- C `isdigit`. -/
def cIsDigit (c : Char) : Bool :=
  48 ≤ c.toNat && c.toNat ≤ 57

/-- C `isalpha` on the default locale. -/
def cIsAlpha (c : Char) : Bool :=
  (65 ≤ c.toNat && c.toNat ≤ 90) || (97 ≤ c.toNat && c.toNat ≤ 122)

/-- C `isalnum` on the default locale. -/
def cIsAlnum (c : Char) : Bool :=
  cIsAlpha c || cIsDigit c

/-- A recorded lexical error (class LexicalError: message, line, column). -/
structure LexicalError where
  message : String
  line : Nat
  column : Nat
deriving DecidableEq, Repr

/-- The scanner state: all data members of class Lexer (Lexer.h). -/
structure Lexer where
  text : List Char
  pos : Nat
  line : Nat
  column : Nat
  tokens : List Token
  errors : List LexicalError
deriving DecidableEq, Repr

namespace Lexer

/-- Lexer::Lexer(text): pos 0, line 1, column 1. -/
def init (text : List Char) : Lexer :=
  { text := text, pos := 0, line := 1, column := 1, tokens := [], errors := [] }

/-- Lexer::currentChar: `text[pos]`, or NUL past the end. -/
def currentChar (lx : Lexer) : Char :=
  lx.text.getD lx.pos nulChar

/-- Lexer::peekChar(offset): `text[pos+offset]`, or NUL past the end. -/
def peekChar (lx : Lexer) (offset : Nat) : Char :=
  lx.text.getD (lx.pos + offset) nulChar

/-- Lexer::advance: newline bumps the line and resets the column; pos always advances. -/
def advanceLx (lx : Lexer) : Lexer :=
  if lx.pos < lx.text.length ∧ lx.text.getD lx.pos nulChar = '\n' then
    { lx with line := lx.line + 1, column := 1, pos := lx.pos + 1 }
  else
    { lx with column := lx.column + 1, pos := lx.pos + 1 }

/-- Lexer::createErrorToken: records the error at the current position and
    returns an ERROR token whose text is the current character. -/
def createErrorToken (lx : Lexer) (message : String) : Token × Lexer :=
  (Token.mk TokenType.ERROR (String.singleton (currentChar lx)) lx.line lx.column,
   { lx with errors := lx.errors ++ [LexicalError.mk message lx.line lx.column] })

/-- Lexer::skipWhitespace: skip non-newline whitespace. -/
def skipWhitespaceF : Nat → Lexer → Option Lexer
  | 0, _ => none
  | fuel + 1, lx =>
    if currentChar lx ≠ nulChar ∧ cIsSpace (currentChar lx) ∧ currentChar lx ≠ '\n' then
      skipWhitespaceF fuel (advanceLx lx)
    else
      some lx

/-- The `//` comment loop in Lexer::skipComment: run to newline or end. -/
def lineCommentF : Nat → Lexer → Option Lexer
  | 0, _ => none
  | fuel + 1, lx =>
    if currentChar lx ≠ nulChar ∧ currentChar lx ≠ '\n' then
      lineCommentF fuel (advanceLx lx)
    else
      some lx

/-- The `/* */` comment loop in Lexer::skipComment: returns whether the
    closing marker was found. -/
def blockCommentF : Nat → Lexer → Option (Bool × Lexer)
  | 0, _ => none
  | fuel + 1, lx =>
    if currentChar lx ≠ nulChar then
      if currentChar lx = '*' ∧ peekChar lx 1 = '/' then
        some (true, advanceLx (advanceLx lx))
      else
        blockCommentF fuel (advanceLx lx)
    else
      some (false, lx)

def msgUntermComment : String := "Unterminated comment"

/-- Lexer::skipComment: single-line and block comments; an unclosed block
    comment records an UnterminatedComment error and yields `false`. -/
def skipCommentF : Nat → Lexer → Option (Bool × Lexer)
  | 0, _ => none
  | fuel + 1, lx =>
    if currentChar lx = '/' ∧ peekChar lx 1 = '/' then
      match (lineCommentF fuel lx) with
      | none => none
      | some lx1 => some (true, lx1)
    else if currentChar lx = '/' ∧ peekChar lx 1 = '*' then
      match (blockCommentF fuel (advanceLx (advanceLx lx))) with
      | none => none
      | some (closed, lx1) =>
        if closed then
          some (true, lx1)
        else
          some (false, { lx1 with errors := lx1.errors ++ [LexicalError.mk msgUntermComment lx1.line lx1.column] })
    else
      some (false, lx)

/-- The scanning loop of Lexer::readNumber: digits with at most one decimal
    point; a `.` is consumed only when a digit follows it.  Returns
    (consumed characters, hasDot flag, final state). -/
def readNumberLoopF : Nat → Lexer → Bool → List Char → Option (List Char × Bool × Lexer)
  | 0, _, _, _ => none
  | fuel + 1, lx, hasDot, acc =>
    if currentChar lx ≠ nulChar ∧ (cIsDigit (currentChar lx) ∨ currentChar lx = '.') then
      if currentChar lx = '.' then
        if ¬ cIsDigit (peekChar lx 1) then
          some (acc, hasDot, lx)
        else if hasDot then
          some (acc, hasDot, lx)
        else
          readNumberLoopF fuel (advanceLx lx) true (acc ++ [currentChar lx])
      else
        readNumberLoopF fuel (advanceLx lx) hasDot (acc ++ [currentChar lx])
    else
      some (acc, hasDot, lx)

def msgInvalidNumber : String := "Invalid number format"

/-- Lexer::readNumber.  In the source `result.back() == '.'` is evaluated on
    a run that is non-empty at every call site (the first character is a
    digit); the model tests `getLast? = some '.'`, which agrees there. -/
def readNumberF : Nat → Lexer → Option (Token × Lexer)
  | 0, _ => none
  | fuel + 1, lx =>
    match (readNumberLoopF fuel lx false []) with
    | none => none
    | some (result, hasDot, lx1) =>
      if result.getLast? = some '.' then
        some (createErrorToken lx1 msgInvalidNumber)
      else if hasDot then
        some (Token.mk TokenType.FLOAT (String.mk result) lx.line lx.column, lx1)
      else
        some (Token.mk TokenType.INTEGER (String.mk result) lx.line lx.column, lx1)

/-- The scanning loop of Lexer::readIdentifier. -/
def readIdentLoopF : Nat → Lexer → List Char → Option (List Char × Lexer)
  | 0, _, _ => none
  | fuel + 1, lx, acc =>
    if currentChar lx ≠ nulChar ∧ (cIsAlnum (currentChar lx) ∨ currentChar lx = '_') then
      readIdentLoopF fuel (advanceLx lx) (acc ++ [currentChar lx])
    else
      some (acc, lx)

/-- Lexer::readIdentifier: maximal alphanumeric/underscore run, then the
    keyword table decides the kind. -/
def readIdentifierF : Nat → Lexer → Option (Token × Lexer)
  | 0, _ => none
  | fuel + 1, lx =>
    match (readIdentLoopF fuel lx []) with
    | none => none
    | some (result, lx1) =>
      some (Token.mk (getKeywordType (String.mk result)) (String.mk result) lx.line lx.column, lx1)

/-- One escape translation step of Lexer::readString. -/
def escapeChar (c : Char) : Char :=
  if c = 'n' then '\n'
  else if c = 't' then '\t'
  else if c = 'r' then '\r'
  else if c = backslashChar then backslashChar
  else if c = dquoteChar then dquoteChar
  else if c = squoteChar then squoteChar
  else c

/-- The scanning loop of Lexer::readString (after the opening quote). -/
def readStringLoopF : Nat → Lexer → Char → List Char → Option (List Char × Lexer)
  | 0, _, _, _ => none
  | fuel + 1, lx, quoteChar, acc =>
    if currentChar lx ≠ nulChar ∧ currentChar lx ≠ quoteChar then
      if currentChar lx = backslashChar then
        let lx1 := advanceLx lx
        if currentChar lx1 ≠ nulChar then
          readStringLoopF fuel (advanceLx lx1) quoteChar (acc ++ [escapeChar (currentChar lx1)])
        else
          readStringLoopF fuel lx1 quoteChar acc
      else
        readStringLoopF fuel (advanceLx lx) quoteChar (acc ++ [currentChar lx])
    else
      some (acc, lx)

def msgUntermString : String := "Unterminated string"

/-- Lexer::readString: single- or double-quoted with escapes; an unclosed
    string is a lexical error with an ERROR token. -/
def readStringF : Nat → Lexer → Option (Token × Lexer)
  | 0, _ => none
  | fuel + 1, lx =>
    let startLine := lx.line
    let startColumn := lx.column
    let quoteChar := currentChar lx
    match (readStringLoopF fuel (advanceLx lx) quoteChar []) with
    | none => none
    | some (result, lx1) =>
      if currentChar lx1 ≠ quoteChar then
        some (createErrorToken lx1 msgUntermString)
      else
        some (Token.mk TokenType.STRING (String.mk result) startLine startColumn, advanceLx lx1)

/-- The single-character operator/delimiter table of Lexer::getNextToken
    (the switch statement); `'.'` maps to an ERROR-kind token. -/
def singleCharType (c : Char) : Option TokenType :=
  if c = '+' then some TokenType.PLUS
  else if c = '-' then some TokenType.MINUS
  else if c = '*' then some TokenType.MULTIPLY
  else if c = '/' then some TokenType.DIVIDE
  else if c = '%' then some TokenType.MODULO
  else if c = '=' then some TokenType.ASSIGN
  else if c = '<' then some TokenType.LANGLE
  else if c = '>' then some TokenType.RANGLE
  else if c = '!' then some TokenType.NOT
  else if c = ';' then some TokenType.SEMICOLON
  else if c = ',' then some TokenType.COMMA
  else if c = '(' then some TokenType.LPAREN
  else if c = ')' then some TokenType.RPAREN
  else if c = '{' then some TokenType.LBRACE
  else if c = '}' then some TokenType.RBRACE
  else if c = '#' then some TokenType.HASH
  else if c = '.' then some TokenType.ERROR
  else none

/-- The two-character operator table of Lexer::getNextToken. -/
def doubleCharType (a b : Char) : Option TokenType :=
  if a = '=' ∧ b = '=' then some TokenType.EQ
  else if a = '!' ∧ b = '=' then some TokenType.NE
  else if a = '<' ∧ b = '=' then some TokenType.LE
  else if a = '>' ∧ b = '=' then some TokenType.GE
  else if a = '&' ∧ b = '&' then some TokenType.AND
  else if a = '|' ∧ b = '|' then some TokenType.OR
  else if a = '+' ∧ b = '+' then some TokenType.INCREMENT
  else if a = '-' ∧ b = '-' then some TokenType.DECREMENT
  else none

def msgUnexpectedChar (c : Char) : String :=
  "Unexpected character \x27" ++ String.singleton c ++ "\x27"

/-- Lexer::getNextToken: the token dispatch loop.  Whitespace and comments
    re-enter the loop; every other branch returns a token.  At NUL (end of
    input) the EOF token is produced. -/
def getNextTokenF : Nat → Lexer → Option (Token × Lexer)
  | 0, _ => none
  | fuel + 1, lx =>
    if currentChar lx = nulChar then
      some (Token.mk TokenType.EOF_TOKEN "" lx.line lx.column, lx)
    else
      let startLine := lx.line
      let startColumn := lx.column
      if cIsSpace (currentChar lx) then
        if currentChar lx = '\n' then
          some (Token.mk TokenType.NEWLINE (String.singleton (currentChar lx)) startLine startColumn, advanceLx lx)
        else
          match (skipWhitespaceF fuel lx) with
          | none => none
          | some lx1 => getNextTokenF fuel lx1
      else if currentChar lx = '/' ∧ (peekChar lx 1 = '/' ∨ peekChar lx 1 = '*') then
        match (skipCommentF fuel lx) with
        | none => none
        | some (ok, lx1) =>
          if ok then getNextTokenF fuel lx1
          else some (createErrorToken lx1 msgUntermComment)
      else if cIsDigit (currentChar lx) then
        readNumberF fuel lx
      else if cIsAlpha (currentChar lx) ∨ currentChar lx = '_' then
        readIdentifierF fuel lx
      else if currentChar lx = dquoteChar ∨ currentChar lx = squoteChar then
        readStringF fuel lx
      else
        let ch := currentChar lx
        let nextCh := peekChar lx 1
        match (doubleCharType ch nextCh) with
        | some ty =>
          some (Token.mk ty (String.mk [ch, nextCh]) startLine startColumn, advanceLx (advanceLx lx))
        | none =>
          match (singleCharType ch) with
          | some ty =>
            some (Token.mk ty (String.singleton ch) startLine startColumn, advanceLx lx)
          | none =>
            some (createErrorToken (advanceLx lx) (msgUnexpectedChar ch))

/-- The collection loop of Lexer::tokenize: append tokens until EOF. -/
def tokenizeLoopF : Nat → Lexer → Option (List Token × Lexer)
  | 0, _ => none
  | fuel + 1, lx =>
    match (getNextTokenF fuel lx) with
    | none => none
    | some (tok, lx1) =>
      let lx2 := { lx1 with tokens := lx1.tokens ++ [tok] }
      if tok.type = TokenType.EOF_TOKEN then
        some (lx2.tokens, lx2)
      else
        tokenizeLoopF fuel lx2

/-- Lexer::tokenize: clears the token and error members (but not the cursor)
    and runs the collection loop. -/
def tokenizeF (fuel : Nat) (lx : Lexer) : Option (List Token × Lexer) :=
  tokenizeLoopF fuel { lx with tokens := [], errors := [] }

/-- Fuel that will be shown sufficient for `tokenizeF`. -/
def tokenizeFuel (lx : Lexer) : Nat :=
  lx.text.length - lx.pos + 5

/-- Lexer::reset(): rewind the cursor and clear tokens and errors,
    keeping the text. -/
def reset (lx : Lexer) : Lexer :=
  { lx with pos := 0, line := 1, column := 1, tokens := [], errors := [] }

end Lexer

/-! ### Parser data model (Parser.h) -/

/-- A recorded syntax error (class SyntaxError: message, line, column). -/
structure SyntaxError where
  message : String
  line : Nat
  column : Nat
deriving DecidableEq, Repr

/-- The AST node variants of Parser.h.  Every `unique_ptr<ASTNode>` child is
    an `Option ASTNode` (null = `none`); child vectors only ever receive
    non-null entries in the source, so they are plain lists. -/
inductive ASTNode where
  | program (statements : List ASTNode)
  | varDeclaration (declType : String) (identifier : String) (initializer : Option ASTNode)
  | assignment (identifier : String) (expression : Option ASTNode)
  | binaryExpression (operator_ : String) (left : Option ASTNode) (right : Option ASTNode)
  | unaryExpression (operator_ : String) (operand : Option ASTNode)
  | literal (value : String) (litType : TokenType)
  | identifier (name : String)
  | ifStatement (condition : Option ASTNode) (thenStatement : Option ASTNode) (elseStatement : Option ASTNode)
  | whileStatement (condition : Option ASTNode) (body : Option ASTNode)
  | compoundStatement (statements : List ASTNode)
  | returnStatement (expression : Option ASTNode)
  | preprocessorDirective (directive : String) (content : String)
  | functionDeclaration (returnType : String) (name : String) (parameters : List ASTNode)
  | functionDefinition (returnType : String) (name : String) (parameters : List ASTNode) (body : Option ASTNode)
  | expressionStatement (expression : Option ASTNode)
  | functionCall (name : String) (arguments : List ASTNode)
  | forStatement (initialization : Option ASTNode) (condition : Option ASTNode) (update : Option ASTNode) (body : Option ASTNode)
  | breakStatement
  | continueStatement
deriving Repr

/-- The mutable parser state: the cursor `currentToken` and the error
    vector.  The token vector itself never changes during a parse and is
    passed separately. -/
structure PState where
  pos : Nat
  errors : List SyntaxError
deriving DecidableEq, Repr

namespace Parser

/-- The static EOF token Parser::getCurrentToken falls back to past the end. -/
def eofTokenP : Token := Token.mk TokenType.EOF_TOKEN "" 0 0

/-- Parser::getCurrentToken. -/
def getCurrentToken (tks : List Token) (s : PState) : Token :=
  tks.getD s.pos eofTokenP

/-- Parser::peekToken(offset). -/
def peekTokenP (tks : List Token) (s : PState) (offset : Nat) : Token :=
  tks.getD (s.pos + offset) eofTokenP

/-- Parser::isAtEnd. -/
def isAtEnd (tks : List Token) (s : PState) : Bool :=
  (getCurrentToken tks s).type == TokenType.EOF_TOKEN

/-- Parser::advance: the cursor moves only when not at end. -/
def advanceP (tks : List Token) (s : PState) : PState :=
  if isAtEnd tks s then s else { s with pos := s.pos + 1 }

/-- Parser::check. -/
def checkTok (tks : List Token) (s : PState) (ty : TokenType) : Bool :=
  if isAtEnd tks s then false else (getCurrentToken tks s).type == ty

/-- Parser::match: check-then-advance. -/
def matchTok (tks : List Token) (s : PState) (ty : TokenType) : Bool × PState :=
  if checkTok tks s ty then (true, advanceP tks s) else (false, s)

/-- Parser::recordError: appends a SyntaxError at the current token. -/
def recordError (tks : List Token) (s : PState) (msg : String) : PState :=
  { s with errors := s.errors ++
      [SyntaxError.mk msg (getCurrentToken tks s).line (getCurrentToken tks s).column] }

/-- Parser::consume: advance over an expected token, or record an error
    without advancing and hand back the (unexpected) current token. -/
def consume (tks : List Token) (s : PState) (ty : TokenType) (msg : String) : Token × PState :=
  if checkTok tks s ty then (getCurrentToken tks s, advanceP tks s)
  else (getCurrentToken tks s, recordError tks s msg)

def msgRParenParams : String := "Expected \x27)\x27 after function parameters"
def msgVarName : String := "Expected variable name"
def msgVarNameComma : String := "Expected variable name after \x27,\x27"
def msgSemiVarDecl : String := "Expected \x27;\x27 after variable declaration"
def msgExpectedIdent : String := "Expected identifier"
def msgExpectedAssign : String := "Expected \x27=\x27"
def msgSemiAssign : String := "Expected \x27;\x27 after assignment"
def msgLParenIf : String := "Expected \x27(\x27 after \x27if\x27"
def msgRParenIf : String := "Expected \x27)\x27 after if condition"
def msgLParenWhile : String := "Expected \x27(\x27 after \x27while\x27"
def msgRParenWhile : String := "Expected \x27)\x27 after while condition"
def msgLParenFor : String := "Expected \x27(\x27 after \x27for\x27"
def msgSemiForInit : String := "Expected \x27;\x27 after for loop initialization"
def msgSemiForCond : String := "Expected \x27;\x27 after for loop condition"
def msgRParenFor : String := "Expected \x27)\x27 after for loop"
def msgLBrace : String := "Expected \x27\x7b\x27"
def msgRBrace : String := "Expected \x27\x7d\x27"
def msgStuckCompound : String := "Parser stuck, skipping token"
def msgSemiReturn : String := "Expected \x27;\x27 after return statement"
def msgSemiExpr : String := "Expected \x27;\x27 after expression"
def msgSemiIncDec : String := "Expected \x27;\x27 after increment/decrement"
def msgSemiBreak : String := "Expected \x27;\x27 after break"
def msgSemiContinue : String := "Expected \x27;\x27 after continue"
def msgIncludeClose : String := "Expected \x27>\x27 to close #include directive"
def msgIncludeWhat : String := "Expected \x27<filename>\x27 or \x22filename\x22 after #include"
def msgUnknownType (v : String) : String := "Unknown type \x27" ++ v ++ "\x27 in function parameter"
def msgExpectedExpr : String := "Expected expression"
def msgStuckProgram : String := "Parser unable to process token, skipping"
def msgRParenArgs : String := "Expected \x27)\x27 after function arguments"
def msgRParenExpr : String := "Expected \x27)\x27 after expression"
def msgIdentAfter (opName : String) : String := "Expected identifier after " ++ opName ++ " operator"
def strInclude : String := "include"
def strDefine : String := "define"
def strUnknown : String := "unknown"
def strPlusPlus : String := "++"
def strMinusMinus : String := "--"
def strIncrement : String := "increment"
def strDecrement : String := "decrement"
def strAssignOp : String := "="
def litErrorText : String := "ERROR"

/-- The newline-skipping loops `while (match(TokenType::NEWLINE)) {}`. -/
def skipNewlinesF (tks : List Token) : Nat → PState → Option PState
  | 0, _ => none
  | fuel + 1, s =>
    if checkTok tks s TokenType.NEWLINE then
      skipNewlinesF tks fuel (advanceP tks s)
    else
      some s

/-- The `#include <...>` filename-collecting loop (Parser.cpp 422-425). -/
def scanIncludeNameF (tks : List Token) : Nat → String → PState → Option (String × PState)
  | 0, _, _ => none
  | fuel + 1, content, s =>
    if ¬ checkTok tks s TokenType.RANGLE ∧ ¬ checkTok tks s TokenType.NEWLINE ∧ ¬ (isAtEnd tks s) then
      scanIncludeNameF tks fuel (content ++ (getCurrentToken tks s).value) (advanceP tks s)
    else
      some (content, s)

/-- The directive-content loop of `#define` and unknown directives
    (Parser.cpp 443-447, 452-456). -/
def scanDirectiveF (tks : List Token) : Nat → String → PState → Option (String × PState)
  | 0, _, _ => none
  | fuel + 1, content, s =>
    if ¬ checkTok tks s TokenType.NEWLINE ∧ ¬ (isAtEnd tks s) then
      let content1 := if content = "" then (getCurrentToken tks s).value
                      else content ++ " " ++ (getCurrentToken tks s).value
      scanDirectiveF tks fuel content1 (advanceP tks s)
    else
      some (content, s)

/-- The parameter-skipping loop of the function-header branch
    (Parser.cpp 477-503). -/
def paramLoopF (tks : List Token) : Nat → List ASTNode → PState → Option (List ASTNode × PState)
  | 0, _, _ => none
  | fuel + 1, params, s =>
    if ¬ checkTok tks s TokenType.RPAREN ∧ ¬ (isAtEnd tks s) then
      let (params1, s1) :=
        if checkTok tks s TokenType.INT ∨ checkTok tks s TokenType.FLOAT_KW ∨
           checkTok tks s TokenType.CHAR ∨ checkTok tks s TokenType.VOID then
          let paramType := (getCurrentToken tks s).value
          let sA := advanceP tks s
          if checkTok tks sA TokenType.IDENTIFIER then
            let paramName := (getCurrentToken tks sA).value
            (params ++ [ASTNode.varDeclaration paramType paramName none], advanceP tks sA)
          else
            (params, sA)
        else if checkTok tks s TokenType.IDENTIFIER then
          let sA := advanceP tks (recordError tks s (msgUnknownType (getCurrentToken tks s).value))
          if checkTok tks sA TokenType.IDENTIFIER then (params, advanceP tks sA) else (params, sA)
        else
          (params, advanceP tks s)
      let s2 := (matchTok tks s1 TokenType.COMMA).2
      paramLoopF tks fuel params1 s2
    else
      some (params, s)

mutual

/-- Parser::parsePrimary (Parser.cpp 882-939): literals, identifiers,
    function calls, postfix `++`, parenthesized expressions, and the
    sentinel ERROR literal for anything else. -/
def parsePrimaryF (tks : List Token) : Nat → PState → Option (ASTNode × PState)
  | 0, _ => none
  | fuel + 1, s =>
    if checkTok tks s TokenType.INTEGER ∨ checkTok tks s TokenType.FLOAT then
      let tok := getCurrentToken tks s
      some (ASTNode.literal tok.value tok.type, advanceP tks s)
    else if checkTok tks s TokenType.STRING then
      let tok := getCurrentToken tks s
      some (ASTNode.literal tok.value tok.type, advanceP tks s)
    else if checkTok tks s TokenType.IDENTIFIER then
      let tok := getCurrentToken tks s
      let s1 := advanceP tks s
      if checkTok tks s1 TokenType.LPAREN then
        match (argLoopF tks fuel [] (advanceP tks s1)) with
        | none => none
        | some (args, s3) =>
          some (ASTNode.functionCall tok.value args, (consume tks s3 TokenType.RPAREN msgRParenArgs).2)
      else if checkTok tks s1 TokenType.INCREMENT then
        some (ASTNode.identifier (tok.value ++ strPlusPlus), advanceP tks s1)
      else
        some (ASTNode.identifier tok.value, s1)
    else if checkTok tks s TokenType.LPAREN then
      match (parseExpressionF tks fuel (advanceP tks s)) with
      | none => none
      | some (e, s2) =>
        some (e, (consume tks s2 TokenType.RPAREN msgRParenExpr).2)
    else
      some (ASTNode.literal litErrorText TokenType.ERROR, recordError tks s msgExpectedExpr)

/-- The argument loop of a function call in parsePrimary (Parser.cpp 906-915). -/
def argLoopF (tks : List Token) : Nat → List ASTNode → PState → Option (List ASTNode × PState)
  | 0, _, _ => none
  | fuel + 1, args, s =>
    if ¬ checkTok tks s TokenType.RPAREN ∧ ¬ (isAtEnd tks s) then
      match (parseExpressionF tks fuel s) with
      | none => none
      | some (arg, s1) =>
        let (m, s2) := matchTok tks s1 TokenType.COMMA
        if m then argLoopF tks fuel (args ++ [arg]) s2
        else some (args ++ [arg], s2)
    else
      some (args, s)

/-- Parser::parseUnary (870-880): prefix `!` and `-`. -/
def parseUnaryF (tks : List Token) : Nat → PState → Option (ASTNode × PState)
  | 0, _ => none
  | fuel + 1, s =>
    if checkTok tks s TokenType.NOT ∨ checkTok tks s TokenType.MINUS then
      let op := (getCurrentToken tks s).value
      match (parseUnaryF tks fuel (advanceP tks s)) with
      | none => none
      | some (operand, s1) => some (ASTNode.unaryExpression op (some operand), s1)
    else
      parsePrimaryF tks fuel s

/-- The `* / %` loop of Parser::parseMultiplication. -/
def mulLoopF (tks : List Token) : Nat → ASTNode → PState → Option (ASTNode × PState)
  | 0, _, _ => none
  | fuel + 1, e, s =>
    if checkTok tks s TokenType.MULTIPLY ∨ checkTok tks s TokenType.DIVIDE ∨ checkTok tks s TokenType.MODULO then
      let op := (getCurrentToken tks s).value
      match (parseUnaryF tks fuel (advanceP tks s)) with
      | none => none
      | some (rhs, s1) => mulLoopF tks fuel (ASTNode.binaryExpression op (some e) (some rhs)) s1
    else
      some (e, s)

/-- Parser::parseMultiplication (855-868). -/
def parseMultiplicationF (tks : List Token) : Nat → PState → Option (ASTNode × PState)
  | 0, _ => none
  | fuel + 1, s =>
    match (parseUnaryF tks fuel s) with
    | none => none
    | some (e, s1) => mulLoopF tks fuel e s1

/-- The `+ -` loop of Parser::parseAddition. -/
def addLoopF (tks : List Token) : Nat → ASTNode → PState → Option (ASTNode × PState)
  | 0, _, _ => none
  | fuel + 1, e, s =>
    if checkTok tks s TokenType.PLUS ∨ checkTok tks s TokenType.MINUS then
      let op := (getCurrentToken tks s).value
      match (parseMultiplicationF tks fuel (advanceP tks s)) with
      | none => none
      | some (rhs, s1) => addLoopF tks fuel (ASTNode.binaryExpression op (some e) (some rhs)) s1
    else
      some (e, s)

/-- Parser::parseAddition (840-853). -/
def parseAdditionF (tks : List Token) : Nat → PState → Option (ASTNode × PState)
  | 0, _ => none
  | fuel + 1, s =>
    match (parseMultiplicationF tks fuel s) with
    | none => none
    | some (e, s1) => addLoopF tks fuel e s1

/-- The `> >= < <=` loop of Parser::parseComparison. -/
def cmpLoopF (tks : List Token) : Nat → ASTNode → PState → Option (ASTNode × PState)
  | 0, _, _ => none
  | fuel + 1, e, s =>
    if checkTok tks s TokenType.RANGLE ∨ checkTok tks s TokenType.GE ∨
       checkTok tks s TokenType.LANGLE ∨ checkTok tks s TokenType.LE then
      let op := (getCurrentToken tks s).value
      match (parseAdditionF tks fuel (advanceP tks s)) with
      | none => none
      | some (rhs, s1) => cmpLoopF tks fuel (ASTNode.binaryExpression op (some e) (some rhs)) s1
    else
      some (e, s)

/-- Parser::parseComparison (824-838). -/
def parseComparisonF (tks : List Token) : Nat → PState → Option (ASTNode × PState)
  | 0, _ => none
  | fuel + 1, s =>
    match (parseAdditionF tks fuel s) with
    | none => none
    | some (e, s1) => cmpLoopF tks fuel e s1

/-- The `== !=` loop of Parser::parseEquality. -/
def eqLoopF (tks : List Token) : Nat → ASTNode → PState → Option (ASTNode × PState)
  | 0, _, _ => none
  | fuel + 1, e, s =>
    if checkTok tks s TokenType.EQ ∨ checkTok tks s TokenType.NE then
      let op := (getCurrentToken tks s).value
      match (parseComparisonF tks fuel (advanceP tks s)) with
      | none => none
      | some (rhs, s1) => eqLoopF tks fuel (ASTNode.binaryExpression op (some e) (some rhs)) s1
    else
      some (e, s)

/-- Parser::parseEquality (809-822). -/
def parseEqualityF (tks : List Token) : Nat → PState → Option (ASTNode × PState)
  | 0, _ => none
  | fuel + 1, s =>
    match (parseComparisonF tks fuel s) with
    | none => none
    | some (e, s1) => eqLoopF tks fuel e s1

/-- The `&&` loop of Parser::parseLogicalAnd. -/
def andLoopF (tks : List Token) : Nat → ASTNode → PState → Option (ASTNode × PState)
  | 0, _, _ => none
  | fuel + 1, e, s =>
    if checkTok tks s TokenType.AND then
      let op := (getCurrentToken tks s).value
      match (parseEqualityF tks fuel (advanceP tks s)) with
      | none => none
      | some (rhs, s1) => andLoopF tks fuel (ASTNode.binaryExpression op (some e) (some rhs)) s1
    else
      some (e, s)

/-- Parser::parseLogicalAnd (794-807). -/
def parseLogicalAndF (tks : List Token) : Nat → PState → Option (ASTNode × PState)
  | 0, _ => none
  | fuel + 1, s =>
    match (parseEqualityF tks fuel s) with
    | none => none
    | some (e, s1) => andLoopF tks fuel e s1

/-- The `||` loop of Parser::parseLogicalOr. -/
def orLoopF (tks : List Token) : Nat → ASTNode → PState → Option (ASTNode × PState)
  | 0, _, _ => none
  | fuel + 1, e, s =>
    if checkTok tks s TokenType.OR then
      let op := (getCurrentToken tks s).value
      match (parseLogicalAndF tks fuel (advanceP tks s)) with
      | none => none
      | some (rhs, s1) => orLoopF tks fuel (ASTNode.binaryExpression op (some e) (some rhs)) s1
    else
      some (e, s)

/-- Parser::parseLogicalOr (779-792). -/
def parseLogicalOrF (tks : List Token) : Nat → PState → Option (ASTNode × PState)
  | 0, _ => none
  | fuel + 1, s =>
    match (parseLogicalAndF tks fuel s) with
    | none => none
    | some (e, s1) => orLoopF tks fuel e s1

/-- Parser::parseExpression (775-777). -/
def parseExpressionF (tks : List Token) : Nat → PState → Option (ASTNode × PState)
  | 0, _ => none
  | fuel + 1, s => parseLogicalOrF tks fuel s

end

mutual

/-- Parser::parseStatement (406-577): statement dispatch on the current
    token.  Returns `none` inside the outer option for out-of-fuel, and an
    inner `none` where the source returns `nullptr`. -/
def parseStatementF (tks : List Token) : Nat → PState → Option (Option ASTNode × PState)
  | 0, _ => none
  | fuel + 1, s0 =>
    match (skipNewlinesF tks fuel s0) with
    | none => none
    | some s =>
      if isAtEnd tks s ∨ checkTok tks s TokenType.RBRACE then
        some (none, s)
      else
        let (mh, sh) := matchTok tks s TokenType.HASH
        if mh then
          let (mi, si) := matchTok tks sh TokenType.INCLUDE
          if mi then
            let (ml, sl) := matchTok tks si TokenType.LANGLE
            if ml then
              match (scanIncludeNameF tks fuel "" sl) with
              | none => none
              | some (content, sc) =>
                let (mr, sr) := matchTok tks sc TokenType.RANGLE
                if mr then
                  some (some (ASTNode.preprocessorDirective strInclude ("<" ++ content ++ ">")), sr)
                else
                  some (some (ASTNode.preprocessorDirective strInclude content), recordError tks sr msgIncludeClose)
            else
              let (ms, ss) := matchTok tks sl TokenType.STRING
              if ms then
                some (some (ASTNode.preprocessorDirective strInclude (tks.getD (ss.pos - 1) eofTokenP).value), ss)
              else
                some (some (ASTNode.preprocessorDirective strInclude ""), recordError tks ss msgIncludeWhat)
          else
            let (md, sd) := matchTok tks si TokenType.DEFINE
            if md then
              match (scanDirectiveF tks fuel "" sd) with
              | none => none
              | some (content, sc) => some (some (ASTNode.preprocessorDirective strDefine content), sc)
            else
              match (scanDirectiveF tks fuel "" sd) with
              | none => none
              | some (content, sc) => some (some (ASTNode.preprocessorDirective strUnknown content), sc)
        else if (checkTok tks s TokenType.INT ∨ checkTok tks s TokenType.FLOAT_KW ∨
                 checkTok tks s TokenType.CHAR ∨ checkTok tks s TokenType.VOID) ∧
                (peekTokenP tks s 1).type = TokenType.IDENTIFIER ∧
                (peekTokenP tks s 2).type = TokenType.LPAREN then
          let returnType := (getCurrentToken tks s).value
          let s1 := advanceP tks s
          let functionName := (getCurrentToken tks s1).value
          let s3 := advanceP tks (advanceP tks s1)
          match (paramLoopF tks fuel [] s3) with
          | none => none
          | some (params, s4) =>
            let s5 := (consume tks s4 TokenType.RPAREN msgRParenParams).2
            if checkTok tks s5 TokenType.SEMICOLON then
              some (some (ASTNode.functionDeclaration returnType functionName params), advanceP tks s5)
            else
              match (parseCompoundStatementF tks fuel s5) with
              | none => none
              | some (body, s6) =>
                some (some (ASTNode.functionDefinition returnType functionName params (some body)), s6)
        else if checkTok tks s TokenType.INT ∨ checkTok tks s TokenType.FLOAT_KW ∨ checkTok tks s TokenType.CHAR then
          match (parseVarDeclarationF tks fuel s) with
          | none => none
          | some (vd, s1) => some (some vd, s1)
        else
          let (mIf, sIf) := matchTok tks s TokenType.IF
          if mIf then
            match (parseIfStatementF tks fuel sIf) with
            | none => none
            | some (st, s1) => some (some st, s1)
          else
            let (mW, sW) := matchTok tks s TokenType.WHILE
            if mW then
              match (parseWhileStatementF tks fuel sW) with
              | none => none
              | some (st, s1) => some (some st, s1)
            else
              let (mF, sF) := matchTok tks s TokenType.FOR
              if mF then
                match (parseForStatementF tks fuel sF) with
                | none => none
                | some (st, s1) => some (some st, s1)
              else if checkTok tks s TokenType.LBRACE then
                match (parseCompoundStatementF tks fuel s) with
                | none => none
                | some (st, s1) => some (some st, s1)
              else
                let (mR, sR) := matchTok tks s TokenType.RETURN
                if mR then
                  match (parseReturnStatementF tks fuel sR) with
                  | none => none
                  | some (st, s1) => some (some st, s1)
                else
                  let (mB, sB) := matchTok tks s TokenType.BREAK
                  if mB then
                    some (some ASTNode.breakStatement, (consume tks sB TokenType.SEMICOLON msgSemiBreak).2)
                  else
                    let (mC, sC) := matchTok tks s TokenType.CONTINUE
                    if mC then
                      some (some ASTNode.continueStatement, (consume tks sC TokenType.SEMICOLON msgSemiContinue).2)
                    else if checkTok tks s TokenType.IDENTIFIER ∧ (peekTokenP tks s 1).type = TokenType.ASSIGN then
                      match (parseAssignmentF tks fuel s) with
                      | none => none
                      | some (st, s1) => some (some st, s1)
                    else
                      parseExpressionStatementF tks fuel s

/-- Parser::parseVarDeclaration (579-601). -/
def parseVarDeclarationF (tks : List Token) : Nat → PState → Option (ASTNode × PState)
  | 0, _ => none
  | fuel + 1, s =>
    let declType := (getCurrentToken tks s).value
    let s1 := advanceP tks s
    let (identTok, s2) := consume tks s1 TokenType.IDENTIFIER msgVarName
    let (mA, s3) := matchTok tks s2 TokenType.ASSIGN
    if mA then
      match (parseExpressionF tks fuel s3) with
      | none => none
      | some (e, s4) =>
        match (vdCommaLoopF tks fuel s4) with
        | none => none
        | some s5 =>
          some (ASTNode.varDeclaration declType identTok.value (some e),
                (consume tks s5 TokenType.SEMICOLON msgSemiVarDecl).2)
    else
      match (vdCommaLoopF tks fuel s3) with
      | none => none
      | some s5 =>
        some (ASTNode.varDeclaration declType identTok.value none,
              (consume tks s5 TokenType.SEMICOLON msgSemiVarDecl).2)

/-- The extra-declarator loop of parseVarDeclaration (592-597). -/
def vdCommaLoopF (tks : List Token) : Nat → PState → Option PState
  | 0, _ => none
  | fuel + 1, s =>
    let (m, s1) := matchTok tks s TokenType.COMMA
    if m then
      let s2 := (consume tks s1 TokenType.IDENTIFIER msgVarNameComma).2
      let (mA, s3) := matchTok tks s2 TokenType.ASSIGN
      if mA then
        match (parseExpressionF tks fuel s3) with
        | none => none
        | some (_, s4) => vdCommaLoopF tks fuel s4
      else
        vdCommaLoopF tks fuel s3
    else
      some s

/-- Parser::parseAssignment (603-618): builds a BinaryExpr "=" wrapped
    in an expression statement. -/
def parseAssignmentF (tks : List Token) : Nat → PState → Option (ASTNode × PState)
  | 0, _ => none
  | fuel + 1, s =>
    let (identTok, s1) := consume tks s TokenType.IDENTIFIER msgExpectedIdent
    let s2 := (consume tks s1 TokenType.ASSIGN msgExpectedAssign).2
    match (parseExpressionF tks fuel s2) with
    | none => none
    | some (e, s3) =>
      let node := ASTNode.binaryExpression strAssignOp (some (ASTNode.identifier identTok.value)) (some e)
      some (ASTNode.expressionStatement (some node), (consume tks s3 TokenType.SEMICOLON msgSemiAssign).2)

/-- Parser::parseIfStatement (620-637): condition and branches; the `else`
    check runs right after the then-branch, before control returns to any
    enclosing `if`. -/
def parseIfStatementF (tks : List Token) : Nat → PState → Option (ASTNode × PState)
  | 0, _ => none
  | fuel + 1, s =>
    let s1 := (consume tks s TokenType.LPAREN msgLParenIf).2
    match (parseExpressionF tks fuel s1) with
    | none => none
    | some (cond, s2) =>
      let s3 := (consume tks s2 TokenType.RPAREN msgRParenIf).2
      match (parseStatementF tks fuel s3) with
      | none => none
      | some (thenStmt, s4) =>
        match (skipNewlinesF tks fuel s4) with
        | none => none
        | some s5 =>
          let (mE, s6) := matchTok tks s5 TokenType.ELSE
          if mE then
            match (parseStatementF tks fuel s6) with
            | none => none
            | some (elseStmt, s7) =>
              some (ASTNode.ifStatement (some cond) thenStmt elseStmt, s7)
          else
            some (ASTNode.ifStatement (some cond) thenStmt none, s6)

/-- Parser::parseWhileStatement (639-649). -/
def parseWhileStatementF (tks : List Token) : Nat → PState → Option (ASTNode × PState)
  | 0, _ => none
  | fuel + 1, s =>
    let s1 := (consume tks s TokenType.LPAREN msgLParenWhile).2
    match (parseExpressionF tks fuel s1) with
    | none => none
    | some (cond, s2) =>
      let s3 := (consume tks s2 TokenType.RPAREN msgRParenWhile).2
      match (parseStatementF tks fuel s3) with
      | none => none
      | some (body, s4) =>
        some (ASTNode.whileStatement (some cond) body, s4)

/-- The init clause of Parser::parseForStatement (654-663). -/
def forInitStepF (tks : List Token) : Nat → PState → Option (Option ASTNode × PState)
  | 0, _ => none
  | fuel + 1, s1 =>
    if checkTok tks s1 TokenType.INT ∨ checkTok tks s1 TokenType.FLOAT_KW ∨ checkTok tks s1 TokenType.CHAR then
      match (parseVarDeclarationF tks fuel s1) with
      | none => none
      | some (vd, sA) => some (some vd, sA)
    else if ¬ checkTok tks s1 TokenType.SEMICOLON then
      match (parseExpressionF tks fuel s1) with
      | none => none
      | some (e, sA) => some (some e, (consume tks sA TokenType.SEMICOLON msgSemiForInit).2)
    else
      some (none, (consume tks s1 TokenType.SEMICOLON msgSemiForInit).2)

/-- The condition clause of Parser::parseForStatement (665-668). -/
def forCondStepF (tks : List Token) : Nat → PState → Option (Option ASTNode × PState)
  | 0, _ => none
  | fuel + 1, s2 =>
    if ¬ checkTok tks s2 TokenType.SEMICOLON then
      match (parseExpressionF tks fuel s2) with
      | none => none
      | some (e, sA) => some (some e, sA)
    else
      some (none, s2)

/-- The update clause of Parser::parseForStatement (672-675). -/
def forUpdStepF (tks : List Token) : Nat → PState → Option (Option ASTNode × PState)
  | 0, _ => none
  | fuel + 1, s4 =>
    if ¬ checkTok tks s4 TokenType.RPAREN then
      match (parseExpressionF tks fuel s4) with
      | none => none
      | some (e, sA) => some (some e, sA)
    else
      some (none, s4)

/-- Parser::parseForStatement (651-682). -/
def parseForStatementF (tks : List Token) : Nat → PState → Option (ASTNode × PState)
  | 0, _ => none
  | fuel + 1, s =>
    let s1 := (consume tks s TokenType.LPAREN msgLParenFor).2
    match (forInitStepF tks fuel s1) with
    | none => none
    | some (initOpt, s2) =>
      match (forCondStepF tks fuel s2) with
      | none => none
      | some (condOpt, s3) =>
        let s4 := (consume tks s3 TokenType.SEMICOLON msgSemiForCond).2
        match (forUpdStepF tks fuel s4) with
        | none => none
        | some (updOpt, s5) =>
          let s6 := (consume tks s5 TokenType.RPAREN msgRParenFor).2
          match (parseStatementF tks fuel s6) with
          | none => none
          | some (body, s7) =>
            some (ASTNode.forStatement initOpt condOpt updOpt body, s7)

/-- Parser::parseCompoundStatement (684-712). -/
def parseCompoundStatementF (tks : List Token) : Nat → PState → Option (ASTNode × PState)
  | 0, _ => none
  | fuel + 1, s =>
    let s1 := (consume tks s TokenType.LBRACE msgLBrace).2
    match (skipNewlinesF tks fuel s1) with
    | none => none
    | some s2 =>
      match (compoundLoopF tks fuel [] s2) with
      | none => none
      | some (stmts, s3) =>
        some (ASTNode.compoundStatement stmts, (consume tks s3 TokenType.RBRACE msgRBrace).2)

/-- The statement loop of parseCompoundStatement (692-708), with the
    forced-progress stuck check. -/
def compoundLoopF (tks : List Token) : Nat → List ASTNode → PState → Option (List ASTNode × PState)
  | 0, _, _ => none
  | fuel + 1, stmts, s =>
    if checkTok tks s TokenType.RBRACE ∨ isAtEnd tks s then
      some (stmts, s)
    else
      let oldPos := s.pos
      match (parseStatementF tks fuel s) with
      | none => none
      | some (stmtOpt, s1) =>
        let stmts1 := match stmtOpt with
          | some st => stmts ++ [st]
          | none => stmts
        match (skipNewlinesF tks fuel s1) with
        | none => none
        | some s2 =>
          if s2.pos = oldPos ∧ ¬ (isAtEnd tks s2) ∧ ¬ checkTok tks s2 TokenType.RBRACE then
            compoundLoopF tks fuel stmts1 (advanceP tks (recordError tks s2 msgStuckCompound))
          else if s2.pos = oldPos then
            some (stmts1, s2)
          else
            compoundLoopF tks fuel stmts1 s2

/-- Parser::parseReturnStatement (714-723). -/
def parseReturnStatementF (tks : List Token) : Nat → PState → Option (ASTNode × PState)
  | 0, _ => none
  | fuel + 1, s =>
    if ¬ checkTok tks s TokenType.SEMICOLON then
      match (parseExpressionF tks fuel s) with
      | none => none
      | some (e, s1) =>
        some (ASTNode.returnStatement (some e), (consume tks s1 TokenType.SEMICOLON msgSemiReturn).2)
    else
      some (ASTNode.returnStatement none, (consume tks s TokenType.SEMICOLON msgSemiReturn).2)

/-- Parser::parseExpressionStatement (725-773).  The try/catch in the
    source is dead control flow: no routine reachable from parseExpression
    throws, so the embedding omits the catch branch. -/
def parseExpressionStatementF (tks : List Token) : Nat → PState → Option (Option ASTNode × PState)
  | 0, _ => none
  | fuel + 1, s =>
    if checkTok tks s TokenType.RBRACE ∨ isAtEnd tks s then
      some (none, s)
    else if checkTok tks s TokenType.SEMICOLON then
      some (none, advanceP tks s)
    else if checkTok tks s TokenType.INCREMENT ∨ checkTok tks s TokenType.DECREMENT then
      let opType := (getCurrentToken tks s).type
      let s1 := advanceP tks s
      if checkTok tks s1 TokenType.IDENTIFIER then
        let varName := (getCurrentToken tks s1).value
        let s2 := advanceP tks s1
        let op := if opType = TokenType.INCREMENT then strPlusPlus else strMinusMinus
        some (some (ASTNode.identifier (op ++ varName)),
              (consume tks s2 TokenType.SEMICOLON msgSemiIncDec).2)
      else
        let opName := if opType = TokenType.INCREMENT then strIncrement else strDecrement
        some (none, recordError tks s1 (msgIdentAfter opName))
    else
      match (parseExpressionF tks fuel s) with
      | none => none
      | some (e, s1) =>
        some (some (ASTNode.expressionStatement (some e)),
              (consume tks s1 TokenType.SEMICOLON msgSemiExpr).2)

/-- The top-level statement loop of Parser::parseProgram (381-401), with
    the forced-progress stuck check. -/
def programLoopF (tks : List Token) : Nat → List ASTNode → PState → Option (List ASTNode × PState)
  | 0, _, _ => none
  | fuel + 1, stmts, s =>
    if isAtEnd tks s then
      some (stmts, s)
    else
      let oldPos := s.pos
      match (parseStatementF tks fuel s) with
      | none => none
      | some (stmtOpt, s1) =>
        let stmts1 := match stmtOpt with
          | some st => stmts ++ [st]
          | none => stmts
        match (skipNewlinesF tks fuel s1) with
        | none => none
        | some s2 =>
          if s2.pos = oldPos ∧ ¬ (isAtEnd tks s2) then
            programLoopF tks fuel stmts1 (advanceP tks (recordError tks s2 msgStuckProgram))
          else if s2.pos = oldPos then
            some (stmts1, s2)
          else
            programLoopF tks fuel stmts1 s2

/-- Parser::parseProgram (375-404).  The try/catch with synchronize() is
    dead control flow (no reachable routine throws) and is omitted. -/
def parseProgramF (tks : List Token) : Nat → PState → Option (ASTNode × PState)
  | 0, _ => none
  | fuel + 1, s =>
    match (skipNewlinesF tks fuel s) with
    | none => none
    | some s1 =>
      match (programLoopF tks fuel [] s1) with
      | none => none
      | some (stmts, s2) => some (ASTNode.program stmts, s2)

end

/-- Fuel shown sufficient for a whole parse from cursor position 0. -/
def parserFuel (tks : List Token) : Nat :=
  64 * tks.length + 64

/-- Parser::parse (941-946): reset cursor and errors, then parseProgram. -/
def parseF (tks : List Token) : Option (ASTNode × PState) :=
  parseProgramF tks (parserFuel tks) (PState.mk 0 [])

end Parser

/-- Rank adjustment: 1 when the cursor sits on an LBRACE (entering a
    compound statement costs one extra dispatch through parseStatement). -/
def lbP (tks : List Token) (s : PState) : Nat :=
  if (Parser.getCurrentToken tks s).type = TokenType.LBRACE then 1 else 0

/-! ### Glue and claim-specific definitions -/

/-- Full scan of a source string (main.cpp feeds `tokenize()`-produced
    vectors to the Parser); `[]` only on fuel exhaustion, which the
    sufficiency theorems rule out at this fuel. -/
def lexTokens (src : String) : List Token :=
  match (Lexer.tokenizeF (src.toList.length + 5) (Lexer.init src.toList)) with
  | some (ts, _) => ts
  | none => []

/-- The lexical errors collected by a full scan of a source string. -/
def lexErrors (src : String) : List LexicalError :=
  match (Lexer.tokenizeF (src.toList.length + 5) (Lexer.init src.toList)) with
  | some (_, lx) => lx.errors
  | none => []

/-- Scanner followed by parser, as driven by main.cpp. -/
def runPipeline (src : String) : Option (ASTNode × PState) :=
  Parser.parseF (lexTokens src)

/-- The binary operators of the expression grammar with their texts. -/
def binOps : List (TokenType × String) :=
  [(TokenType.OR, "||"), (TokenType.AND, "&&"),
   (TokenType.EQ, "=="), (TokenType.NE, "!="),
   (TokenType.LANGLE, "<"), (TokenType.LE, "<="), (TokenType.RANGLE, ">"), (TokenType.GE, ">="),
   (TokenType.PLUS, "+"), (TokenType.MINUS, "-"),
   (TokenType.MULTIPLY, "*"), (TokenType.DIVIDE, "/"), (TokenType.MODULO, "%")]

/-- The precedence levels stated by the spec, ascending:
    `||` < `&&` < equality < relational < additive < multiplicative. -/
def precOf (t : TokenType) : Nat :=
  match t with
  | TokenType.OR => 1
  | TokenType.AND => 2
  | TokenType.EQ => 3
  | TokenType.NE => 3
  | TokenType.LANGLE => 4
  | TokenType.LE => 4
  | TokenType.RANGLE => 4
  | TokenType.GE => 4
  | TokenType.PLUS => 5
  | TokenType.MINUS => 5
  | TokenType.MULTIPLY => 6
  | TokenType.DIVIDE => 6
  | TokenType.MODULO => 6
  | _ => 0

def idTok (v : String) (c : Nat) : Token := Token.mk TokenType.IDENTIFIER v 1 c

def opTok (p : TokenType × String) (c : Nat) : Token := Token.mk p.1 p.2 1 c

def eofTok (c : Nat) : Token := Token.mk TokenType.EOF_TOKEN "" 1 c

/-- Token sequence for `a o1 b o2 c`. -/
def pairToks (o1 o2 : TokenType × String) : List Token :=
  [idTok "a" 1, opTok o1 2, idTok "b" 3, opTok o2 4, idTok "c" 5, eofTok 6]

/-- Token sequence for `a o1 b o2 c o3 d`. -/
def tripleToks (o1 o2 o3 : TokenType × String) : List Token :=
  [idTok "a" 1, opTok o1 2, idTok "b" 3, opTok o2 4, idTok "c" 5, opTok o3 6, idTok "d" 7, eofTok 8]

/-- Run the expression parser on a token list from cursor 0. -/
def runExpr (tks : List Token) : Option (ASTNode × PState) :=
  Parser.parseExpressionF tks (Parser.parserFuel tks) (PState.mk 0 [])

/-- `(a o1 b) o2 c` with no diagnostics and all tokens consumed. -/
def leftShape (o1 o2 : String) (n : Nat) (r : Option (ASTNode × PState)) : Bool :=
  match r with
  | some (ASTNode.binaryExpression q2
      (some (ASTNode.binaryExpression q1 (some (ASTNode.identifier a)) (some (ASTNode.identifier b))))
      (some (ASTNode.identifier c)), s) =>
    q1 == o1 && q2 == o2 && a == "a" && b == "b" && c == "c" && s.errors.isEmpty && s.pos == n
  | _ => false

/-- `a o1 (b o2 c)` with no diagnostics and all tokens consumed. -/
def rightShape (o1 o2 : String) (n : Nat) (r : Option (ASTNode × PState)) : Bool :=
  match r with
  | some (ASTNode.binaryExpression q1
      (some (ASTNode.identifier a))
      (some (ASTNode.binaryExpression q2 (some (ASTNode.identifier b)) (some (ASTNode.identifier c)))), s) =>
    q1 == o1 && q2 == o2 && a == "a" && b == "b" && c == "c" && s.errors.isEmpty && s.pos == n
  | _ => false

/-- `((a o1 b) o2 c) o3 d`: the fully left-leaning shape. -/
def leftShape3 (o1 o2 o3 : String) (n : Nat) (r : Option (ASTNode × PState)) : Bool :=
  match r with
  | some (ASTNode.binaryExpression q3
      (some (ASTNode.binaryExpression q2
        (some (ASTNode.binaryExpression q1 (some (ASTNode.identifier a)) (some (ASTNode.identifier b))))
        (some (ASTNode.identifier c))))
      (some (ASTNode.identifier d)), s) =>
    q1 == o1 && q2 == o2 && q3 == o3 && a == "a" && b == "b" && c == "c" && d == "d" &&
      s.errors.isEmpty && s.pos == n
  | _ => false

/-- Expected grouping of `a o1 b o2 c`: equal-or-lower precedence on the
    right groups left (left associativity), higher precedence on the right
    binds tighter. -/
def pairOK (o1 o2 : TokenType × String) : Bool :=
  if precOf o2.1 ≤ precOf o1.1 then
    leftShape o1.2 o2.2 5 (runExpr (pairToks o1 o2))
  else
    rightShape o1.2 o2.2 5 (runExpr (pairToks o1 o2))

/-- Every ordered pair of binary operators groups as the precedence table
    dictates. -/
def allPairsOK : Bool :=
  binOps.all (fun o1 => binOps.all (fun o2 => pairOK o1 o2))

/-- Equal-precedence operator pairs, for associativity chains. -/
def samePrecPairsOK : Bool :=
  binOps.all (fun o1 => binOps.all (fun o2 => binOps.all (fun o3 =>
    if precOf o1.1 = precOf o2.1 ∧ precOf o2.1 = precOf o3.1 then
      leftShape3 o1.2 o2.2 o3.2 7 (runExpr (tripleToks o1 o2 o3))
    else
      true)))

/-- `- a * b` parses as `(-a) * b` and `! a && b` as `(!a) && b`:
    prefix unary binds tighter than any binary operator. -/
def unaryChecksOK : Bool :=
  let t1 := [Token.mk TokenType.MINUS "-" 1 1, idTok "a" 2, opTok (TokenType.MULTIPLY, "*") 3,
             idTok "b" 4, eofTok 5]
  let t2 := [Token.mk TokenType.NOT "!" 1 1, idTok "a" 2, opTok (TokenType.AND, "&&") 3,
             idTok "b" 4, eofTok 5]
  let c1 := match (runExpr t1) with
    | some (ASTNode.binaryExpression q
        (some (ASTNode.unaryExpression u (some (ASTNode.identifier a))))
        (some (ASTNode.identifier b)), s) =>
      q == "*" && u == "-" && a == "a" && b == "b" && s.errors.isEmpty && s.pos == 4
    | _ => false
  let c2 := match (runExpr t2) with
    | some (ASTNode.binaryExpression q
        (some (ASTNode.unaryExpression u (some (ASTNode.identifier a))))
        (some (ASTNode.identifier b)), s) =>
      q == "&&" && u == "!" && a == "a" && b == "b" && s.errors.isEmpty && s.pos == 4
    | _ => false
  c1 && c2

/-- Well-formedness of expression trees: every BinaryExpr has both operands
    and every UnaryExpr has its operand (the slots the grammar requires). -/
def exprWF : ASTNode → Bool
  | ASTNode.binaryExpression _ l r =>
    (match l with
     | some x => exprWF x
     | none => false) &&
    (match r with
     | some x => exprWF x
     | none => false)
  | ASTNode.unaryExpression _ o =>
    (match o with
     | some x => exprWF x
     | none => false)
  | ASTNode.functionCall _ args => args.attach.all (fun x => exprWF x.1)
  | _ => true
decreasing_by
  all_goals try (obtain ⟨y, hy⟩ := x; have h := List.sizeOf_lt_of_mem hy; simp; omega)
  all_goals (simp; omega)

/-- Source text of the spec's dangling-else test. -/
def srcDangling : String := "if (a) if (b) x=1; else x=2;"

/-- Source text for the absent-then-branch counterexample. -/
def srcIfNoThen : String := "if (a)"

/-- Source text demonstrating multi-error accumulation. -/
def srcTwoErrors : String := "x = ;\ny = ;"

/-- Source text of the spec's unterminated-comment test. -/
def srcUnterm : String := "/* unterminated"

/-- A token list on which one parseStatement iteration makes no cursor
    progress (a bare `)` can neither start a statement nor an expression). -/
def c7Toks : List Token := [Token.mk TokenType.RPAREN ")" 1 1, Token.mk TokenType.EOF_TOKEN "" 1 2]

/-- The statement node produced by parseStatement on `c7Toks`. -/
def c7Stmt : Option ASTNode :=
  some (ASTNode.expressionStatement (some (ASTNode.literal "ERROR" TokenType.ERROR)))

/-- The parser state after that iteration: cursor unmoved, two diagnostics. -/
def c7S1 : PState :=
  PState.mk 0 [SyntaxError.mk Parser.msgExpectedExpr 1 1, SyntaxError.mk Parser.msgSemiExpr 1 1]

/-- The state after the newline skip that follows (no newline: unchanged). -/
def c7S2 : PState := c7S1

/-- Tokens of `(a) x = 1;`: the input to parseIfStatement / parseWhileStatement
    after their keyword has been consumed. -/
def c3IfToks : List Token := lexTokens "(a) x = 1;"

/-- The if-statement node parsed from `c3IfToks`. -/
def c3IfNode : ASTNode :=
  ASTNode.ifStatement (some (ASTNode.identifier "a"))
    (some (ASTNode.expressionStatement (some (ASTNode.binaryExpression "="
      (some (ASTNode.identifier "x")) (some (ASTNode.literal "1" TokenType.INTEGER))))))
    none

/-- The while-statement node parsed from `c3IfToks`. -/
def c3WhileNode : ASTNode :=
  ASTNode.whileStatement (some (ASTNode.identifier "a"))
    (some (ASTNode.expressionStatement (some (ASTNode.binaryExpression "="
      (some (ASTNode.identifier "x")) (some (ASTNode.literal "1" TokenType.INTEGER))))))

/-- The expression parsed from `1 + 2`. -/
def c3ExprNode : ASTNode :=
  ASTNode.binaryExpression "+" (some (ASTNode.literal "1" TokenType.INTEGER))
    (some (ASTNode.literal "2" TokenType.INTEGER))

/-! ### Lexer lemmas -/

theorem advanceLx_pos (lx : Lexer) : (Lexer.advanceLx lx).pos = lx.pos + 1 := by
  unfold Lexer.advanceLx; split <;> rfl

theorem advanceLx_text (lx : Lexer) : (Lexer.advanceLx lx).text = lx.text := by
  unfold Lexer.advanceLx; split <;> rfl

theorem advanceLx_tokens (lx : Lexer) : (Lexer.advanceLx lx).tokens = lx.tokens := by
  unfold Lexer.advanceLx; split <;> rfl

theorem advanceLx_errors (lx : Lexer) : (Lexer.advanceLx lx).errors = lx.errors := by
  unfold Lexer.advanceLx; split <;> rfl

theorem currentChar_advanceLx (lx : Lexer) :
    Lexer.currentChar (Lexer.advanceLx lx) = Lexer.peekChar lx 1 := by
  unfold Lexer.currentChar Lexer.peekChar Lexer.advanceLx; split <;> rfl

theorem currentChar_lt (lx : Lexer) (h : Lexer.currentChar lx ≠ nulChar) :
    lx.pos < lx.text.length := by
  by_contra hn
  push_neg at hn
  exact h (List.getD_eq_default _ _ hn)

theorem skipWhitespaceF_some : ∀ (fuel : Nat) (lx lx1 : Lexer),
    Lexer.skipWhitespaceF fuel lx = some lx1 →
    lx1.text = lx.text ∧ lx1.tokens = lx.tokens ∧ lx1.errors = lx.errors ∧ lx.pos ≤ lx1.pos := by
  intro fuel
  induction fuel with
  | zero => intro lx lx1 h; simp [Lexer.skipWhitespaceF] at h
  | succ f ih =>
    intro lx lx1 h
    simp only [Lexer.skipWhitespaceF] at h
    split at h
    · obtain ⟨h1, h2, h3, h4⟩ := ih _ _ h
      rw [advanceLx_text] at h1
      rw [advanceLx_tokens] at h2
      rw [advanceLx_errors] at h3
      rw [advanceLx_pos] at h4
      exact ⟨h1, h2, h3, by omega⟩
    · simp only [Option.some.injEq] at h
      subst h
      exact ⟨rfl, rfl, rfl, Nat.le_refl _⟩

theorem lineCommentF_some : ∀ (fuel : Nat) (lx lx1 : Lexer),
    Lexer.lineCommentF fuel lx = some lx1 →
    lx1.text = lx.text ∧ lx1.tokens = lx.tokens ∧ lx1.errors = lx.errors ∧ lx.pos ≤ lx1.pos := by
  intro fuel
  induction fuel with
  | zero => intro lx lx1 h; simp [Lexer.lineCommentF] at h
  | succ f ih =>
    intro lx lx1 h
    simp only [Lexer.lineCommentF] at h
    split at h
    · obtain ⟨h1, h2, h3, h4⟩ := ih _ _ h
      rw [advanceLx_text] at h1
      rw [advanceLx_tokens] at h2
      rw [advanceLx_errors] at h3
      rw [advanceLx_pos] at h4
      exact ⟨h1, h2, h3, by omega⟩
    · simp only [Option.some.injEq] at h
      subst h
      exact ⟨rfl, rfl, rfl, Nat.le_refl _⟩

theorem blockCommentF_some : ∀ (fuel : Nat) (lx : Lexer) (b : Bool) (lx1 : Lexer),
    Lexer.blockCommentF fuel lx = some (b, lx1) →
    lx1.text = lx.text ∧ lx1.tokens = lx.tokens ∧ lx1.errors = lx.errors ∧ lx.pos ≤ lx1.pos := by
  intro fuel
  induction fuel with
  | zero => intro lx b lx1 h; simp [Lexer.blockCommentF] at h
  | succ f ih =>
    intro lx b lx1 h
    simp only [Lexer.blockCommentF] at h
    split at h
    · split at h
      · simp only [Option.some.injEq, Prod.mk.injEq] at h
        obtain ⟨-, h2⟩ := h
        subst h2
        refine ⟨?_, ?_, ?_, ?_⟩ <;>
          simp [advanceLx_text, advanceLx_tokens, advanceLx_errors, advanceLx_pos]
        omega
      · obtain ⟨h1, h2, h3, h4⟩ := ih _ _ _ h
        rw [advanceLx_text] at h1
        rw [advanceLx_tokens] at h2
        rw [advanceLx_errors] at h3
        rw [advanceLx_pos] at h4
        exact ⟨h1, h2, h3, by omega⟩
    · simp only [Option.some.injEq, Prod.mk.injEq] at h
      obtain ⟨-, h2⟩ := h
      subst h2
      exact ⟨rfl, rfl, rfl, Nat.le_refl _⟩

theorem skipCommentF_some : ∀ (fuel : Nat) (lx : Lexer) (b : Bool) (lx1 : Lexer),
    Lexer.skipCommentF fuel lx = some (b, lx1) →
    lx1.text = lx.text ∧ lx1.tokens = lx.tokens ∧ lx.pos ≤ lx1.pos := by
  intro fuel lx b lx1 h
  match fuel with
  | 0 => simp [Lexer.skipCommentF] at h
  | f + 1 =>
    simp only [Lexer.skipCommentF] at h
    split at h
    · cases hl : Lexer.lineCommentF f lx with
      | none => rw [hl] at h; simp at h
      | some lxA =>
        rw [hl] at h
        simp only [Option.some.injEq, Prod.mk.injEq] at h
        obtain ⟨-, h2⟩ := h
        subst h2
        obtain ⟨h1, h2, h3, h4⟩ := lineCommentF_some f lx lxA hl
        exact ⟨h1, h2, h4⟩
    · split at h
      · cases hb : Lexer.blockCommentF f (Lexer.advanceLx (Lexer.advanceLx lx)) with
        | none => rw [hb] at h; simp at h
        | some p =>
          obtain ⟨closed, lxA⟩ := p
          rw [hb] at h
          obtain ⟨h1, h2, h3, h4⟩ := blockCommentF_some f _ _ _ hb
          rw [advanceLx_text, advanceLx_text] at h1
          rw [advanceLx_tokens, advanceLx_tokens] at h2
          rw [advanceLx_pos, advanceLx_pos] at h4
          simp only at h
          split at h
          · simp only [Option.some.injEq, Prod.mk.injEq] at h
            obtain ⟨-, h5⟩ := h
            subst h5
            exact ⟨h1, h2, by omega⟩
          · simp only [Option.some.injEq, Prod.mk.injEq] at h
            obtain ⟨-, h5⟩ := h
            subst h5
            refine ⟨h1, h2, ?_⟩
            show lx.pos ≤ lxA.pos
            omega
      · simp only [Option.some.injEq, Prod.mk.injEq] at h
        obtain ⟨-, h2⟩ := h
        subst h2
        exact ⟨rfl, rfl, Nat.le_refl _⟩

theorem readNumberLoopF_some : ∀ (fuel : Nat) (lx : Lexer) (hd : Bool) (acc res : List Char)
    (hd1 : Bool) (lx1 : Lexer),
    Lexer.readNumberLoopF fuel lx hd acc = some (res, hd1, lx1) →
    lx1.text = lx.text ∧ lx1.tokens = lx.tokens ∧ lx1.errors = lx.errors ∧ lx.pos ≤ lx1.pos := by
  intro fuel
  induction fuel with
  | zero => intro lx hd acc res hd1 lx1 h; simp [Lexer.readNumberLoopF] at h
  | succ f ih =>
    intro lx hd acc res hd1 lx1 h
    simp only [Lexer.readNumberLoopF] at h
    split at h
    · split at h
      · split at h
        · simp only [Option.some.injEq, Prod.mk.injEq] at h
          obtain ⟨-, -, h3⟩ := h
          subst h3
          exact ⟨rfl, rfl, rfl, Nat.le_refl _⟩
        · split at h
          · simp only [Option.some.injEq, Prod.mk.injEq] at h
            obtain ⟨-, -, h3⟩ := h
            subst h3
            exact ⟨rfl, rfl, rfl, Nat.le_refl _⟩
          · obtain ⟨h1, h2, h3, h4⟩ := ih _ _ _ _ _ _ h
            rw [advanceLx_text] at h1
            rw [advanceLx_tokens] at h2
            rw [advanceLx_errors] at h3
            rw [advanceLx_pos] at h4
            exact ⟨h1, h2, h3, by omega⟩
      · obtain ⟨h1, h2, h3, h4⟩ := ih _ _ _ _ _ _ h
        rw [advanceLx_text] at h1
        rw [advanceLx_tokens] at h2
        rw [advanceLx_errors] at h3
        rw [advanceLx_pos] at h4
        exact ⟨h1, h2, h3, by omega⟩
    · simp only [Option.some.injEq, Prod.mk.injEq] at h
      obtain ⟨-, -, h3⟩ := h
      subst h3
      exact ⟨rfl, rfl, rfl, Nat.le_refl _⟩

/-- The key scanning invariant of Lexer::readNumber: provided the
    accumulated run can end in `'.'` only when a digit is the current
    character (true initially, the run being empty), the returned run never
    ends in `'.'` — the one-character lookahead admits a `'.'` only when a
    digit follows and that digit is consumed next. -/
theorem readNumberLoopF_no_dot : ∀ (fuel : Nat) (lx : Lexer) (hd : Bool) (acc res : List Char)
    (hd1 : Bool) (lx1 : Lexer),
    Lexer.readNumberLoopF fuel lx hd acc = some (res, hd1, lx1) →
    (acc.getLast? = some '.' → cIsDigit (Lexer.currentChar lx) = true) →
    res.getLast? ≠ some '.' := by
  intro fuel
  induction fuel with
  | zero => intro lx hd acc res hd1 lx1 h _; simp [Lexer.readNumberLoopF] at h
  | succ f ih =>
    intro lx hd acc res hd1 lx1 h hacc
    simp only [Lexer.readNumberLoopF] at h
    split at h
    case isTrue hcond =>
      split at h
      case isTrue hdot =>
        split at h
        case isTrue hnd =>
          simp only [Option.some.injEq, Prod.mk.injEq] at h
          obtain ⟨h1, -, -⟩ := h
          subst h1
          intro hlast
          have hdig := hacc hlast
          rw [hdot] at hdig
          exact absurd hdig (by decide)
        case isFalse hnd =>
          split at h
          case isTrue hhd =>
            simp only [Option.some.injEq, Prod.mk.injEq] at h
            obtain ⟨h1, -, -⟩ := h
            subst h1
            intro hlast
            have hdig := hacc hlast
            rw [hdot] at hdig
            exact absurd hdig (by decide)
          case isFalse hhd =>
            refine ih _ _ _ _ _ _ h ?_
            intro _
            rw [currentChar_advanceLx]
            simp at hnd
            exact hnd
      case isFalse hdot =>
        refine ih _ _ _ _ _ _ h ?_
        intro hlast
        rw [List.getLast?_concat] at hlast
        simp only [Option.some.injEq] at hlast
        exact absurd hlast hdot
    case isFalse hcond =>
      simp only [Option.some.injEq, Prod.mk.injEq] at h
      obtain ⟨h1, -, -⟩ := h
      subst h1
      intro hlast
      have hdig := hacc hlast
      apply hcond
      refine ⟨?_, Or.inl hdig⟩
      intro hn
      rw [hn] at hdig
      exact absurd hdig (by decide)

theorem readIdentLoopF_some : ∀ (fuel : Nat) (lx : Lexer) (acc res : List Char) (lx1 : Lexer),
    Lexer.readIdentLoopF fuel lx acc = some (res, lx1) →
    lx1.text = lx.text ∧ lx1.tokens = lx.tokens ∧ lx1.errors = lx.errors ∧ lx.pos ≤ lx1.pos := by
  intro fuel
  induction fuel with
  | zero => intro lx acc res lx1 h; simp [Lexer.readIdentLoopF] at h
  | succ f ih =>
    intro lx acc res lx1 h
    simp only [Lexer.readIdentLoopF] at h
    split at h
    · obtain ⟨h1, h2, h3, h4⟩ := ih _ _ _ _ h
      rw [advanceLx_text] at h1
      rw [advanceLx_tokens] at h2
      rw [advanceLx_errors] at h3
      rw [advanceLx_pos] at h4
      exact ⟨h1, h2, h3, by omega⟩
    · simp only [Option.some.injEq, Prod.mk.injEq] at h
      obtain ⟨-, h2⟩ := h
      subst h2
      exact ⟨rfl, rfl, rfl, Nat.le_refl _⟩

theorem readStringLoopF_some : ∀ (fuel : Nat) (lx : Lexer) (q : Char) (acc res : List Char) (lx1 : Lexer),
    Lexer.readStringLoopF fuel lx q acc = some (res, lx1) →
    lx1.text = lx.text ∧ lx1.tokens = lx.tokens ∧ lx1.errors = lx.errors ∧ lx.pos ≤ lx1.pos := by
  intro fuel
  induction fuel with
  | zero => intro lx q acc res lx1 h; simp [Lexer.readStringLoopF] at h
  | succ f ih =>
    intro lx q acc res lx1 h
    simp only [Lexer.readStringLoopF] at h
    split at h
    · split at h
      · split at h
        · obtain ⟨h1, h2, h3, h4⟩ := ih _ _ _ _ _ h
          rw [advanceLx_text, advanceLx_text] at h1
          rw [advanceLx_tokens, advanceLx_tokens] at h2
          rw [advanceLx_errors, advanceLx_errors] at h3
          rw [advanceLx_pos, advanceLx_pos] at h4
          exact ⟨h1, h2, h3, by omega⟩
        · obtain ⟨h1, h2, h3, h4⟩ := ih _ _ _ _ _ h
          rw [advanceLx_text] at h1
          rw [advanceLx_tokens] at h2
          rw [advanceLx_errors] at h3
          rw [advanceLx_pos] at h4
          exact ⟨h1, h2, h3, by omega⟩
      · obtain ⟨h1, h2, h3, h4⟩ := ih _ _ _ _ _ h
        rw [advanceLx_text] at h1
        rw [advanceLx_tokens] at h2
        rw [advanceLx_errors] at h3
        rw [advanceLx_pos] at h4
        exact ⟨h1, h2, h3, by omega⟩
    · simp only [Option.some.injEq, Prod.mk.injEq] at h
      obtain ⟨-, h2⟩ := h
      subst h2
      exact ⟨rfl, rfl, rfl, Nat.le_refl _⟩

theorem readNumberF_some : ∀ (fuel : Nat) (lx : Lexer) (t : Token) (lx1 : Lexer),
    Lexer.readNumberF fuel lx = some (t, lx1) →
    lx1.text = lx.text ∧ lx1.tokens = lx.tokens ∧ lx.pos ≤ lx1.pos := by
  intro fuel lx t lx1 h
  match fuel with
  | 0 => simp [Lexer.readNumberF] at h
  | f + 1 =>
    simp only [Lexer.readNumberF] at h
    cases hl : Lexer.readNumberLoopF f lx false [] with
    | none => rw [hl] at h; simp at h
    | some r =>
      obtain ⟨res, hd1, lxA⟩ := r
      rw [hl] at h
      obtain ⟨h1, h2, h3, h4⟩ := readNumberLoopF_some f lx false [] res hd1 lxA hl
      simp only [Lexer.createErrorToken] at h
      split at h
      · simp only [Option.some.injEq, Prod.mk.injEq] at h
        obtain ⟨-, h5⟩ := h
        subst h5
        refine ⟨h1, h2, ?_⟩
        show lx.pos ≤ lxA.pos
        omega
      · split at h <;>
        · simp only [Option.some.injEq, Prod.mk.injEq] at h
          obtain ⟨-, h5⟩ := h
          subst h5
          exact ⟨h1, h2, h4⟩

theorem readIdentifierF_some : ∀ (fuel : Nat) (lx : Lexer) (t : Token) (lx1 : Lexer),
    Lexer.readIdentifierF fuel lx = some (t, lx1) →
    lx1.text = lx.text ∧ lx1.tokens = lx.tokens ∧ lx1.errors = lx.errors ∧ lx.pos ≤ lx1.pos := by
  intro fuel lx t lx1 h
  match fuel with
  | 0 => simp [Lexer.readIdentifierF] at h
  | f + 1 =>
    simp only [Lexer.readIdentifierF] at h
    cases hl : Lexer.readIdentLoopF f lx [] with
    | none => rw [hl] at h; simp at h
    | some r =>
      obtain ⟨res, lxA⟩ := r
      rw [hl] at h
      simp only [Option.some.injEq, Prod.mk.injEq] at h
      obtain ⟨-, h5⟩ := h
      subst h5
      exact readIdentLoopF_some f lx [] res lxA hl

theorem readStringF_some : ∀ (fuel : Nat) (lx : Lexer) (t : Token) (lx1 : Lexer),
    Lexer.readStringF fuel lx = some (t, lx1) →
    lx1.text = lx.text ∧ lx1.tokens = lx.tokens ∧ lx.pos < lx1.pos := by
  intro fuel lx t lx1 h
  match fuel with
  | 0 => simp [Lexer.readStringF] at h
  | f + 1 =>
    simp only [Lexer.readStringF] at h
    cases hl : Lexer.readStringLoopF f (Lexer.advanceLx lx) (Lexer.currentChar lx) [] with
    | none => rw [hl] at h; simp at h
    | some r =>
      obtain ⟨res, lxA⟩ := r
      rw [hl] at h
      obtain ⟨h1, h2, h3, h4⟩ := readStringLoopF_some f _ _ _ _ _ hl
      rw [advanceLx_text] at h1
      rw [advanceLx_tokens] at h2
      rw [advanceLx_pos] at h4
      simp only [Lexer.createErrorToken] at h
      split at h
      · simp only [Option.some.injEq, Prod.mk.injEq] at h
        obtain ⟨-, h5⟩ := h
        subst h5
        refine ⟨h1, h2, ?_⟩
        show lx.pos < lxA.pos
        omega
      · simp only [Option.some.injEq, Prod.mk.injEq] at h
        obtain ⟨-, h5⟩ := h
        subst h5
        rw [advanceLx_text, advanceLx_tokens, advanceLx_pos]
        exact ⟨h1, h2, by omega⟩

theorem skipWhitespaceF_progress : ∀ (fuel : Nat) (lx lx1 : Lexer),
    Lexer.currentChar lx ≠ nulChar → cIsSpace (Lexer.currentChar lx) = true →
    Lexer.currentChar lx ≠ '\n' →
    Lexer.skipWhitespaceF fuel lx = some lx1 → lx.pos < lx1.pos := by
  intro fuel lx lx1 h1 h2 h3 h
  match fuel with
  | 0 => simp [Lexer.skipWhitespaceF] at h
  | f + 1 =>
    simp only [Lexer.skipWhitespaceF] at h
    rw [if_pos ⟨h1, h2, h3⟩] at h
    have := (skipWhitespaceF_some f _ _ h).2.2.2
    rw [advanceLx_pos] at this
    omega

theorem lineCommentF_progress : ∀ (fuel : Nat) (lx lx1 : Lexer),
    Lexer.currentChar lx ≠ nulChar → Lexer.currentChar lx ≠ '\n' →
    Lexer.lineCommentF fuel lx = some lx1 → lx.pos < lx1.pos := by
  intro fuel lx lx1 h1 h2 h
  match fuel with
  | 0 => simp [Lexer.lineCommentF] at h
  | f + 1 =>
    simp only [Lexer.lineCommentF] at h
    rw [if_pos ⟨h1, h2⟩] at h
    have := (lineCommentF_some f _ _ h).2.2.2
    rw [advanceLx_pos] at this
    omega

theorem skipCommentF_progress : ∀ (fuel : Nat) (lx : Lexer) (b : Bool) (lx1 : Lexer),
    Lexer.currentChar lx = '/' → (Lexer.peekChar lx 1 = '/' ∨ Lexer.peekChar lx 1 = '*') →
    Lexer.skipCommentF fuel lx = some (b, lx1) → lx.pos < lx1.pos := by
  intro fuel lx b lx1 h1 h2 h
  match fuel with
  | 0 => simp [Lexer.skipCommentF] at h
  | f + 1 =>
    simp only [Lexer.skipCommentF] at h
    split at h
    case isTrue hc =>
      cases hl : Lexer.lineCommentF f lx with
      | none => rw [hl] at h; simp at h
      | some lxA =>
        rw [hl] at h
        simp only [Option.some.injEq, Prod.mk.injEq] at h
        obtain ⟨-, h5⟩ := h
        subst h5
        exact lineCommentF_progress f lx lxA (by rw [h1]; decide) (by rw [h1]; decide) hl
    case isFalse hc =>
      split at h
      case isTrue hc2 =>
        cases hb : Lexer.blockCommentF f (Lexer.advanceLx (Lexer.advanceLx lx)) with
        | none => rw [hb] at h; simp at h
        | some p =>
          obtain ⟨closed, lxA⟩ := p
          rw [hb] at h
          have h4 := (blockCommentF_some f _ _ _ hb).2.2.2
          rw [advanceLx_pos, advanceLx_pos] at h4
          simp only at h
          split at h
          · simp only [Option.some.injEq, Prod.mk.injEq] at h
            obtain ⟨-, h5⟩ := h
            subst h5
            omega
          · simp only [Option.some.injEq, Prod.mk.injEq] at h
            obtain ⟨-, h5⟩ := h
            subst h5
            show lx.pos < lxA.pos
            omega
      case isFalse hc2 =>
        exfalso
        rcases h2 with h2 | h2
        · exact hc ⟨h1, h2⟩
        · exact hc2 ⟨h1, h2⟩

theorem readNumberLoopF_progress : ∀ (fuel : Nat) (lx : Lexer) (hd : Bool) (acc res : List Char)
    (hd1 : Bool) (lx1 : Lexer),
    cIsDigit (Lexer.currentChar lx) = true →
    Lexer.readNumberLoopF fuel lx hd acc = some (res, hd1, lx1) → lx.pos < lx1.pos := by
  intro fuel lx hd acc res hd1 lx1 hdig h
  match fuel with
  | 0 => simp [Lexer.readNumberLoopF] at h
  | f + 1 =>
    have hnn : Lexer.currentChar lx ≠ nulChar := by
      intro hn; rw [hn] at hdig; exact absurd hdig (by decide)
    have hnd : Lexer.currentChar lx ≠ '.' := by
      intro hn; rw [hn] at hdig; exact absurd hdig (by decide)
    simp only [Lexer.readNumberLoopF] at h
    rw [if_pos ⟨hnn, Or.inl hdig⟩] at h
    rw [if_neg hnd] at h
    have := (readNumberLoopF_some f _ _ _ _ _ _ h).2.2.2
    rw [advanceLx_pos] at this
    omega

theorem readNumberF_progress : ∀ (fuel : Nat) (lx : Lexer) (t : Token) (lx1 : Lexer),
    cIsDigit (Lexer.currentChar lx) = true →
    Lexer.readNumberF fuel lx = some (t, lx1) → lx.pos < lx1.pos := by
  intro fuel lx t lx1 hdig h
  match fuel with
  | 0 => simp [Lexer.readNumberF] at h
  | f + 1 =>
    simp only [Lexer.readNumberF] at h
    cases hl : Lexer.readNumberLoopF f lx false [] with
    | none => rw [hl] at h; simp at h
    | some r =>
      obtain ⟨res, hd1, lxA⟩ := r
      rw [hl] at h
      have hp := readNumberLoopF_progress f lx false [] res hd1 lxA hdig hl
      simp only [Lexer.createErrorToken] at h
      split at h
      · simp only [Option.some.injEq, Prod.mk.injEq] at h
        obtain ⟨-, h5⟩ := h
        subst h5
        show lx.pos < lxA.pos
        omega
      · split at h <;>
        · simp only [Option.some.injEq, Prod.mk.injEq] at h
          obtain ⟨-, h5⟩ := h
          subst h5
          omega

theorem readNumberF_type : ∀ (fuel : Nat) (lx : Lexer) (t : Token) (lx1 : Lexer),
    Lexer.readNumberF fuel lx = some (t, lx1) → t.type ≠ TokenType.EOF_TOKEN := by
  intro fuel lx t lx1 h
  match fuel with
  | 0 => simp [Lexer.readNumberF] at h
  | f + 1 =>
    simp only [Lexer.readNumberF] at h
    cases hl : Lexer.readNumberLoopF f lx false [] with
    | none => rw [hl] at h; simp at h
    | some r =>
      obtain ⟨res, hd1, lxA⟩ := r
      rw [hl] at h
      simp only [Lexer.createErrorToken] at h
      split at h
      · simp only [Option.some.injEq, Prod.mk.injEq] at h
        obtain ⟨h5, -⟩ := h
        subst h5
        simp
      · split at h <;>
        · simp only [Option.some.injEq, Prod.mk.injEq] at h
          obtain ⟨h5, -⟩ := h
          subst h5
          simp

theorem getKeywordType_ne_eof (w : String) : getKeywordType w ≠ TokenType.EOF_TOKEN := by
  unfold getKeywordType keywords
  simp only [List.lookup]
  split
  case h_1 t heq =>
    repeat' split at heq
    all_goals first
      | exact Option.noConfusion heq
      | (simp only [Option.some.injEq] at heq; subst heq; decide)
  case h_2 => decide

theorem readIdentLoopF_progress : ∀ (fuel : Nat) (lx : Lexer) (acc res : List Char) (lx1 : Lexer),
    (cIsAlpha (Lexer.currentChar lx) = true ∨ Lexer.currentChar lx = '_') →
    Lexer.readIdentLoopF fuel lx acc = some (res, lx1) → lx.pos < lx1.pos := by
  intro fuel lx acc res lx1 hal h
  match fuel with
  | 0 => simp [Lexer.readIdentLoopF] at h
  | f + 1 =>
    have hnn : Lexer.currentChar lx ≠ nulChar := by
      rcases hal with hal | hal
      · intro hn; rw [hn] at hal; exact absurd hal (by decide)
      · rw [hal]; decide
    have han : cIsAlnum (Lexer.currentChar lx) = true ∨ Lexer.currentChar lx = '_' := by
      rcases hal with hal | hal
      · left; simp [cIsAlnum, hal]
      · right; exact hal
    simp only [Lexer.readIdentLoopF] at h
    rw [if_pos ⟨hnn, han⟩] at h
    have := (readIdentLoopF_some f _ _ _ _ h).2.2.2
    rw [advanceLx_pos] at this
    omega

theorem readIdentifierF_progress : ∀ (fuel : Nat) (lx : Lexer) (t : Token) (lx1 : Lexer),
    (cIsAlpha (Lexer.currentChar lx) = true ∨ Lexer.currentChar lx = '_') →
    Lexer.readIdentifierF fuel lx = some (t, lx1) → lx.pos < lx1.pos := by
  intro fuel lx t lx1 hal h
  match fuel with
  | 0 => simp [Lexer.readIdentifierF] at h
  | f + 1 =>
    simp only [Lexer.readIdentifierF] at h
    cases hl : Lexer.readIdentLoopF f lx [] with
    | none => rw [hl] at h; simp at h
    | some r =>
      obtain ⟨res, lxA⟩ := r
      rw [hl] at h
      simp only [Option.some.injEq, Prod.mk.injEq] at h
      obtain ⟨-, h5⟩ := h
      subst h5
      exact readIdentLoopF_progress f lx [] res lxA hal hl

theorem readIdentifierF_type : ∀ (fuel : Nat) (lx : Lexer) (t : Token) (lx1 : Lexer),
    Lexer.readIdentifierF fuel lx = some (t, lx1) → t.type ≠ TokenType.EOF_TOKEN := by
  intro fuel lx t lx1 h
  match fuel with
  | 0 => simp [Lexer.readIdentifierF] at h
  | f + 1 =>
    simp only [Lexer.readIdentifierF] at h
    cases hl : Lexer.readIdentLoopF f lx [] with
    | none => rw [hl] at h; simp at h
    | some r =>
      obtain ⟨res, lxA⟩ := r
      rw [hl] at h
      simp only [Option.some.injEq, Prod.mk.injEq] at h
      obtain ⟨h5, -⟩ := h
      subst h5
      exact getKeywordType_ne_eof _

theorem readStringF_type : ∀ (fuel : Nat) (lx : Lexer) (t : Token) (lx1 : Lexer),
    Lexer.readStringF fuel lx = some (t, lx1) → t.type ≠ TokenType.EOF_TOKEN := by
  intro fuel lx t lx1 h
  match fuel with
  | 0 => simp [Lexer.readStringF] at h
  | f + 1 =>
    simp only [Lexer.readStringF] at h
    cases hl : Lexer.readStringLoopF f (Lexer.advanceLx lx) (Lexer.currentChar lx) [] with
    | none => rw [hl] at h; simp at h
    | some r =>
      obtain ⟨res, lxA⟩ := r
      rw [hl] at h
      simp only [Lexer.createErrorToken] at h
      split at h <;>
      · simp only [Option.some.injEq, Prod.mk.injEq] at h
        obtain ⟨h5, -⟩ := h
        subst h5
        simp

theorem doubleCharType_ne_eof : ∀ (a b : Char) (ty : TokenType),
    Lexer.doubleCharType a b = some ty → ty ≠ TokenType.EOF_TOKEN := by
  intro a b ty h
  unfold Lexer.doubleCharType at h
  repeat' split at h
  all_goals first
    | exact Option.noConfusion h
    | (simp only [Option.some.injEq] at h; subst h; decide)

theorem singleCharType_ne_eof : ∀ (a : Char) (ty : TokenType),
    Lexer.singleCharType a = some ty → ty ≠ TokenType.EOF_TOKEN := by
  intro a ty h
  unfold Lexer.singleCharType at h
  by_cases c0 : a = '+'
  · rw [if_pos c0] at h; injection h with h; subst h; decide
  rw [if_neg c0] at h
  by_cases c1 : a = '-'
  · rw [if_pos c1] at h; injection h with h; subst h; decide
  rw [if_neg c1] at h
  by_cases c2 : a = '*'
  · rw [if_pos c2] at h; injection h with h; subst h; decide
  rw [if_neg c2] at h
  by_cases c3 : a = '/'
  · rw [if_pos c3] at h; injection h with h; subst h; decide
  rw [if_neg c3] at h
  by_cases c4 : a = '%'
  · rw [if_pos c4] at h; injection h with h; subst h; decide
  rw [if_neg c4] at h
  by_cases c5 : a = '='
  · rw [if_pos c5] at h; injection h with h; subst h; decide
  rw [if_neg c5] at h
  by_cases c6 : a = '<'
  · rw [if_pos c6] at h; injection h with h; subst h; decide
  rw [if_neg c6] at h
  by_cases c7 : a = '>'
  · rw [if_pos c7] at h; injection h with h; subst h; decide
  rw [if_neg c7] at h
  by_cases c8 : a = '!'
  · rw [if_pos c8] at h; injection h with h; subst h; decide
  rw [if_neg c8] at h
  by_cases c9 : a = ';'
  · rw [if_pos c9] at h; injection h with h; subst h; decide
  rw [if_neg c9] at h
  by_cases c10 : a = ','
  · rw [if_pos c10] at h; injection h with h; subst h; decide
  rw [if_neg c10] at h
  by_cases c11 : a = '('
  · rw [if_pos c11] at h; injection h with h; subst h; decide
  rw [if_neg c11] at h
  by_cases c12 : a = ')'
  · rw [if_pos c12] at h; injection h with h; subst h; decide
  rw [if_neg c12] at h
  by_cases c13 : a = '{'
  · rw [if_pos c13] at h; injection h with h; subst h; decide
  rw [if_neg c13] at h
  by_cases c14 : a = '}'
  · rw [if_pos c14] at h; injection h with h; subst h; decide
  rw [if_neg c14] at h
  by_cases c15 : a = '#'
  · rw [if_pos c15] at h; injection h with h; subst h; decide
  rw [if_neg c15] at h
  by_cases c16 : a = '.'
  · rw [if_pos c16] at h; injection h with h; subst h; decide
  rw [if_neg c16] at h
  exact Option.noConfusion h

theorem getNextTokenF_facts : ∀ (fuel : Nat) (lx : Lexer) (t : Token) (lx1 : Lexer),
    Lexer.getNextTokenF fuel lx = some (t, lx1) →
    lx1.text = lx.text ∧ lx1.tokens = lx.tokens ∧ lx.pos ≤ lx1.pos ∧
    (t.type ≠ TokenType.EOF_TOKEN → lx.pos < lx.text.length ∧ lx.pos < lx1.pos) ∧
    (t.type = TokenType.EOF_TOKEN → Lexer.currentChar lx1 = nulChar) := by
  intro fuel
  induction fuel with
  | zero => intro lx t lx1 h; simp [Lexer.getNextTokenF] at h
  | succ f ih =>
    intro lx t lx1 h
    simp only [Lexer.getNextTokenF] at h
    by_cases hnul : Lexer.currentChar lx = nulChar
    · rw [if_pos hnul] at h
      simp only [Option.some.injEq, Prod.mk.injEq] at h
      obtain ⟨ht, hlx⟩ := h
      subst hlx
      subst ht
      exact ⟨rfl, rfl, Nat.le_refl _, fun hne => absurd rfl hne, fun _ => hnul⟩
    · rw [if_neg hnul] at h
      by_cases hsp : cIsSpace (Lexer.currentChar lx) = true
      · rw [if_pos hsp] at h
        by_cases hnl : Lexer.currentChar lx = '\n'
        · rw [if_pos hnl] at h
          simp only [Option.some.injEq, Prod.mk.injEq] at h
          obtain ⟨ht, hlx⟩ := h
          subst hlx
          subst ht
          refine ⟨advanceLx_text lx, advanceLx_tokens lx, ?_, ?_, ?_⟩
          · rw [advanceLx_pos]; omega
          · intro _
            refine ⟨currentChar_lt lx hnul, ?_⟩
            rw [advanceLx_pos]; omega
          · intro habs; exact TokenType.noConfusion habs
        · rw [if_neg hnl] at h
          cases hsw : Lexer.skipWhitespaceF f lx with
          | none => rw [hsw] at h; simp at h
          | some lxA =>
            rw [hsw] at h
            obtain ⟨w1, w2, w3, w4⟩ := skipWhitespaceF_some f lx lxA hsw
            obtain ⟨i1, i2, i3, i4, i5⟩ := ih lxA t lx1 h
            refine ⟨by rw [i1, w1], by rw [i2, w2], by omega, ?_, i5⟩
            intro hne
            have hstrict := skipWhitespaceF_progress f lx lxA hnul hsp hnl hsw
            exact ⟨currentChar_lt lx hnul, by omega⟩
      · rw [if_neg hsp] at h
        by_cases hcm : Lexer.currentChar lx = '/' ∧ (Lexer.peekChar lx 1 = '/' ∨ Lexer.peekChar lx 1 = '*')
        · rw [if_pos hcm] at h
          cases hsc : Lexer.skipCommentF f lx with
          | none => rw [hsc] at h; simp at h
          | some p =>
            obtain ⟨ok, lxA⟩ := p
            rw [hsc] at h
            simp only at h
            obtain ⟨c1, c2, c4⟩ := skipCommentF_some f lx ok lxA hsc
            have cstrict := skipCommentF_progress f lx ok lxA hcm.1 hcm.2 hsc
            cases ok with
            | true =>
              rw [if_pos rfl] at h
              obtain ⟨i1, i2, i3, i4, i5⟩ := ih lxA t lx1 h
              refine ⟨by rw [i1, c1], by rw [i2, c2], by omega, ?_, i5⟩
              intro hne
              exact ⟨currentChar_lt lx hnul, by omega⟩
            | false =>
              rw [if_neg Bool.false_ne_true] at h
              simp only [Lexer.createErrorToken, Option.some.injEq, Prod.mk.injEq] at h
              obtain ⟨ht, hlx⟩ := h
              subst hlx
              subst ht
              refine ⟨c1, c2, ?_, ?_, ?_⟩
              · show lx.pos ≤ lxA.pos
                omega
              · intro _
                refine ⟨currentChar_lt lx hnul, ?_⟩
                show lx.pos < lxA.pos
                omega
              · intro habs; exact TokenType.noConfusion habs
        · rw [if_neg hcm] at h
          by_cases hdg : cIsDigit (Lexer.currentChar lx) = true
          · rw [if_pos hdg] at h
            obtain ⟨n1, n2, n4⟩ := readNumberF_some f lx t lx1 h
            refine ⟨n1, n2, n4, ?_, ?_⟩
            · intro _
              exact ⟨currentChar_lt lx hnul, readNumberF_progress f lx t lx1 hdg h⟩
            · intro habs; exact absurd habs (readNumberF_type f lx t lx1 h)
          · rw [if_neg hdg] at h
            by_cases hal : cIsAlpha (Lexer.currentChar lx) = true ∨ Lexer.currentChar lx = '_'
            · rw [if_pos hal] at h
              obtain ⟨n1, n2, n3, n4⟩ := readIdentifierF_some f lx t lx1 h
              refine ⟨n1, n2, n4, ?_, ?_⟩
              · intro _
                exact ⟨currentChar_lt lx hnul, readIdentifierF_progress f lx t lx1 hal h⟩
              · intro habs; exact absurd habs (readIdentifierF_type f lx t lx1 h)
            · rw [if_neg hal] at h
              by_cases hqt : Lexer.currentChar lx = dquoteChar ∨ Lexer.currentChar lx = squoteChar
              · rw [if_pos hqt] at h
                obtain ⟨n1, n2, n4⟩ := readStringF_some f lx t lx1 h
                refine ⟨n1, n2, by omega, ?_, ?_⟩
                · intro _
                  exact ⟨currentChar_lt lx hnul, n4⟩
                · intro habs; exact absurd habs (readStringF_type f lx t lx1 h)
              · rw [if_neg hqt] at h
                cases hdc : Lexer.doubleCharType (Lexer.currentChar lx) (Lexer.peekChar lx 1) with
                | some ty =>
                  rw [hdc] at h
                  simp only [Option.some.injEq, Prod.mk.injEq] at h
                  obtain ⟨ht, hlx⟩ := h
                  subst hlx
                  subst ht
                  refine ⟨by rw [advanceLx_text, advanceLx_text], by rw [advanceLx_tokens, advanceLx_tokens], ?_, ?_, ?_⟩
                  · rw [advanceLx_pos, advanceLx_pos]; omega
                  · intro _
                    refine ⟨currentChar_lt lx hnul, ?_⟩
                    rw [advanceLx_pos, advanceLx_pos]; omega
                  · intro habs; exact absurd habs (doubleCharType_ne_eof _ _ _ hdc)
                | none =>
                  rw [hdc] at h
                  cases hsg : Lexer.singleCharType (Lexer.currentChar lx) with
                  | some ty =>
                    rw [hsg] at h
                    simp only [Option.some.injEq, Prod.mk.injEq] at h
                    obtain ⟨ht, hlx⟩ := h
                    subst hlx
                    subst ht
                    refine ⟨advanceLx_text lx, advanceLx_tokens lx, ?_, ?_, ?_⟩
                    · rw [advanceLx_pos]; omega
                    · intro _
                      refine ⟨currentChar_lt lx hnul, ?_⟩
                      rw [advanceLx_pos]; omega
                    · intro habs; exact absurd habs (singleCharType_ne_eof _ _ hsg)
                  | none =>
                    rw [hsg] at h
                    simp only [Lexer.createErrorToken, Option.some.injEq, Prod.mk.injEq] at h
                    obtain ⟨ht, hlx⟩ := h
                    subst hlx
                    subst ht
                    refine ⟨?_, ?_, ?_, ?_, ?_⟩
                    · show (Lexer.advanceLx lx).text = lx.text
                      exact advanceLx_text lx
                    · show (Lexer.advanceLx lx).tokens = lx.tokens
                      exact advanceLx_tokens lx
                    · show lx.pos ≤ (Lexer.advanceLx lx).pos
                      rw [advanceLx_pos]; omega
                    · intro _
                      refine ⟨currentChar_lt lx hnul, ?_⟩
                      show lx.pos < (Lexer.advanceLx lx).pos
                      rw [advanceLx_pos]; omega
                    · intro habs; exact TokenType.noConfusion habs

theorem skipWhitespaceF_suff : ∀ (fuel : Nat) (lx : Lexer),
    lx.text.length - lx.pos < fuel → (Lexer.skipWhitespaceF fuel lx).isSome := by
  intro fuel
  induction fuel with
  | zero => intro lx hb; omega
  | succ f ih =>
    intro lx hb
    simp only [Lexer.skipWhitespaceF]
    split
    case isTrue hc =>
      apply ih
      rw [advanceLx_text, advanceLx_pos]
      have := currentChar_lt lx hc.1
      omega
    case isFalse hc => simp

theorem lineCommentF_suff : ∀ (fuel : Nat) (lx : Lexer),
    lx.text.length - lx.pos < fuel → (Lexer.lineCommentF fuel lx).isSome := by
  intro fuel
  induction fuel with
  | zero => intro lx hb; omega
  | succ f ih =>
    intro lx hb
    simp only [Lexer.lineCommentF]
    split
    case isTrue hc =>
      apply ih
      rw [advanceLx_text, advanceLx_pos]
      have := currentChar_lt lx hc.1
      omega
    case isFalse hc => simp

theorem blockCommentF_suff : ∀ (fuel : Nat) (lx : Lexer),
    lx.text.length - lx.pos < fuel → (Lexer.blockCommentF fuel lx).isSome := by
  intro fuel
  induction fuel with
  | zero => intro lx hb; omega
  | succ f ih =>
    intro lx hb
    simp only [Lexer.blockCommentF]
    split
    case isTrue hc =>
      split
      · simp
      · apply ih
        rw [advanceLx_text, advanceLx_pos]
        have := currentChar_lt lx hc
        omega
    case isFalse hc => simp

theorem skipCommentF_suff : ∀ (fuel : Nat) (lx : Lexer),
    lx.text.length - lx.pos + 1 < fuel → (Lexer.skipCommentF fuel lx).isSome := by
  intro fuel lx hb
  match fuel with
  | 0 => omega
  | f + 1 =>
    simp only [Lexer.skipCommentF]
    split
    · cases hl : Lexer.lineCommentF f lx with
      | none =>
        have := lineCommentF_suff f lx (by omega)
        rw [hl] at this
        simp at this
      | some lxA => simp
    · split
      · cases hbc : Lexer.blockCommentF f (Lexer.advanceLx (Lexer.advanceLx lx)) with
        | none =>
          have := blockCommentF_suff f (Lexer.advanceLx (Lexer.advanceLx lx)) (by
            rw [advanceLx_text, advanceLx_text, advanceLx_pos, advanceLx_pos]
            omega)
          rw [hbc] at this
          simp at this
        | some p =>
          obtain ⟨closed, lxA⟩ := p
          simp only
          split <;> simp
      · simp

theorem readNumberLoopF_suff : ∀ (fuel : Nat) (lx : Lexer) (hd : Bool) (acc : List Char),
    lx.text.length - lx.pos < fuel → (Lexer.readNumberLoopF fuel lx hd acc).isSome := by
  intro fuel
  induction fuel with
  | zero => intro lx hd acc hb; omega
  | succ f ih =>
    intro lx hd acc hb
    simp only [Lexer.readNumberLoopF]
    split
    case isTrue hc =>
      have hlt := currentChar_lt lx hc.1
      split
      · split
        · simp
        · split
          · simp
          · apply ih
            rw [advanceLx_text, advanceLx_pos]
            omega
      · apply ih
        rw [advanceLx_text, advanceLx_pos]
        omega
    case isFalse hc => simp

theorem readNumberF_suff : ∀ (fuel : Nat) (lx : Lexer),
    lx.text.length - lx.pos + 1 < fuel → (Lexer.readNumberF fuel lx).isSome := by
  intro fuel lx hb
  match fuel with
  | 0 => omega
  | f + 1 =>
    simp only [Lexer.readNumberF]
    cases hl : Lexer.readNumberLoopF f lx false [] with
    | none =>
      have := readNumberLoopF_suff f lx false [] (by omega)
      rw [hl] at this
      simp at this
    | some r =>
      obtain ⟨res, hd1, lxA⟩ := r
      simp only
      split
      · simp
      · split <;> simp

theorem readIdentLoopF_suff : ∀ (fuel : Nat) (lx : Lexer) (acc : List Char),
    lx.text.length - lx.pos < fuel → (Lexer.readIdentLoopF fuel lx acc).isSome := by
  intro fuel
  induction fuel with
  | zero => intro lx acc hb; omega
  | succ f ih =>
    intro lx acc hb
    simp only [Lexer.readIdentLoopF]
    split
    case isTrue hc =>
      apply ih
      rw [advanceLx_text, advanceLx_pos]
      have := currentChar_lt lx hc.1
      omega
    case isFalse hc => simp

theorem readIdentifierF_suff : ∀ (fuel : Nat) (lx : Lexer),
    lx.text.length - lx.pos + 1 < fuel → (Lexer.readIdentifierF fuel lx).isSome := by
  intro fuel lx hb
  match fuel with
  | 0 => omega
  | f + 1 =>
    simp only [Lexer.readIdentifierF]
    cases hl : Lexer.readIdentLoopF f lx [] with
    | none =>
      have := readIdentLoopF_suff f lx [] (by omega)
      rw [hl] at this
      simp at this
    | some r =>
      obtain ⟨res, lxA⟩ := r
      simp

theorem readStringLoopF_suff : ∀ (fuel : Nat) (lx : Lexer) (q : Char) (acc : List Char),
    lx.text.length - lx.pos < fuel → (Lexer.readStringLoopF fuel lx q acc).isSome := by
  intro fuel
  induction fuel with
  | zero => intro lx q acc hb; omega
  | succ f ih =>
    intro lx q acc hb
    simp only [Lexer.readStringLoopF]
    split
    case isTrue hc =>
      have hlt := currentChar_lt lx hc.1
      split
      · split
        · apply ih
          rw [advanceLx_text, advanceLx_text, advanceLx_pos, advanceLx_pos]
          omega
        · apply ih
          rw [advanceLx_text, advanceLx_pos]
          omega
      · apply ih
        rw [advanceLx_text, advanceLx_pos]
        omega
    case isFalse hc => simp

theorem readStringF_suff : ∀ (fuel : Nat) (lx : Lexer),
    lx.text.length - lx.pos + 1 < fuel → (Lexer.readStringF fuel lx).isSome := by
  intro fuel lx hb
  match fuel with
  | 0 => omega
  | f + 1 =>
    simp only [Lexer.readStringF]
    cases hl : Lexer.readStringLoopF f (Lexer.advanceLx lx) (Lexer.currentChar lx) [] with
    | none =>
      have := readStringLoopF_suff f (Lexer.advanceLx lx) (Lexer.currentChar lx) [] (by
        rw [advanceLx_text, advanceLx_pos]
        omega)
      rw [hl] at this
      simp at this
    | some r =>
      obtain ⟨res, lxA⟩ := r
      simp only
      split <;> simp

theorem getNextTokenF_suff : ∀ (fuel : Nat) (lx : Lexer),
    lx.text.length - lx.pos + 2 < fuel → (Lexer.getNextTokenF fuel lx).isSome := by
  intro fuel
  induction fuel with
  | zero => intro lx hb; omega
  | succ f ih =>
    intro lx hb
    simp only [Lexer.getNextTokenF]
    by_cases hnul : Lexer.currentChar lx = nulChar
    · rw [if_pos hnul]; simp
    · rw [if_neg hnul]
      have hlt := currentChar_lt lx hnul
      by_cases hsp : cIsSpace (Lexer.currentChar lx) = true
      · rw [if_pos hsp]
        by_cases hnl : Lexer.currentChar lx = '\n'
        · rw [if_pos hnl]; simp
        · rw [if_neg hnl]
          cases hsw : Lexer.skipWhitespaceF f lx with
          | none =>
            have := skipWhitespaceF_suff f lx (by omega)
            rw [hsw] at this
            simp at this
          | some lxA =>
            obtain ⟨w1, w2, w3, w4⟩ := skipWhitespaceF_some f lx lxA hsw
            have wst := skipWhitespaceF_progress f lx lxA hnul hsp hnl hsw
            apply ih
            rw [w1]
            omega
      · rw [if_neg hsp]
        by_cases hcm : Lexer.currentChar lx = '/' ∧ (Lexer.peekChar lx 1 = '/' ∨ Lexer.peekChar lx 1 = '*')
        · rw [if_pos hcm]
          cases hsc : Lexer.skipCommentF f lx with
          | none =>
            have := skipCommentF_suff f lx (by omega)
            rw [hsc] at this
            simp at this
          | some p =>
            obtain ⟨ok, lxA⟩ := p
            simp only
            obtain ⟨c1, c2, c4⟩ := skipCommentF_some f lx ok lxA hsc
            have cst := skipCommentF_progress f lx ok lxA hcm.1 hcm.2 hsc
            cases ok with
            | true =>
              rw [if_pos rfl]
              apply ih
              rw [c1]
              omega
            | false =>
              rw [if_neg Bool.false_ne_true]
              simp
        · rw [if_neg hcm]
          by_cases hdg : cIsDigit (Lexer.currentChar lx) = true
          · rw [if_pos hdg]
            exact readNumberF_suff f lx (by omega)
          · rw [if_neg hdg]
            by_cases hal : cIsAlpha (Lexer.currentChar lx) = true ∨ Lexer.currentChar lx = '_'
            · rw [if_pos hal]
              exact readIdentifierF_suff f lx (by omega)
            · rw [if_neg hal]
              by_cases hqt : Lexer.currentChar lx = dquoteChar ∨ Lexer.currentChar lx = squoteChar
              · rw [if_pos hqt]
                exact readStringF_suff f lx (by omega)
              · rw [if_neg hqt]
                cases hdc : Lexer.doubleCharType (Lexer.currentChar lx) (Lexer.peekChar lx 1) with
                | some ty => simp
                | none =>
                  simp only
                  cases hsg : Lexer.singleCharType (Lexer.currentChar lx) with
                  | some ty => simp
                  | none => simp

theorem tokenizeLoopF_suff : ∀ (fuel : Nat) (lx : Lexer),
    lx.text.length - lx.pos + 3 < fuel → (Lexer.tokenizeLoopF fuel lx).isSome := by
  intro fuel
  induction fuel with
  | zero => intro lx hb; omega
  | succ f ih =>
    intro lx hb
    simp only [Lexer.tokenizeLoopF]
    cases hg : Lexer.getNextTokenF f lx with
    | none =>
      have := getNextTokenF_suff f lx (by omega)
      rw [hg] at this
      simp at this
    | some p =>
      obtain ⟨tok, lxA⟩ := p
      simp only
      split
      · simp
      case isFalse hne =>
        obtain ⟨g1, g2, g3, g4, g5⟩ := getNextTokenF_facts f lx tok lxA hg
        obtain ⟨hlen, hpos⟩ := g4 hne
        apply ih
        simp only
        rw [g1]
        omega

theorem tokenizeLoopF_invariant : ∀ (fuel : Nat) (lx : Lexer) (ts : List Token) (lxf : Lexer),
    Lexer.tokenizeLoopF fuel lx = some (ts, lxf) →
    ts = lxf.tokens ∧ lxf.text = lx.text ∧ Lexer.currentChar lxf = nulChar ∧
    ∃ S, lxf.tokens = lx.tokens ++ S ∧
      (∃ t, S.getLast? = some t ∧ t.type = TokenType.EOF_TOKEN) ∧
      (S.filter (fun t => t.type == TokenType.EOF_TOKEN)).length = 1 := by
  intro fuel
  induction fuel with
  | zero => intro lx ts lxf h; simp [Lexer.tokenizeLoopF] at h
  | succ f ih =>
    intro lx ts lxf h
    simp only [Lexer.tokenizeLoopF] at h
    cases hg : Lexer.getNextTokenF f lx with
    | none => rw [hg] at h; simp at h
    | some p =>
      obtain ⟨tok, lxA⟩ := p
      rw [hg] at h
      simp only at h
      obtain ⟨g1, g2, g3, g4, g5⟩ := getNextTokenF_facts f lx tok lxA hg
      split at h
      case isTrue heof =>
        simp only [Option.some.injEq, Prod.mk.injEq] at h
        obtain ⟨hts, hlxf⟩ := h
        subst hlxf
        subst hts
        refine ⟨rfl, g1, g5 heof, [tok], by rw [g2], ⟨tok, ?_, heof⟩, ?_⟩
        · simp
        · simp [List.filter, heof]
      case isFalse heof =>
        obtain ⟨i1, i2, i3, iS, hS1, ⟨tl, htl1, htl2⟩, hS3⟩ := ih _ _ _ h
        simp only at i2 hS1
        have hSne : iS ≠ [] := by
          intro hh
          rw [hh] at htl1
          simp at htl1
        refine ⟨i1, by rw [i2, g1], i3, tok :: iS, ?_, ⟨tl, ?_, htl2⟩, ?_⟩
        · rw [hS1, g2]
          simp
        · rw [← htl1]
          show (([tok] : List Token) ++ iS).getLast? = iS.getLast?
          exact List.getLast?_append_of_ne_nil [tok] hSne
        · rw [List.filter_cons]
          have : (tok.type == TokenType.EOF_TOKEN) = false := by
            simp [heof]
          rw [this]
          exact hS3

/-- Auxiliary: no two-character operator starts with `'.'`. -/
theorem doubleCharType_dot (b : Char) : Lexer.doubleCharType '.' b = none := by
  unfold Lexer.doubleCharType
  repeat rw [if_neg (fun hh => absurd hh.1 (by decide))]

/-- C2: for every input text, `tokenize` terminates (the fuel bound
    `tokenizeFuel` is sufficient, capturing termination of the scanning
    loops) and the returned token sequence ends with an end-of-input token
    and contains exactly one end-of-input token — never zero, never more. -/
theorem C2_tokenize_terminates_one_eof : ∀ (input : List Char), ∃ ts lxf,
    Lexer.tokenizeF (Lexer.tokenizeFuel (Lexer.init input)) (Lexer.init input) = some (ts, lxf) ∧
    (∃ t, ts.getLast? = some t ∧ t.type = TokenType.EOF_TOKEN) ∧
    (ts.filter (fun t => t.type == TokenType.EOF_TOKEN)).length = 1 := by
  intro input
  unfold Lexer.tokenizeF
  cases ht : Lexer.tokenizeLoopF (Lexer.tokenizeFuel (Lexer.init input))
      { Lexer.init input with tokens := [], errors := [] } with
  | none =>
    have hs := tokenizeLoopF_suff (Lexer.tokenizeFuel (Lexer.init input))
      { Lexer.init input with tokens := [], errors := [] }
      (by show input.length - 0 + 3 < input.length - 0 + 5; omega)
    rw [ht] at hs
    simp at hs
  | some p =>
    obtain ⟨ts, lxf⟩ := p
    obtain ⟨i1, i2, i3, S, hS1, hlast, hcount⟩ := tokenizeLoopF_invariant _ _ _ _ ht
    have hS1' : lxf.tokens = S := by simpa using hS1
    exact ⟨ts, lxf, rfl, by rw [i1, hS1']; exact hlast, by rw [i1, hS1']; exact hcount⟩

/-- C4 counterexample: on the spec's own test input `"/* unterminated"` the
    scanner records the UnterminatedComment lexical error twice (not once)
    and does emit an ERROR token into the returned token stream (while still
    reaching the end-of-input token). -/
theorem C4_counterexample :
    (lexErrors srcUnterm).length = 2 ∧
    (lexErrors srcUnterm) = [LexicalError.mk Lexer.msgUntermComment 1 16,
                             LexicalError.mk Lexer.msgUntermComment 1 16] ∧
    (lexTokens srcUnterm).map Token.type = [TokenType.ERROR, TokenType.EOF_TOKEN] := by
  refine ⟨rfl, rfl, rfl⟩

/-- C4 (amended): for every state that reaches end-of-input inside an
    unclosed block comment (skipComment returns false under a `/*` start),
    the scanner records the UnterminatedComment error TWICE — once in
    skipComment and once more through createErrorToken — and getNextToken
    returns a (visible) ERROR token rather than suppressing it; scanning
    continues without any exception, the next call producing the
    end-of-input token. -/
theorem C4_unterminated_comment_two_errors : ∀ (fuel : Nat) (lx lx1 : Lexer),
    Lexer.currentChar lx = '/' → Lexer.peekChar lx 1 = '*' →
    Lexer.skipCommentF fuel lx = some (false, lx1) →
    lx1.errors = lx.errors ++ [LexicalError.mk Lexer.msgUntermComment lx1.line lx1.column] ∧
    Lexer.getNextTokenF (fuel + 1) lx = some
      (Token.mk TokenType.ERROR (String.singleton (Lexer.currentChar lx1)) lx1.line lx1.column,
       { lx1 with errors := lx1.errors ++ [LexicalError.mk Lexer.msgUntermComment lx1.line lx1.column] }) ∧
    lx1.errors ++ [LexicalError.mk Lexer.msgUntermComment lx1.line lx1.column] =
      lx.errors ++ [LexicalError.mk Lexer.msgUntermComment lx1.line lx1.column,
                    LexicalError.mk Lexer.msgUntermComment lx1.line lx1.column] := by
  intro fuel lx lx1 hcur hpk h
  have herr : lx1.errors = lx.errors ++ [LexicalError.mk Lexer.msgUntermComment lx1.line lx1.column] := by
    match fuel with
    | 0 => simp [Lexer.skipCommentF] at h
    | f + 1 =>
      simp only [Lexer.skipCommentF] at h
      rw [if_neg (fun hh => by rw [hpk] at hh; exact absurd hh.2 (by decide))] at h
      rw [if_pos ⟨hcur, hpk⟩] at h
      cases hb : Lexer.blockCommentF f (Lexer.advanceLx (Lexer.advanceLx lx)) with
      | none => rw [hb] at h; simp at h
      | some p =>
        obtain ⟨closed, lxA⟩ := p
        rw [hb] at h
        simp only at h
        have herrsA : lxA.errors = lx.errors := by
          have := (blockCommentF_some f _ _ _ hb).2.2.1
          rw [advanceLx_errors, advanceLx_errors] at this
          exact this
        cases closed with
        | true =>
          rw [if_pos rfl] at h
          simp at h
        | false =>
          rw [if_neg Bool.false_ne_true] at h
          simp only [Option.some.injEq, Prod.mk.injEq] at h
          obtain ⟨-, h2⟩ := h
          subst h2
          show lxA.errors ++ _ = lx.errors ++ _
          rw [herrsA]
  refine ⟨herr, ?_, ?_⟩
  · simp only [Lexer.getNextTokenF]
    rw [if_neg (by rw [hcur]; decide)]
    rw [if_neg (by rw [hcur]; decide)]
    rw [if_pos ⟨hcur, Or.inr hpk⟩]
    rw [h]
    simp only
    rw [if_neg Bool.false_ne_true]
    rfl
  · rw [herr]
    simp

/-- C9 counterexample: on `"1."` — exactly the kind of input the claim
    says yields a consumed run ending in `\x27.\x27` rejected as
    InvalidNumberFormat — the scanner consumes only `"1"` as an INTEGER,
    records no lexical error at all, and the lone dot becomes a separate
    ERROR token via the dispatch table instead. -/
theorem C9_counterexample :
    (lexTokens "1.").map Token.type = [TokenType.INTEGER, TokenType.ERROR, TokenType.EOF_TOKEN] ∧
    (lexTokens "1.").map Token.value = ["1", ".", ""] ∧
    lexErrors "1." = [] := by
  refine ⟨rfl, rfl, rfl⟩

/-- C9 (amended): the number reader's consumed run never ends in `'.'`, so
    the InvalidNumberFormat rejection inside readNumber is unreachable:
    readNumber records no lexical error and never returns an ERROR token
    (a trailing `'.'` not followed by a digit is simply left unconsumed). -/
theorem C9_readNumber_never_invalid : ∀ (fuel : Nat) (lx : Lexer) (t : Token) (lx1 : Lexer),
    Lexer.readNumberF fuel lx = some (t, lx1) →
    lx1.errors = lx.errors ∧ t.type ≠ TokenType.ERROR := by
  intro fuel lx t lx1 h
  match fuel with
  | 0 => simp [Lexer.readNumberF] at h
  | f + 1 =>
    simp only [Lexer.readNumberF] at h
    cases hl : Lexer.readNumberLoopF f lx false [] with
    | none => rw [hl] at h; simp at h
    | some r =>
      obtain ⟨res, hd1, lxA⟩ := r
      rw [hl] at h
      have hnd := readNumberLoopF_no_dot f lx false [] res hd1 lxA hl (by intro hh; simp at hh)
      have herrs := (readNumberLoopF_some f lx false [] res hd1 lxA hl).2.2.1
      simp only at h
      rw [if_neg hnd] at h
      split at h <;>
      · simp only [Option.some.injEq, Prod.mk.injEq] at h
        obtain ⟨h1, h2⟩ := h
        subst h1
        subst h2
        exact ⟨herrs, by simp⟩

theorem C9_readNumber_never_invalid_witness :
    ∃ t lx1,
      Lexer.readNumberF 10 (Lexer.init ['1', '.']) = some (t, lx1) ∧
      lx1.errors = (Lexer.init ['1', '.']).errors ∧ t.type ≠ TokenType.ERROR :=
  ⟨_, _, rfl, C9_readNumber_never_invalid 10 (Lexer.init ['1', '.']) _ _ rfl⟩

/-- C10: whenever the scanner's dispatch reaches a `'.'` (which never
    begins a number — readNumber requires a digit — and is only consumed
    inside a number when a digit follows), getNextToken returns an ERROR
    token with text "." at the current position while recording NO lexical
    error: the stream can contain an ERROR token while the error list stays
    empty, unlike every other error-token-producing path. -/
theorem C10_lone_dot_error_token_no_error : ∀ (fuel : Nat) (lx : Lexer),
    Lexer.currentChar lx = '.' →
    Lexer.getNextTokenF (fuel + 1) lx =
      some (Token.mk TokenType.ERROR (String.singleton '.') lx.line lx.column, Lexer.advanceLx lx) ∧
    (Lexer.advanceLx lx).errors = lx.errors := by
  intro fuel lx hcur
  refine ⟨?_, advanceLx_errors lx⟩
  simp only [Lexer.getNextTokenF]
  rw [hcur]
  rw [if_neg (by decide)]
  rw [if_neg (by decide)]
  rw [if_neg (fun hh => absurd hh.1 (by decide))]
  rw [if_neg (by decide)]
  rw [if_neg (by decide)]
  rw [if_neg (by decide)]
  rw [doubleCharType_dot]
  rfl

theorem C10_lone_dot_error_token_no_error_witness :
    Lexer.getNextTokenF 1 (Lexer.init ['.']) =
      some (Token.mk TokenType.ERROR (String.singleton '.') (Lexer.init ['.']).line
        (Lexer.init ['.']).column, Lexer.advanceLx (Lexer.init ['.'])) ∧
    (Lexer.advanceLx (Lexer.init ['.'])).errors = (Lexer.init ['.']).errors :=
  C10_lone_dot_error_token_no_error 0 (Lexer.init ['.']) rfl

/-- C8 counterexample: on input "x", a first tokenize on a fresh Lexer
    yields two tokens, but a second tokenize on the SAME object (whose
    cursor was not reset) yields only one — the claim's same-object
    idempotence is false. -/
theorem C8_counterexample :
    (Lexer.tokenizeF (Lexer.tokenizeFuel (Lexer.init ['x'])) (Lexer.init ['x'])).map
      (fun p => p.1.length) = some 2 ∧
    (match Lexer.tokenizeF (Lexer.tokenizeFuel (Lexer.init ['x'])) (Lexer.init ['x']) with
     | some (_, lx1) => (Lexer.tokenizeF (Lexer.tokenizeFuel lx1) lx1).map (fun p => p.1.length)
     | none => none) = some 1 := by
  exact ⟨rfl, rfl⟩

/-- C8 (amended): the scanner is a pure function of its input text for
    fresh runs: after a full tokenize, resetting the Lexer (which rewinds
    the cursor that tokenize itself does not rewind) and tokenizing again
    reproduces the identical token sequence, identical error list and
    identical final state; without the reset, the second call instead
    resumes at end of input. -/
theorem C8_tokenize_after_reset : ∀ (input : List Char) (ts1 : List Token) (lx1 : Lexer),
    Lexer.tokenizeF (Lexer.tokenizeFuel (Lexer.init input)) (Lexer.init input) = some (ts1, lx1) →
    Lexer.tokenizeF (Lexer.tokenizeFuel (Lexer.reset lx1)) (Lexer.reset lx1) = some (ts1, lx1) := by
  intro input ts1 lx1 h
  have htext : lx1.text = input := by
    have := (tokenizeLoopF_invariant _ _ _ _ h).2.1
    simpa using this
  have hreset : Lexer.reset lx1 = Lexer.init input := by
    unfold Lexer.reset Lexer.init
    rw [htext]
  rw [hreset]
  exact h

theorem C8_tokenize_after_reset_witness :
    ∃ ts1 lx1,
      Lexer.tokenizeF (Lexer.tokenizeFuel (Lexer.init ['x'])) (Lexer.init ['x']) = some (ts1, lx1) ∧
      Lexer.tokenizeF (Lexer.tokenizeFuel (Lexer.reset lx1)) (Lexer.reset lx1) = some (ts1, lx1) :=
  ⟨_, _, rfl, C8_tokenize_after_reset ['x'] _ _ rfl⟩

theorem C4_unterminated_comment_two_errors_witness :
    ∃ lx1, Lexer.skipCommentF 20 (Lexer.init ['/', '*']) = some (false, lx1) ∧
      lx1.errors = (Lexer.init ['/', '*']).errors ++
        [LexicalError.mk Lexer.msgUntermComment lx1.line lx1.column] :=
  ⟨_, rfl, (C4_unterminated_comment_two_errors 20 (Lexer.init ['/', '*']) _ rfl rfl rfl).1⟩

/-! ### Parser lemmas -/

theorem isAtEnd_false_lt (tks : List Token) (s : PState) :
    Parser.isAtEnd tks s = false → s.pos < tks.length := by
  intro h
  by_contra hn
  push_neg at hn
  unfold Parser.isAtEnd Parser.getCurrentToken at h
  rw [List.getD_eq_default _ _ hn] at h
  simp [Parser.eofTokenP] at h

theorem advanceP_not_end (tks : List Token) (s : PState) :
    Parser.isAtEnd tks s = false → (Parser.advanceP tks s).pos = s.pos + 1 := by
  intro h
  unfold Parser.advanceP
  rw [h]
  rfl

theorem advanceP_le (tks : List Token) (s : PState) :
    s.pos ≤ (Parser.advanceP tks s).pos ∧ (Parser.advanceP tks s).pos ≤ s.pos + 1 := by
  unfold Parser.advanceP
  split <;> simp

theorem advanceP_errors (tks : List Token) (s : PState) :
    (Parser.advanceP tks s).errors = s.errors := by
  unfold Parser.advanceP
  split <;> rfl

theorem checkTok_true_lt (tks : List Token) (s : PState) (ty : TokenType) :
    Parser.checkTok tks s ty = true →
    s.pos < tks.length ∧ (Parser.advanceP tks s).pos = s.pos + 1 := by
  intro h
  unfold Parser.checkTok at h
  split at h
  · simp at h
  case isFalse he =>
    have he' : Parser.isAtEnd tks s = false := by
      revert he
      cases Parser.isAtEnd tks s <;> simp
    exact ⟨isAtEnd_false_lt tks s he', advanceP_not_end tks s he'⟩

theorem checkTok_false_ne (tks : List Token) (s : PState) (ty : TokenType) :
    Parser.checkTok tks s ty = false → ty ≠ TokenType.EOF_TOKEN →
    (Parser.getCurrentToken tks s).type ≠ ty := by
  intro h hne
  unfold Parser.checkTok at h
  split at h
  case isTrue he =>
    unfold Parser.isAtEnd at he
    intro hc
    rw [hc] at he
    simp at he
    exact hne he
  case isFalse he =>
    simpa using h

theorem checkTok_pos_congr (tks : List Token) (s1 s2 : PState) (ty : TokenType) :
    s1.pos = s2.pos → Parser.checkTok tks s1 ty = Parser.checkTok tks s2 ty := by
  intro h
  unfold Parser.checkTok Parser.isAtEnd Parser.getCurrentToken
  rw [h]

theorem matchTok_le (tks : List Token) (s : PState) (ty : TokenType) :
    s.pos ≤ (Parser.matchTok tks s ty).2.pos ∧ (Parser.matchTok tks s ty).2.pos ≤ s.pos + 1 := by
  unfold Parser.matchTok
  split
  · exact advanceP_le tks s
  · simp

theorem matchTok_errors (tks : List Token) (s : PState) (ty : TokenType) :
    (Parser.matchTok tks s ty).2.errors = s.errors := by
  unfold Parser.matchTok
  split
  · exact advanceP_errors tks s
  · rfl

theorem matchTok_true (tks : List Token) (s : PState) (ty : TokenType) :
    (Parser.matchTok tks s ty).1 = true →
    (Parser.matchTok tks s ty).2.pos = s.pos + 1 ∧ s.pos < tks.length := by
  intro h
  unfold Parser.matchTok at h ⊢
  split at h
  case isTrue hc =>
    rw [if_pos hc]
    obtain ⟨h1, h2⟩ := checkTok_true_lt tks s ty hc
    exact ⟨h2, h1⟩
  case isFalse hc => simp at h

theorem matchTok_false (tks : List Token) (s : PState) (ty : TokenType) :
    (Parser.matchTok tks s ty).1 = false → (Parser.matchTok tks s ty).2 = s := by
  intro h
  unfold Parser.matchTok at h ⊢
  split at h
  case isTrue hc => simp at h
  case isFalse hc => rw [if_neg hc]

theorem recordError_pos (tks : List Token) (s : PState) (msg : String) :
    (Parser.recordError tks s msg).pos = s.pos := rfl

theorem consume_le (tks : List Token) (s : PState) (ty : TokenType) (msg : String) :
    s.pos ≤ (Parser.consume tks s ty msg).2.pos ∧ (Parser.consume tks s ty msg).2.pos ≤ s.pos + 1 := by
  unfold Parser.consume
  split
  · exact advanceP_le tks s
  · simp [Parser.recordError]

theorem consume_noadv (tks : List Token) (s : PState) (ty : TokenType) (msg : String) :
    (Parser.consume tks s ty msg).2.pos = s.pos → Parser.checkTok tks s ty = false := by
  intro h
  unfold Parser.consume at h
  split at h
  case isTrue hc =>
    rw [(checkTok_true_lt tks s ty hc).2] at h
    omega
  case isFalse hc =>
    revert hc
    cases Parser.checkTok tks s ty <;> simp

theorem skipNewlinesF_mono : ∀ (fuel : Nat) (tks : List Token) (s s1 : PState),
    Parser.skipNewlinesF tks fuel s = some s1 → s.pos ≤ s1.pos := by
  intro fuel
  induction fuel with
  | zero => intro tks s s1 h; simp [Parser.skipNewlinesF] at h
  | succ f ih =>
    intro tks s s1 h
    simp only [Parser.skipNewlinesF] at h
    split at h
    case isTrue hc =>
      have := ih tks _ _ h
      have h2 := (checkTok_true_lt tks s TokenType.NEWLINE hc).2
      omega
    case isFalse hc =>
      simp only [Option.some.injEq] at h
      subst h
      exact Nat.le_refl _

theorem skipNewlinesF_suff : ∀ (fuel : Nat) (tks : List Token) (s : PState),
    tks.length - s.pos < fuel → (Parser.skipNewlinesF tks fuel s).isSome := by
  intro fuel
  induction fuel with
  | zero => intro tks s hb; omega
  | succ f ih =>
    intro tks s hb
    simp only [Parser.skipNewlinesF]
    split
    case isTrue hc =>
      apply ih
      obtain ⟨h1, h2⟩ := checkTok_true_lt tks s TokenType.NEWLINE hc
      omega
    case isFalse hc => simp

theorem scanIncludeNameF_mono : ∀ (fuel : Nat) (tks : List Token) (c : String) (s : PState)
    (r : String × PState),
    Parser.scanIncludeNameF tks fuel c s = some r → s.pos ≤ r.2.pos := by
  intro fuel
  induction fuel with
  | zero => intro tks c s r h; simp [Parser.scanIncludeNameF] at h
  | succ f ih =>
    intro tks c s r h
    simp only [Parser.scanIncludeNameF] at h
    split at h
    case isTrue hc =>
      have := ih tks _ _ _ h
      have h2 := advanceP_not_end tks s (by
        have := hc.2.2
        revert this
        cases Parser.isAtEnd tks s <;> simp)
      omega
    case isFalse hc =>
      simp only [Option.some.injEq] at h
      subst h
      exact Nat.le_refl _

theorem scanIncludeNameF_suff : ∀ (fuel : Nat) (tks : List Token) (c : String) (s : PState),
    tks.length - s.pos < fuel → (Parser.scanIncludeNameF tks fuel c s).isSome := by
  intro fuel
  induction fuel with
  | zero => intro tks c s hb; omega
  | succ f ih =>
    intro tks c s hb
    simp only [Parser.scanIncludeNameF]
    split
    case isTrue hc =>
      apply ih
      have hend : Parser.isAtEnd tks s = false := by
        have := hc.2.2
        revert this
        cases Parser.isAtEnd tks s <;> simp
      have h1 := isAtEnd_false_lt tks s hend
      have h2 := advanceP_not_end tks s hend
      omega
    case isFalse hc => simp

theorem scanDirectiveF_mono : ∀ (fuel : Nat) (tks : List Token) (c : String) (s : PState)
    (r : String × PState),
    Parser.scanDirectiveF tks fuel c s = some r → s.pos ≤ r.2.pos := by
  intro fuel
  induction fuel with
  | zero => intro tks c s r h; simp [Parser.scanDirectiveF] at h
  | succ f ih =>
    intro tks c s r h
    simp only [Parser.scanDirectiveF] at h
    split at h
    case isTrue hc =>
      have := ih tks _ _ _ h
      have h2 := advanceP_not_end tks s (by
        have := hc.2
        revert this
        cases Parser.isAtEnd tks s <;> simp)
      omega
    case isFalse hc =>
      simp only [Option.some.injEq] at h
      subst h
      exact Nat.le_refl _

theorem scanDirectiveF_suff : ∀ (fuel : Nat) (tks : List Token) (c : String) (s : PState),
    tks.length - s.pos < fuel → (Parser.scanDirectiveF tks fuel c s).isSome := by
  intro fuel
  induction fuel with
  | zero => intro tks c s hb; omega
  | succ f ih =>
    intro tks c s hb
    simp only [Parser.scanDirectiveF]
    split
    case isTrue hc =>
      apply ih
      have hend : Parser.isAtEnd tks s = false := by
        have := hc.2
        revert this
        cases Parser.isAtEnd tks s <;> simp
      have h1 := isAtEnd_false_lt tks s hend
      have h2 := advanceP_not_end tks s hend
      omega
    case isFalse hc => simp

theorem bool_not_true {b : Bool} (h : ¬ b = true) : b = false := by
  cases b <;> simp_all

theorem isAtEnd_recordError (tks : List Token) (s : PState) (msg : String) :
    Parser.isAtEnd tks (Parser.recordError tks s msg) = Parser.isAtEnd tks s := rfl

theorem paramLoopF_mono : ∀ (fuel : Nat) (tks : List Token) (params : List ASTNode) (s : PState)
    (r : List ASTNode × PState),
    Parser.paramLoopF tks fuel params s = some r → s.pos ≤ r.2.pos := by
  intro fuel
  induction fuel with
  | zero => intro tks params s r h; simp [Parser.paramLoopF] at h
  | succ f ih =>
    intro tks params s r h
    simp only [Parser.paramLoopF] at h
    split at h
    case isTrue hc =>
      have hend : Parser.isAtEnd tks s = false := bool_not_true hc.2
      have hadv := advanceP_not_end tks s hend
      split at h
      case isTrue hty =>
        split at h
        case isTrue hid =>
          have hih := ih tks _ _ _ h
          simp only [] at hih
          have hm := (matchTok_le tks (Parser.advanceP tks (Parser.advanceP tks s)) TokenType.COMMA).1
          have ha2 := (advanceP_le tks (Parser.advanceP tks s)).1
          omega
        case isFalse hid =>
          have hih := ih tks _ _ _ h
          simp only [] at hih
          have hm := (matchTok_le tks (Parser.advanceP tks s) TokenType.COMMA).1
          omega
      case isFalse hty =>
        split at h
        case isTrue hid =>
          split at h
          case isTrue hid2 =>
            have hih := ih tks _ _ _ h
            simp only [] at hih
            have hA := (advanceP_le tks (Parser.recordError tks s (Parser.msgUnknownType (Parser.getCurrentToken tks s).value))).1
            have hB := (advanceP_le tks (Parser.advanceP tks (Parser.recordError tks s (Parser.msgUnknownType (Parser.getCurrentToken tks s).value)))).1
            have hm := (matchTok_le tks (Parser.advanceP tks (Parser.advanceP tks (Parser.recordError tks s (Parser.msgUnknownType (Parser.getCurrentToken tks s).value)))) TokenType.COMMA).1
            simp only [recordError_pos] at hA
            omega
          case isFalse hid2 =>
            have hih := ih tks _ _ _ h
            simp only [] at hih
            have hA := (advanceP_le tks (Parser.recordError tks s (Parser.msgUnknownType (Parser.getCurrentToken tks s).value))).1
            have hm := (matchTok_le tks (Parser.advanceP tks (Parser.recordError tks s (Parser.msgUnknownType (Parser.getCurrentToken tks s).value))) TokenType.COMMA).1
            simp only [recordError_pos] at hA
            omega
        case isFalse hid =>
          have hih := ih tks _ _ _ h
          simp only [] at hih
          have hm := (matchTok_le tks (Parser.advanceP tks s) TokenType.COMMA).1
          omega
    case isFalse hc =>
      simp only [Option.some.injEq] at h
      subst h
      exact Nat.le_refl _

theorem paramLoopF_suff : ∀ (fuel : Nat) (tks : List Token) (params : List ASTNode) (s : PState),
    tks.length - s.pos < fuel → (Parser.paramLoopF tks fuel params s).isSome := by
  intro fuel
  induction fuel with
  | zero => intro tks params s hb; omega
  | succ f ih =>
    intro tks params s hb
    simp only [Parser.paramLoopF]
    split
    case isTrue hc =>
      have hend : Parser.isAtEnd tks s = false := bool_not_true hc.2
      have hlt := isAtEnd_false_lt tks s hend
      have hadv := advanceP_not_end tks s hend
      split
      case isTrue hty =>
        split
        case isTrue hid =>
          simp only []
          apply ih
          have hm := (matchTok_le tks (Parser.advanceP tks (Parser.advanceP tks s)) TokenType.COMMA).1
          have hm2 := (matchTok_le tks (Parser.advanceP tks (Parser.advanceP tks s)) TokenType.COMMA).2
          have ha2 := (advanceP_le tks (Parser.advanceP tks s)).1
          omega
        case isFalse hid =>
          simp only []
          apply ih
          have hm := (matchTok_le tks (Parser.advanceP tks s) TokenType.COMMA).1
          omega
      case isFalse hty =>
        split
        case isTrue hid =>
          have hendR : Parser.isAtEnd tks (Parser.recordError tks s (Parser.msgUnknownType (Parser.getCurrentToken tks s).value)) = false := by
            rw [isAtEnd_recordError]
            exact hend
          have hadvR := advanceP_not_end tks _ hendR
          simp only [recordError_pos] at hadvR
          split
          case isTrue hid2 =>
            simp only []
            apply ih
            have hB := (advanceP_le tks (Parser.advanceP tks (Parser.recordError tks s (Parser.msgUnknownType (Parser.getCurrentToken tks s).value)))).1
            have hm := (matchTok_le tks (Parser.advanceP tks (Parser.advanceP tks (Parser.recordError tks s (Parser.msgUnknownType (Parser.getCurrentToken tks s).value)))) TokenType.COMMA).1
            omega
          case isFalse hid2 =>
            simp only []
            apply ih
            have hm := (matchTok_le tks (Parser.advanceP tks (Parser.recordError tks s (Parser.msgUnknownType (Parser.getCurrentToken tks s).value))) TokenType.COMMA).1
            omega
        case isFalse hid =>
          simp only []
          apply ih
          have hm := (matchTok_le tks (Parser.advanceP tks s) TokenType.COMMA).1
          omega
    case isFalse hc => simp

theorem exprMono : ∀ (fuel : Nat) (tks : List Token),
    (∀ s n s', Parser.parsePrimaryF tks fuel s = some (n, s') → s.pos ≤ s'.pos) ∧
    (∀ args s n s', Parser.argLoopF tks fuel args s = some (n, s') → s.pos ≤ s'.pos) ∧
    (∀ s n s', Parser.parseUnaryF tks fuel s = some (n, s') → s.pos ≤ s'.pos) ∧
    (∀ e s n s', Parser.mulLoopF tks fuel e s = some (n, s') → s.pos ≤ s'.pos) ∧
    (∀ s n s', Parser.parseMultiplicationF tks fuel s = some (n, s') → s.pos ≤ s'.pos) ∧
    (∀ e s n s', Parser.addLoopF tks fuel e s = some (n, s') → s.pos ≤ s'.pos) ∧
    (∀ s n s', Parser.parseAdditionF tks fuel s = some (n, s') → s.pos ≤ s'.pos) ∧
    (∀ e s n s', Parser.cmpLoopF tks fuel e s = some (n, s') → s.pos ≤ s'.pos) ∧
    (∀ s n s', Parser.parseComparisonF tks fuel s = some (n, s') → s.pos ≤ s'.pos) ∧
    (∀ e s n s', Parser.eqLoopF tks fuel e s = some (n, s') → s.pos ≤ s'.pos) ∧
    (∀ s n s', Parser.parseEqualityF tks fuel s = some (n, s') → s.pos ≤ s'.pos) ∧
    (∀ e s n s', Parser.andLoopF tks fuel e s = some (n, s') → s.pos ≤ s'.pos) ∧
    (∀ s n s', Parser.parseLogicalAndF tks fuel s = some (n, s') → s.pos ≤ s'.pos) ∧
    (∀ e s n s', Parser.orLoopF tks fuel e s = some (n, s') → s.pos ≤ s'.pos) ∧
    (∀ s n s', Parser.parseLogicalOrF tks fuel s = some (n, s') → s.pos ≤ s'.pos) ∧
    (∀ s n s', Parser.parseExpressionF tks fuel s = some (n, s') → s.pos ≤ s'.pos) := by
  intro fuel
  induction fuel with
  | zero =>
    intro tks
    exact ⟨fun s n s' h => by simp [Parser.parsePrimaryF] at h,
           fun args s n s' h => by simp [Parser.argLoopF] at h,
           fun s n s' h => by simp [Parser.parseUnaryF] at h,
           fun e s n s' h => by simp [Parser.mulLoopF] at h,
           fun s n s' h => by simp [Parser.parseMultiplicationF] at h,
           fun e s n s' h => by simp [Parser.addLoopF] at h,
           fun s n s' h => by simp [Parser.parseAdditionF] at h,
           fun e s n s' h => by simp [Parser.cmpLoopF] at h,
           fun s n s' h => by simp [Parser.parseComparisonF] at h,
           fun e s n s' h => by simp [Parser.eqLoopF] at h,
           fun s n s' h => by simp [Parser.parseEqualityF] at h,
           fun e s n s' h => by simp [Parser.andLoopF] at h,
           fun s n s' h => by simp [Parser.parseLogicalAndF] at h,
           fun e s n s' h => by simp [Parser.orLoopF] at h,
           fun s n s' h => by simp [Parser.parseLogicalOrF] at h,
           fun s n s' h => by simp [Parser.parseExpressionF] at h⟩
  | succ f ih =>
    intro tks
    obtain ⟨mPrim, mArg, mUn, mMulL, mMul, mAddL, mAdd, mCmpL, mCmp, mEqL, mEq,
            mAndL, mAnd, mOrL, mOr, mExpr⟩ := ih tks
    refine ⟨?_, ?_, ?_, ?_, ?_, ?_, ?_, ?_, ?_, ?_, ?_, ?_, ?_, ?_, ?_, ?_⟩
    · -- parsePrimaryF
      intro s n s' h
      simp only [Parser.parsePrimaryF] at h
      split at h
      · simp only [Option.some.injEq, Prod.mk.injEq] at h
        obtain ⟨-, h2⟩ := h
        subst h2
        exact (advanceP_le tks s).1
      · split at h
        · simp only [Option.some.injEq, Prod.mk.injEq] at h
          obtain ⟨-, h2⟩ := h
          subst h2
          exact (advanceP_le tks s).1
        · split at h
          · split at h
            · cases hA : Parser.argLoopF tks f [] (Parser.advanceP tks (Parser.advanceP tks s)) with
              | none => rw [hA] at h; simp at h
              | some rA =>
                obtain ⟨args1, s3⟩ := rA
                rw [hA] at h
                simp only [Option.some.injEq, Prod.mk.injEq] at h
                obtain ⟨-, h2⟩ := h
                subst h2
                have h1 := mArg _ _ _ _ hA
                have ha1 := (advanceP_le tks s).1
                have ha2 := (advanceP_le tks (Parser.advanceP tks s)).1
                have hco := (consume_le tks s3 TokenType.RPAREN Parser.msgRParenArgs).1
                omega
            · split at h
              · simp only [Option.some.injEq, Prod.mk.injEq] at h
                obtain ⟨-, h2⟩ := h
                subst h2
                have ha1 := (advanceP_le tks s).1
                have ha2 := (advanceP_le tks (Parser.advanceP tks s)).1
                omega
              · simp only [Option.some.injEq, Prod.mk.injEq] at h
                obtain ⟨-, h2⟩ := h
                subst h2
                exact (advanceP_le tks s).1
          · split at h
            · cases hE : Parser.parseExpressionF tks f (Parser.advanceP tks s) with
              | none => rw [hE] at h; simp at h
              | some rE =>
                obtain ⟨e1, s2⟩ := rE
                rw [hE] at h
                simp only [Option.some.injEq, Prod.mk.injEq] at h
                obtain ⟨-, h2⟩ := h
                subst h2
                have h1 := mExpr _ _ _ hE
                have ha1 := (advanceP_le tks s).1
                have hco := (consume_le tks s2 TokenType.RPAREN Parser.msgRParenExpr).1
                omega
            · simp only [Option.some.injEq, Prod.mk.injEq] at h
              obtain ⟨-, h2⟩ := h
              subst h2
              rw [recordError_pos]
    · -- argLoopF
      intro args s n s' h
      simp only [Parser.argLoopF] at h
      split at h
      case isTrue hc =>
        cases hE : Parser.parseExpressionF tks f s with
        | none => rw [hE] at h; simp at h
        | some rE =>
          obtain ⟨arg, s1⟩ := rE
          rw [hE] at h
          simp only [] at h
          have hE1 := mExpr _ _ _ hE
          rcases hM : Parser.matchTok tks s1 TokenType.COMMA with ⟨m, s2⟩
          rw [hM] at h
          simp only at h
          have hMle := (matchTok_le tks s1 TokenType.COMMA).1
          rw [hM] at hMle
          simp only [] at hMle
          split at h
          · have := mArg _ _ _ _ h
            omega
          · simp only [Option.some.injEq, Prod.mk.injEq] at h
            obtain ⟨-, h2⟩ := h
            subst h2
            omega
      case isFalse hc =>
        simp only [Option.some.injEq, Prod.mk.injEq] at h
        obtain ⟨-, h2⟩ := h
        subst h2
        exact Nat.le_refl _
    · -- parseUnaryF
      intro s n s' h
      simp only [Parser.parseUnaryF] at h
      split at h
      case isTrue hc =>
        cases hU : Parser.parseUnaryF tks f (Parser.advanceP tks s) with
        | none => rw [hU] at h; simp at h
        | some rU =>
          obtain ⟨o, s1⟩ := rU
          rw [hU] at h
          simp only [Option.some.injEq, Prod.mk.injEq] at h
          obtain ⟨-, h2⟩ := h
          subst h2
          have h1 := mUn _ _ _ hU
          have ha1 := (advanceP_le tks s).1
          omega
      case isFalse hc => exact mPrim _ _ _ h
    · -- mulLoopF
      intro e s n s' h
      simp only [Parser.mulLoopF] at h
      split at h
      case isTrue hc =>
        cases hU : Parser.parseUnaryF tks f (Parser.advanceP tks s) with
        | none => rw [hU] at h; simp at h
        | some rU =>
          obtain ⟨rhs, s1⟩ := rU
          rw [hU] at h
          simp only [] at h
          have h1 := mUn _ _ _ hU
          have ha1 := (advanceP_le tks s).1
          have h2 := mMulL _ _ _ _ h
          omega
      case isFalse hc =>
        simp only [Option.some.injEq, Prod.mk.injEq] at h
        obtain ⟨-, h2⟩ := h
        subst h2
        exact Nat.le_refl _
    · -- parseMultiplicationF
      intro s n s' h
      simp only [Parser.parseMultiplicationF] at h
      cases hU : Parser.parseUnaryF tks f s with
      | none => rw [hU] at h; simp at h
      | some rU =>
        obtain ⟨e, s1⟩ := rU
        rw [hU] at h
        simp only [] at h
        have h1 := mUn _ _ _ hU
        have h2 := mMulL _ _ _ _ h
        omega
    · -- addLoopF
      intro e s n s' h
      simp only [Parser.addLoopF] at h
      split at h
      case isTrue hc =>
        cases hU : Parser.parseMultiplicationF tks f (Parser.advanceP tks s) with
        | none => rw [hU] at h; simp at h
        | some rU =>
          obtain ⟨rhs, s1⟩ := rU
          rw [hU] at h
          simp only [] at h
          have h1 := mMul _ _ _ hU
          have ha1 := (advanceP_le tks s).1
          have h2 := mAddL _ _ _ _ h
          omega
      case isFalse hc =>
        simp only [Option.some.injEq, Prod.mk.injEq] at h
        obtain ⟨-, h2⟩ := h
        subst h2
        exact Nat.le_refl _
    · -- parseAdditionF
      intro s n s' h
      simp only [Parser.parseAdditionF] at h
      cases hU : Parser.parseMultiplicationF tks f s with
      | none => rw [hU] at h; simp at h
      | some rU =>
        obtain ⟨e, s1⟩ := rU
        rw [hU] at h
        simp only [] at h
        have h1 := mMul _ _ _ hU
        have h2 := mAddL _ _ _ _ h
        omega
    · -- cmpLoopF
      intro e s n s' h
      simp only [Parser.cmpLoopF] at h
      split at h
      case isTrue hc =>
        cases hU : Parser.parseAdditionF tks f (Parser.advanceP tks s) with
        | none => rw [hU] at h; simp at h
        | some rU =>
          obtain ⟨rhs, s1⟩ := rU
          rw [hU] at h
          simp only [] at h
          have h1 := mAdd _ _ _ hU
          have ha1 := (advanceP_le tks s).1
          have h2 := mCmpL _ _ _ _ h
          omega
      case isFalse hc =>
        simp only [Option.some.injEq, Prod.mk.injEq] at h
        obtain ⟨-, h2⟩ := h
        subst h2
        exact Nat.le_refl _
    · -- parseComparisonF
      intro s n s' h
      simp only [Parser.parseComparisonF] at h
      cases hU : Parser.parseAdditionF tks f s with
      | none => rw [hU] at h; simp at h
      | some rU =>
        obtain ⟨e, s1⟩ := rU
        rw [hU] at h
        simp only [] at h
        have h1 := mAdd _ _ _ hU
        have h2 := mCmpL _ _ _ _ h
        omega
    · -- eqLoopF
      intro e s n s' h
      simp only [Parser.eqLoopF] at h
      split at h
      case isTrue hc =>
        cases hU : Parser.parseComparisonF tks f (Parser.advanceP tks s) with
        | none => rw [hU] at h; simp at h
        | some rU =>
          obtain ⟨rhs, s1⟩ := rU
          rw [hU] at h
          simp only [] at h
          have h1 := mCmp _ _ _ hU
          have ha1 := (advanceP_le tks s).1
          have h2 := mEqL _ _ _ _ h
          omega
      case isFalse hc =>
        simp only [Option.some.injEq, Prod.mk.injEq] at h
        obtain ⟨-, h2⟩ := h
        subst h2
        exact Nat.le_refl _
    · -- parseEqualityF
      intro s n s' h
      simp only [Parser.parseEqualityF] at h
      cases hU : Parser.parseComparisonF tks f s with
      | none => rw [hU] at h; simp at h
      | some rU =>
        obtain ⟨e, s1⟩ := rU
        rw [hU] at h
        simp only [] at h
        have h1 := mCmp _ _ _ hU
        have h2 := mEqL _ _ _ _ h
        omega
    · -- andLoopF
      intro e s n s' h
      simp only [Parser.andLoopF] at h
      split at h
      case isTrue hc =>
        cases hU : Parser.parseEqualityF tks f (Parser.advanceP tks s) with
        | none => rw [hU] at h; simp at h
        | some rU =>
          obtain ⟨rhs, s1⟩ := rU
          rw [hU] at h
          simp only [] at h
          have h1 := mEq _ _ _ hU
          have ha1 := (advanceP_le tks s).1
          have h2 := mAndL _ _ _ _ h
          omega
      case isFalse hc =>
        simp only [Option.some.injEq, Prod.mk.injEq] at h
        obtain ⟨-, h2⟩ := h
        subst h2
        exact Nat.le_refl _
    · -- parseLogicalAndF
      intro s n s' h
      simp only [Parser.parseLogicalAndF] at h
      cases hU : Parser.parseEqualityF tks f s with
      | none => rw [hU] at h; simp at h
      | some rU =>
        obtain ⟨e, s1⟩ := rU
        rw [hU] at h
        simp only [] at h
        have h1 := mEq _ _ _ hU
        have h2 := mAndL _ _ _ _ h
        omega
    · -- orLoopF
      intro e s n s' h
      simp only [Parser.orLoopF] at h
      split at h
      case isTrue hc =>
        cases hU : Parser.parseLogicalAndF tks f (Parser.advanceP tks s) with
        | none => rw [hU] at h; simp at h
        | some rU =>
          obtain ⟨rhs, s1⟩ := rU
          rw [hU] at h
          simp only [] at h
          have h1 := mAnd _ _ _ hU
          have ha1 := (advanceP_le tks s).1
          have h2 := mOrL _ _ _ _ h
          omega
      case isFalse hc =>
        simp only [Option.some.injEq, Prod.mk.injEq] at h
        obtain ⟨-, h2⟩ := h
        subst h2
        exact Nat.le_refl _
    · -- parseLogicalOrF
      intro s n s' h
      simp only [Parser.parseLogicalOrF] at h
      cases hU : Parser.parseLogicalAndF tks f s with
      | none => rw [hU] at h; simp at h
      | some rU =>
        obtain ⟨e, s1⟩ := rU
        rw [hU] at h
        simp only [] at h
        have h1 := mAnd _ _ _ hU
        have h2 := mOrL _ _ _ _ h
        omega
    · -- parseExpressionF
      intro s n s' h
      simp only [Parser.parseExpressionF] at h
      exact mOr _ _ _ h

theorem exprSuff : ∀ (fuel : Nat) (tks : List Token),
    (∀ s, 64 * (tks.length - s.pos) + 2 < fuel → (Parser.parsePrimaryF tks fuel s).isSome) ∧
    (∀ args s, 64 * (tks.length - s.pos) + 32 < fuel → (Parser.argLoopF tks fuel args s).isSome) ∧
    (∀ s, 64 * (tks.length - s.pos) + 4 < fuel → (Parser.parseUnaryF tks fuel s).isSome) ∧
    (∀ e s, 64 * (tks.length - s.pos) + 6 < fuel → (Parser.mulLoopF tks fuel e s).isSome) ∧
    (∀ s, 64 * (tks.length - s.pos) + 8 < fuel → (Parser.parseMultiplicationF tks fuel s).isSome) ∧
    (∀ e s, 64 * (tks.length - s.pos) + 10 < fuel → (Parser.addLoopF tks fuel e s).isSome) ∧
    (∀ s, 64 * (tks.length - s.pos) + 12 < fuel → (Parser.parseAdditionF tks fuel s).isSome) ∧
    (∀ e s, 64 * (tks.length - s.pos) + 14 < fuel → (Parser.cmpLoopF tks fuel e s).isSome) ∧
    (∀ s, 64 * (tks.length - s.pos) + 16 < fuel → (Parser.parseComparisonF tks fuel s).isSome) ∧
    (∀ e s, 64 * (tks.length - s.pos) + 18 < fuel → (Parser.eqLoopF tks fuel e s).isSome) ∧
    (∀ s, 64 * (tks.length - s.pos) + 20 < fuel → (Parser.parseEqualityF tks fuel s).isSome) ∧
    (∀ e s, 64 * (tks.length - s.pos) + 22 < fuel → (Parser.andLoopF tks fuel e s).isSome) ∧
    (∀ s, 64 * (tks.length - s.pos) + 24 < fuel → (Parser.parseLogicalAndF tks fuel s).isSome) ∧
    (∀ e s, 64 * (tks.length - s.pos) + 26 < fuel → (Parser.orLoopF tks fuel e s).isSome) ∧
    (∀ s, 64 * (tks.length - s.pos) + 28 < fuel → (Parser.parseLogicalOrF tks fuel s).isSome) ∧
    (∀ s, 64 * (tks.length - s.pos) + 30 < fuel → (Parser.parseExpressionF tks fuel s).isSome) := by
  intro fuel
  induction fuel with
  | zero =>
    intro tks
    exact ⟨fun s hb => by omega, fun args s hb => by omega, fun s hb => by omega,
           fun e s hb => by omega, fun s hb => by omega, fun e s hb => by omega,
           fun s hb => by omega, fun e s hb => by omega, fun s hb => by omega,
           fun e s hb => by omega, fun s hb => by omega, fun e s hb => by omega,
           fun s hb => by omega, fun e s hb => by omega, fun s hb => by omega,
           fun s hb => by omega⟩
  | succ f ih =>
    intro tks
    obtain ⟨sPrim, sArg, sUn, sMulL, sMul, sAddL, sAdd, sCmpL, sCmp, sEqL, sEq,
            sAndL, sAnd, sOrL, sOr, sExpr⟩ := ih tks
    obtain ⟨mPrim, mArg, mUn, mMulL, mMul, mAddL, mAdd, mCmpL, mCmp, mEqL, mEq,
            mAndL, mAnd, mOrL, mOr, mExpr⟩ := exprMono f tks
    refine ⟨?_, ?_, ?_, ?_, ?_, ?_, ?_, ?_, ?_, ?_, ?_, ?_, ?_, ?_, ?_, ?_⟩
    · -- parsePrimaryF
      intro s hb
      simp only [Parser.parsePrimaryF]
      split
      · simp
      · split
        · simp
        · split
          case isTrue hid =>
            have hf1 := checkTok_true_lt tks s TokenType.IDENTIFIER hid
            split
            case isTrue hlp =>
              have hf2 := checkTok_true_lt tks (Parser.advanceP tks s) TokenType.LPAREN hlp
              cases hA : Parser.argLoopF tks f [] (Parser.advanceP tks (Parser.advanceP tks s)) with
              | none =>
                have := sArg [] (Parser.advanceP tks (Parser.advanceP tks s)) (by
                  have h3 := (advanceP_le tks (Parser.advanceP tks s)).2
                  omega)
                rw [hA] at this
                simp at this
              | some rA =>
                obtain ⟨args1, s3⟩ := rA
                simp
            case isFalse hlp =>
              split
              · simp
              · simp
          case isFalse hid =>
            split
            case isTrue hlp =>
              have hf1 := checkTok_true_lt tks s TokenType.LPAREN hlp
              cases hE : Parser.parseExpressionF tks f (Parser.advanceP tks s) with
              | none =>
                have := sExpr (Parser.advanceP tks s) (by omega)
                rw [hE] at this
                simp at this
              | some rE =>
                obtain ⟨e1, s2⟩ := rE
                simp
            case isFalse hlp => simp
    · -- argLoopF
      intro args s hb
      simp only [Parser.argLoopF]
      split
      case isTrue hc =>
        cases hE : Parser.parseExpressionF tks f s with
        | none =>
          have := sExpr s (by omega)
          rw [hE] at this
          simp at this
        | some rE =>
          obtain ⟨arg, s1⟩ := rE
          simp only []
          have hE1 := mExpr _ _ _ hE
          rcases hM : Parser.matchTok tks s1 TokenType.COMMA with ⟨m, s2⟩
          simp only []
          split
          case isTrue hm =>
            have hmt := matchTok_true tks s1 TokenType.COMMA (by rw [hM]; exact hm)
            rw [hM] at hmt
            simp only [] at hmt
            apply sArg
            omega
          case isFalse hm => simp
      case isFalse hc => simp
    · -- parseUnaryF
      intro s hb
      simp only [Parser.parseUnaryF]
      split
      case isTrue hc =>
        have hf : s.pos < tks.length ∧ (Parser.advanceP tks s).pos = s.pos + 1 := by
          rcases hc with hc | hc <;> exact checkTok_true_lt _ _ _ hc
        cases hU : Parser.parseUnaryF tks f (Parser.advanceP tks s) with
        | none =>
          have := sUn (Parser.advanceP tks s) (by omega)
          rw [hU] at this
          simp at this
        | some rU =>
          obtain ⟨o, s1⟩ := rU
          simp
      case isFalse hc =>
        apply sPrim
        omega
    · -- mulLoopF
      intro e s hb
      simp only [Parser.mulLoopF]
      split
      case isTrue hc =>
        have hf : s.pos < tks.length ∧ (Parser.advanceP tks s).pos = s.pos + 1 := by
          rcases hc with hc | hc | hc <;> exact checkTok_true_lt _ _ _ hc
        cases hU : Parser.parseUnaryF tks f (Parser.advanceP tks s) with
        | none =>
          have := sUn (Parser.advanceP tks s) (by omega)
          rw [hU] at this
          simp at this
        | some rU =>
          obtain ⟨rhs, s1⟩ := rU
          simp only []
          have h1 := mUn _ _ _ hU
          apply sMulL
          omega
      case isFalse hc => simp
    · -- parseMultiplicationF
      intro s hb
      simp only [Parser.parseMultiplicationF]
      cases hU : Parser.parseUnaryF tks f s with
      | none =>
        have := sUn s (by omega)
        rw [hU] at this
        simp at this
      | some rU =>
        obtain ⟨e, s1⟩ := rU
        simp only []
        have h1 := mUn _ _ _ hU
        apply sMulL
        omega
    · -- addLoopF
      intro e s hb
      simp only [Parser.addLoopF]
      split
      case isTrue hc =>
        have hf : s.pos < tks.length ∧ (Parser.advanceP tks s).pos = s.pos + 1 := by
          rcases hc with hc | hc <;> exact checkTok_true_lt _ _ _ hc
        cases hU : Parser.parseMultiplicationF tks f (Parser.advanceP tks s) with
        | none =>
          have := sMul (Parser.advanceP tks s) (by omega)
          rw [hU] at this
          simp at this
        | some rU =>
          obtain ⟨rhs, s1⟩ := rU
          simp only []
          have h1 := mMul _ _ _ hU
          apply sAddL
          omega
      case isFalse hc => simp
    · -- parseAdditionF
      intro s hb
      simp only [Parser.parseAdditionF]
      cases hU : Parser.parseMultiplicationF tks f s with
      | none =>
        have := sMul s (by omega)
        rw [hU] at this
        simp at this
      | some rU =>
        obtain ⟨e, s1⟩ := rU
        simp only []
        have h1 := mMul _ _ _ hU
        apply sAddL
        omega
    · -- cmpLoopF
      intro e s hb
      simp only [Parser.cmpLoopF]
      split
      case isTrue hc =>
        have hf : s.pos < tks.length ∧ (Parser.advanceP tks s).pos = s.pos + 1 := by
          rcases hc with hc | hc | hc | hc <;> exact checkTok_true_lt _ _ _ hc
        cases hU : Parser.parseAdditionF tks f (Parser.advanceP tks s) with
        | none =>
          have := sAdd (Parser.advanceP tks s) (by omega)
          rw [hU] at this
          simp at this
        | some rU =>
          obtain ⟨rhs, s1⟩ := rU
          simp only []
          have h1 := mAdd _ _ _ hU
          apply sCmpL
          omega
      case isFalse hc => simp
    · -- parseComparisonF
      intro s hb
      simp only [Parser.parseComparisonF]
      cases hU : Parser.parseAdditionF tks f s with
      | none =>
        have := sAdd s (by omega)
        rw [hU] at this
        simp at this
      | some rU =>
        obtain ⟨e, s1⟩ := rU
        simp only []
        have h1 := mAdd _ _ _ hU
        apply sCmpL
        omega
    · -- eqLoopF
      intro e s hb
      simp only [Parser.eqLoopF]
      split
      case isTrue hc =>
        have hf : s.pos < tks.length ∧ (Parser.advanceP tks s).pos = s.pos + 1 := by
          rcases hc with hc | hc <;> exact checkTok_true_lt _ _ _ hc
        cases hU : Parser.parseComparisonF tks f (Parser.advanceP tks s) with
        | none =>
          have := sCmp (Parser.advanceP tks s) (by omega)
          rw [hU] at this
          simp at this
        | some rU =>
          obtain ⟨rhs, s1⟩ := rU
          simp only []
          have h1 := mCmp _ _ _ hU
          apply sEqL
          omega
      case isFalse hc => simp
    · -- parseEqualityF
      intro s hb
      simp only [Parser.parseEqualityF]
      cases hU : Parser.parseComparisonF tks f s with
      | none =>
        have := sCmp s (by omega)
        rw [hU] at this
        simp at this
      | some rU =>
        obtain ⟨e, s1⟩ := rU
        simp only []
        have h1 := mCmp _ _ _ hU
        apply sEqL
        omega
    · -- andLoopF
      intro e s hb
      simp only [Parser.andLoopF]
      split
      case isTrue hc =>
        have hf := checkTok_true_lt tks s TokenType.AND hc
        cases hU : Parser.parseEqualityF tks f (Parser.advanceP tks s) with
        | none =>
          have := sEq (Parser.advanceP tks s) (by omega)
          rw [hU] at this
          simp at this
        | some rU =>
          obtain ⟨rhs, s1⟩ := rU
          simp only []
          have h1 := mEq _ _ _ hU
          apply sAndL
          omega
      case isFalse hc => simp
    · -- parseLogicalAndF
      intro s hb
      simp only [Parser.parseLogicalAndF]
      cases hU : Parser.parseEqualityF tks f s with
      | none =>
        have := sEq s (by omega)
        rw [hU] at this
        simp at this
      | some rU =>
        obtain ⟨e, s1⟩ := rU
        simp only []
        have h1 := mEq _ _ _ hU
        apply sAndL
        omega
    · -- orLoopF
      intro e s hb
      simp only [Parser.orLoopF]
      split
      case isTrue hc =>
        have hf := checkTok_true_lt tks s TokenType.OR hc
        cases hU : Parser.parseLogicalAndF tks f (Parser.advanceP tks s) with
        | none =>
          have := sAnd (Parser.advanceP tks s) (by omega)
          rw [hU] at this
          simp at this
        | some rU =>
          obtain ⟨rhs, s1⟩ := rU
          simp only []
          have h1 := mAnd _ _ _ hU
          apply sOrL
          omega
      case isFalse hc => simp
    · -- parseLogicalOrF
      intro s hb
      simp only [Parser.parseLogicalOrF]
      cases hU : Parser.parseLogicalAndF tks f s with
      | none =>
        have := sAnd s (by omega)
        rw [hU] at this
        simp at this
      | some rU =>
        obtain ⟨e, s1⟩ := rU
        simp only []
        have h1 := mAnd _ _ _ hU
        apply sOrL
        omega
    · -- parseExpressionF
      intro s hb
      simp only [Parser.parseExpressionF]
      apply sOr
      omega

theorem stmtMono : ∀ (fuel : Nat) (tks : List Token),
    (∀ s o s', Parser.parseStatementF tks fuel s = some (o, s') → s.pos ≤ s'.pos) ∧
    (∀ s n s', Parser.parseVarDeclarationF tks fuel s = some (n, s') → s.pos ≤ s'.pos) ∧
    (∀ s s', Parser.vdCommaLoopF tks fuel s = some s' → s.pos ≤ s'.pos) ∧
    (∀ s n s', Parser.parseAssignmentF tks fuel s = some (n, s') → s.pos ≤ s'.pos) ∧
    (∀ s n s', Parser.parseIfStatementF tks fuel s = some (n, s') → s.pos ≤ s'.pos) ∧
    (∀ s n s', Parser.parseWhileStatementF tks fuel s = some (n, s') → s.pos ≤ s'.pos) ∧
    (∀ s n s', Parser.parseForStatementF tks fuel s = some (n, s') → s.pos ≤ s'.pos) ∧
    (∀ s n s', Parser.parseCompoundStatementF tks fuel s = some (n, s') → s.pos ≤ s'.pos) ∧
    (∀ acc s n s', Parser.compoundLoopF tks fuel acc s = some (n, s') → s.pos ≤ s'.pos) ∧
    (∀ s n s', Parser.parseReturnStatementF tks fuel s = some (n, s') → s.pos ≤ s'.pos) ∧
    (∀ s o s', Parser.parseExpressionStatementF tks fuel s = some (o, s') → s.pos ≤ s'.pos) ∧
    (∀ acc s n s', Parser.programLoopF tks fuel acc s = some (n, s') → s.pos ≤ s'.pos) ∧
    (∀ s n s', Parser.parseProgramF tks fuel s = some (n, s') → s.pos ≤ s'.pos) ∧
    (∀ s o s', Parser.forInitStepF tks fuel s = some (o, s') → s.pos ≤ s'.pos) ∧
    (∀ s o s', Parser.forCondStepF tks fuel s = some (o, s') → s.pos ≤ s'.pos) ∧
    (∀ s o s', Parser.forUpdStepF tks fuel s = some (o, s') → s.pos ≤ s'.pos) := by
  intro fuel
  induction fuel with
  | zero =>
    intro tks
    exact ⟨fun s o s' h => by simp [Parser.parseStatementF] at h,
           fun s n s' h => by simp [Parser.parseVarDeclarationF] at h,
           fun s s' h => by simp [Parser.vdCommaLoopF] at h,
           fun s n s' h => by simp [Parser.parseAssignmentF] at h,
           fun s n s' h => by simp [Parser.parseIfStatementF] at h,
           fun s n s' h => by simp [Parser.parseWhileStatementF] at h,
           fun s n s' h => by simp [Parser.parseForStatementF] at h,
           fun s n s' h => by simp [Parser.parseCompoundStatementF] at h,
           fun acc s n s' h => by simp [Parser.compoundLoopF] at h,
           fun s n s' h => by simp [Parser.parseReturnStatementF] at h,
           fun s o s' h => by simp [Parser.parseExpressionStatementF] at h,
           fun acc s n s' h => by simp [Parser.programLoopF] at h,
           fun s n s' h => by simp [Parser.parseProgramF] at h,
           fun s o s' h => by simp [Parser.forInitStepF] at h,
           fun s o s' h => by simp [Parser.forCondStepF] at h,
           fun s o s' h => by simp [Parser.forUpdStepF] at h⟩
  | succ f ih =>
    intro tks
    obtain ⟨mStmt, mVd, mVdc, mAssign, mIf, mWhile, mFor, mPcs, mCloop, mRet, mPes,
            mPloop, mProg, mInit, mCond, mUpd⟩ := ih tks
    obtain ⟨mPrim, mArg, mUn, mMulL, mMul, mAddL, mAdd, mCmpL, mCmp, mEqL, mEq,
            mAndL, mAnd, mOrL, mOr, mExprM⟩ := exprMono f tks
    refine ⟨?_, ?_, ?_, ?_, ?_, ?_, ?_, ?_, ?_, ?_, ?_, ?_, ?_, ?_, ?_, ?_⟩
    · -- parseStatementF
      intro s0 o s' h
      simp only [Parser.parseStatementF] at h
      cases hsn : Parser.skipNewlinesF tks f s0 with
      | none => rw [hsn] at h; simp at h
      | some s =>
        rw [hsn] at h
        simp only [] at h
        have hm0 := skipNewlinesF_mono f tks s0 s hsn
        by_cases hend : Parser.isAtEnd tks s = true ∨ Parser.checkTok tks s TokenType.RBRACE = true
        · rw [if_pos hend] at h
          simp only [Option.some.injEq, Prod.mk.injEq] at h
          obtain ⟨-, h2⟩ := h
          subst h2
          omega
        · rw [if_neg hend] at h
          by_cases hmh : (Parser.matchTok tks s TokenType.HASH).1 = true
          · rw [if_pos hmh] at h
            have g1 := (matchTok_le tks s TokenType.HASH).1
            by_cases hmi : (Parser.matchTok tks (Parser.matchTok tks s TokenType.HASH).2 TokenType.INCLUDE).1 = true
            · rw [if_pos hmi] at h
              have g2 := (matchTok_le tks (Parser.matchTok tks s TokenType.HASH).2 TokenType.INCLUDE).1
              by_cases hml : (Parser.matchTok tks (Parser.matchTok tks (Parser.matchTok tks s TokenType.HASH).2 TokenType.INCLUDE).2 TokenType.LANGLE).1 = true
              · rw [if_pos hml] at h
                have g3 := (matchTok_le tks (Parser.matchTok tks (Parser.matchTok tks s TokenType.HASH).2 TokenType.INCLUDE).2 TokenType.LANGLE).1
                cases hsc : Parser.scanIncludeNameF tks f "" (Parser.matchTok tks (Parser.matchTok tks (Parser.matchTok tks s TokenType.HASH).2 TokenType.INCLUDE).2 TokenType.LANGLE).2 with
                | none => rw [hsc] at h; simp at h
                | some r =>
                  obtain ⟨content, sc⟩ := r
                  have g4 := scanIncludeNameF_mono f tks "" _ _ hsc
                  simp only [] at g4
                  rw [hsc] at h
                  simp only [] at h
                  have g5 := (matchTok_le tks sc TokenType.RANGLE).1
                  by_cases hmr : (Parser.matchTok tks sc TokenType.RANGLE).1 = true
                  · rw [if_pos hmr] at h
                    simp only [Option.some.injEq, Prod.mk.injEq] at h
                    obtain ⟨-, h2⟩ := h
                    subst h2
                    omega
                  · rw [if_neg hmr] at h
                    simp only [Option.some.injEq, Prod.mk.injEq] at h
                    obtain ⟨-, h2⟩ := h
                    subst h2
                    rw [recordError_pos]
                    omega
              · rw [if_neg hml] at h
                have g3 := (matchTok_le tks (Parser.matchTok tks (Parser.matchTok tks s TokenType.HASH).2 TokenType.INCLUDE).2 TokenType.LANGLE).1
                have g4 := (matchTok_le tks (Parser.matchTok tks (Parser.matchTok tks (Parser.matchTok tks s TokenType.HASH).2 TokenType.INCLUDE).2 TokenType.LANGLE).2 TokenType.STRING).1
                by_cases hms : (Parser.matchTok tks (Parser.matchTok tks (Parser.matchTok tks (Parser.matchTok tks s TokenType.HASH).2 TokenType.INCLUDE).2 TokenType.LANGLE).2 TokenType.STRING).1 = true
                · rw [if_pos hms] at h
                  simp only [Option.some.injEq, Prod.mk.injEq] at h
                  obtain ⟨-, h2⟩ := h
                  subst h2
                  omega
                · rw [if_neg hms] at h
                  simp only [Option.some.injEq, Prod.mk.injEq] at h
                  obtain ⟨-, h2⟩ := h
                  subst h2
                  rw [recordError_pos]
                  omega
            · rw [if_neg hmi] at h
              have g2 := (matchTok_le tks (Parser.matchTok tks s TokenType.HASH).2 TokenType.INCLUDE).1
              have g3 := (matchTok_le tks (Parser.matchTok tks (Parser.matchTok tks s TokenType.HASH).2 TokenType.INCLUDE).2 TokenType.DEFINE).1
              by_cases hmd : (Parser.matchTok tks (Parser.matchTok tks (Parser.matchTok tks s TokenType.HASH).2 TokenType.INCLUDE).2 TokenType.DEFINE).1 = true
              · rw [if_pos hmd] at h
                cases hsd : Parser.scanDirectiveF tks f "" (Parser.matchTok tks (Parser.matchTok tks (Parser.matchTok tks s TokenType.HASH).2 TokenType.INCLUDE).2 TokenType.DEFINE).2 with
                | none => rw [hsd] at h; simp at h
                | some r =>
                  obtain ⟨content, sc⟩ := r
                  have g4 := scanDirectiveF_mono f tks "" _ _ hsd
                  simp only [] at g4
                  rw [hsd] at h
                  simp only [] at h
                  simp only [Option.some.injEq, Prod.mk.injEq] at h
                  obtain ⟨-, h2⟩ := h
                  subst h2
                  omega
              · rw [if_neg hmd] at h
                cases hsd : Parser.scanDirectiveF tks f "" (Parser.matchTok tks (Parser.matchTok tks (Parser.matchTok tks s TokenType.HASH).2 TokenType.INCLUDE).2 TokenType.DEFINE).2 with
                | none => rw [hsd] at h; simp at h
                | some r =>
                  obtain ⟨content, sc⟩ := r
                  have g4 := scanDirectiveF_mono f tks "" _ _ hsd
                  simp only [] at g4
                  rw [hsd] at h
                  simp only [] at h
                  simp only [Option.some.injEq, Prod.mk.injEq] at h
                  obtain ⟨-, h2⟩ := h
                  subst h2
                  omega
          · rw [if_neg hmh] at h
            by_cases hfn : (Parser.checkTok tks s TokenType.INT = true ∨ Parser.checkTok tks s TokenType.FLOAT_KW = true ∨ Parser.checkTok tks s TokenType.CHAR = true ∨ Parser.checkTok tks s TokenType.VOID = true) ∧ (Parser.peekTokenP tks s 1).type = TokenType.IDENTIFIER ∧ (Parser.peekTokenP tks s 2).type = TokenType.LPAREN
            · rw [if_pos hfn] at h
              have g1 := (advanceP_le tks s).1
              have g2 := (advanceP_le tks (Parser.advanceP tks s)).1
              have g3 := (advanceP_le tks (Parser.advanceP tks (Parser.advanceP tks s))).1
              cases hP : Parser.paramLoopF tks f [] (Parser.advanceP tks (Parser.advanceP tks (Parser.advanceP tks s))) with
              | none => rw [hP] at h; simp at h
              | some r =>
                obtain ⟨params, s4⟩ := r
                have g4 := paramLoopF_mono f tks [] _ _ hP
                simp only [] at g4
                rw [hP] at h
                simp only [] at h
                have g5 := (consume_le tks s4 TokenType.RPAREN Parser.msgRParenParams).1
                by_cases hsemi : Parser.checkTok tks (Parser.consume tks s4 TokenType.RPAREN Parser.msgRParenParams).2 TokenType.SEMICOLON = true
                · rw [if_pos hsemi] at h
                  simp only [Option.some.injEq, Prod.mk.injEq] at h
                  obtain ⟨-, h2⟩ := h
                  subst h2
                  have g6 := (advanceP_le tks (Parser.consume tks s4 TokenType.RPAREN Parser.msgRParenParams).2).1
                  omega
                · rw [if_neg hsemi] at h
                  cases hB : Parser.parseCompoundStatementF tks f (Parser.consume tks s4 TokenType.RPAREN Parser.msgRParenParams).2 with
                  | none => rw [hB] at h; simp at h
                  | some r2 =>
                    obtain ⟨body, s6⟩ := r2
                    have g6 := mPcs _ _ _ hB
                    rw [hB] at h
                    simp only [] at h
                    simp only [Option.some.injEq, Prod.mk.injEq] at h
                    obtain ⟨-, h2⟩ := h
                    subst h2
                    omega
            · rw [if_neg hfn] at h
              by_cases hvd : Parser.checkTok tks s TokenType.INT = true ∨ Parser.checkTok tks s TokenType.FLOAT_KW = true ∨ Parser.checkTok tks s TokenType.CHAR = true
              · rw [if_pos hvd] at h
                cases hV : Parser.parseVarDeclarationF tks f s with
                | none => rw [hV] at h; simp at h
                | some r =>
                  obtain ⟨vd, s1⟩ := r
                  have g1 := mVd _ _ _ hV
                  rw [hV] at h
                  simp only [] at h
                  simp only [Option.some.injEq, Prod.mk.injEq] at h
                  obtain ⟨-, h2⟩ := h
                  subst h2
                  omega
              · rw [if_neg hvd] at h
                by_cases hmif : (Parser.matchTok tks s TokenType.IF).1 = true
                · rw [if_pos hmif] at h
                  have g1 := (matchTok_le tks s TokenType.IF).1
                  cases hI : Parser.parseIfStatementF tks f (Parser.matchTok tks s TokenType.IF).2 with
                  | none => rw [hI] at h; simp at h
                  | some r =>
                    obtain ⟨st, s1⟩ := r
                    have g2 := mIf _ _ _ hI
                    rw [hI] at h
                    simp only [] at h
                    simp only [Option.some.injEq, Prod.mk.injEq] at h
                    obtain ⟨-, h2⟩ := h
                    subst h2
                    omega
                · rw [if_neg hmif] at h
                  by_cases hmw : (Parser.matchTok tks s TokenType.WHILE).1 = true
                  · rw [if_pos hmw] at h
                    have g1 := (matchTok_le tks s TokenType.WHILE).1
                    cases hW : Parser.parseWhileStatementF tks f (Parser.matchTok tks s TokenType.WHILE).2 with
                    | none => rw [hW] at h; simp at h
                    | some r =>
                      obtain ⟨st, s1⟩ := r
                      have g2 := mWhile _ _ _ hW
                      rw [hW] at h
                      simp only [] at h
                      simp only [Option.some.injEq, Prod.mk.injEq] at h
                      obtain ⟨-, h2⟩ := h
                      subst h2
                      omega
                  · rw [if_neg hmw] at h
                    by_cases hmf : (Parser.matchTok tks s TokenType.FOR).1 = true
                    · rw [if_pos hmf] at h
                      have g1 := (matchTok_le tks s TokenType.FOR).1
                      cases hF : Parser.parseForStatementF tks f (Parser.matchTok tks s TokenType.FOR).2 with
                      | none => rw [hF] at h; simp at h
                      | some r =>
                        obtain ⟨st, s1⟩ := r
                        have g2 := mFor _ _ _ hF
                        rw [hF] at h
                        simp only [] at h
                        simp only [Option.some.injEq, Prod.mk.injEq] at h
                        obtain ⟨-, h2⟩ := h
                        subst h2
                        omega
                    · rw [if_neg hmf] at h
                      by_cases hlb : Parser.checkTok tks s TokenType.LBRACE = true
                      · rw [if_pos hlb] at h
                        cases hC : Parser.parseCompoundStatementF tks f s with
                        | none => rw [hC] at h; simp at h
                        | some r =>
                          obtain ⟨st, s1⟩ := r
                          have g1 := mPcs _ _ _ hC
                          rw [hC] at h
                          simp only [] at h
                          simp only [Option.some.injEq, Prod.mk.injEq] at h
                          obtain ⟨-, h2⟩ := h
                          subst h2
                          omega
                      · rw [if_neg hlb] at h
                        by_cases hmr : (Parser.matchTok tks s TokenType.RETURN).1 = true
                        · rw [if_pos hmr] at h
                          have g1 := (matchTok_le tks s TokenType.RETURN).1
                          cases hR : Parser.parseReturnStatementF tks f (Parser.matchTok tks s TokenType.RETURN).2 with
                          | none => rw [hR] at h; simp at h
                          | some r =>
                            obtain ⟨st, s1⟩ := r
                            have g2 := mRet _ _ _ hR
                            rw [hR] at h
                            simp only [] at h
                            simp only [Option.some.injEq, Prod.mk.injEq] at h
                            obtain ⟨-, h2⟩ := h
                            subst h2
                            omega
                        · rw [if_neg hmr] at h
                          by_cases hmb : (Parser.matchTok tks s TokenType.BREAK).1 = true
                          · rw [if_pos hmb] at h
                            have g1 := (matchTok_le tks s TokenType.BREAK).1
                            have g2 := (consume_le tks (Parser.matchTok tks s TokenType.BREAK).2 TokenType.SEMICOLON Parser.msgSemiBreak).1
                            simp only [Option.some.injEq, Prod.mk.injEq] at h
                            obtain ⟨-, h2⟩ := h
                            subst h2
                            omega
                          · rw [if_neg hmb] at h
                            by_cases hmc : (Parser.matchTok tks s TokenType.CONTINUE).1 = true
                            · rw [if_pos hmc] at h
                              have g1 := (matchTok_le tks s TokenType.CONTINUE).1
                              have g2 := (consume_le tks (Parser.matchTok tks s TokenType.CONTINUE).2 TokenType.SEMICOLON Parser.msgSemiContinue).1
                              simp only [Option.some.injEq, Prod.mk.injEq] at h
                              obtain ⟨-, h2⟩ := h
                              subst h2
                              omega
                            · rw [if_neg hmc] at h
                              by_cases hia : Parser.checkTok tks s TokenType.IDENTIFIER = true ∧ (Parser.peekTokenP tks s 1).type = TokenType.ASSIGN
                              · rw [if_pos hia] at h
                                cases hA : Parser.parseAssignmentF tks f s with
                                | none => rw [hA] at h; simp at h
                                | some r =>
                                  obtain ⟨st, s1⟩ := r
                                  have g1 := mAssign _ _ _ hA
                                  rw [hA] at h
                                  simp only [] at h
                                  simp only [Option.some.injEq, Prod.mk.injEq] at h
                                  obtain ⟨-, h2⟩ := h
                                  subst h2
                                  omega
                              · rw [if_neg hia] at h
                                have g1 := mPes _ _ _ h
                                omega
    · -- parseVarDeclarationF
      intro s n s' h
      simp only [Parser.parseVarDeclarationF] at h
      have g1 := (advanceP_le tks s).1
      have g2 := (consume_le tks (Parser.advanceP tks s) TokenType.IDENTIFIER Parser.msgVarName).1
      have g3 := (matchTok_le tks (Parser.consume tks (Parser.advanceP tks s) TokenType.IDENTIFIER Parser.msgVarName).2 TokenType.ASSIGN).1
      split at h
      case isTrue hmA =>
        split at h
        · simp at h
        · rename_i e s4 heqE
          have g4 := mExprM _ _ _ heqE
          split at h
          · simp at h
          · rename_i s5 heqV
            have g5 := mVdc _ _ heqV
            simp only [Option.some.injEq, Prod.mk.injEq] at h
            obtain ⟨-, h2⟩ := h
            subst h2
            have g6 := (consume_le tks s5 TokenType.SEMICOLON Parser.msgSemiVarDecl).1
            omega
      case isFalse hmA =>
        split at h
        · simp at h
        · rename_i s5 heqV
          have g5 := mVdc _ _ heqV
          simp only [Option.some.injEq, Prod.mk.injEq] at h
          obtain ⟨-, h2⟩ := h
          subst h2
          have g6 := (consume_le tks s5 TokenType.SEMICOLON Parser.msgSemiVarDecl).1
          omega
    · -- vdCommaLoopF
      intro s s' h
      simp only [Parser.vdCommaLoopF] at h
      split at h
      case isTrue hm =>
        have g1 := (matchTok_le tks s TokenType.COMMA).1
        have g2 := (consume_le tks (Parser.matchTok tks s TokenType.COMMA).2 TokenType.IDENTIFIER Parser.msgVarNameComma).1
        have g3 := (matchTok_le tks (Parser.consume tks (Parser.matchTok tks s TokenType.COMMA).2 TokenType.IDENTIFIER Parser.msgVarNameComma).2 TokenType.ASSIGN).1
        split at h
        case isTrue hmA =>
          split at h
          · simp at h
          · rename_i e s4 heqE
            have g4 := mExprM _ _ _ heqE
            have g5 := mVdc _ _ h
            omega
        case isFalse hmA =>
          have g5 := mVdc _ _ h
          omega
      case isFalse hm =>
        simp only [Option.some.injEq] at h
        subst h
        exact Nat.le_refl _
    · -- parseAssignmentF
      intro s n s' h
      simp only [Parser.parseAssignmentF] at h
      have g1 := (consume_le tks s TokenType.IDENTIFIER Parser.msgExpectedIdent).1
      have g2 := (consume_le tks (Parser.consume tks s TokenType.IDENTIFIER Parser.msgExpectedIdent).2 TokenType.ASSIGN Parser.msgExpectedAssign).1
      split at h
      · simp at h
      · rename_i e s3 heqE
        have g3 := mExprM _ _ _ heqE
        simp only [Option.some.injEq, Prod.mk.injEq] at h
        obtain ⟨-, h2⟩ := h
        subst h2
        have g4 := (consume_le tks s3 TokenType.SEMICOLON Parser.msgSemiAssign).1
        omega
    · -- parseIfStatementF
      intro s n s' h
      simp only [Parser.parseIfStatementF] at h
      have g1 := (consume_le tks s TokenType.LPAREN Parser.msgLParenIf).1
      split at h
      · simp at h
      · rename_i cond s2 heqE
        have g2 := mExprM _ _ _ heqE
        have g3 := (consume_le tks s2 TokenType.RPAREN Parser.msgRParenIf).1
        split at h
        · simp at h
        · rename_i thenStmt s4 heqS
          have g4 := mStmt _ _ _ heqS
          split at h
          · simp at h
          · rename_i s5 heqN
            have g5 := skipNewlinesF_mono f tks _ _ heqN
            have g6 := (matchTok_le tks s5 TokenType.ELSE).1
            split at h
            case isTrue hmE =>
              split at h
              · simp at h
              · rename_i elseStmt s7 heqS2
                have g7 := mStmt _ _ _ heqS2
                simp only [Option.some.injEq, Prod.mk.injEq] at h
                obtain ⟨-, h2⟩ := h
                subst h2
                omega
            case isFalse hmE =>
              simp only [Option.some.injEq, Prod.mk.injEq] at h
              obtain ⟨-, h2⟩ := h
              subst h2
              omega
    · -- parseWhileStatementF
      intro s n s' h
      simp only [Parser.parseWhileStatementF] at h
      have g1 := (consume_le tks s TokenType.LPAREN Parser.msgLParenWhile).1
      split at h
      · simp at h
      · rename_i cond s2 heqE
        have g2 := mExprM _ _ _ heqE
        have g3 := (consume_le tks s2 TokenType.RPAREN Parser.msgRParenWhile).1
        split at h
        · simp at h
        · rename_i body s4 heqS
          have g4 := mStmt _ _ _ heqS
          simp only [Option.some.injEq, Prod.mk.injEq] at h
          obtain ⟨-, h2⟩ := h
          subst h2
          omega
    · -- parseForStatementF
      intro s n s' h
      simp only [Parser.parseForStatementF] at h
      have g1 := (consume_le tks s TokenType.LPAREN Parser.msgLParenFor).1
      split at h
      · simp at h
      · rename_i initOpt s2 heqI
        have g2 := mInit _ _ _ heqI
        split at h
        · simp at h
        · rename_i condOpt s3 heqC
          have g3 := mCond _ _ _ heqC
          have g4 := (consume_le tks s3 TokenType.SEMICOLON Parser.msgSemiForCond).1
          split at h
          · simp at h
          · rename_i updOpt s5 heqU
            have g5 := mUpd _ _ _ heqU
            have g6 := (consume_le tks s5 TokenType.RPAREN Parser.msgRParenFor).1
            split at h
            · simp at h
            · rename_i body s7 heqS
              have g7 := mStmt _ _ _ heqS
              simp only [Option.some.injEq, Prod.mk.injEq] at h
              obtain ⟨-, h2⟩ := h
              subst h2
              omega
    · -- parseCompoundStatementF
      intro s n s' h
      simp only [Parser.parseCompoundStatementF] at h
      have g1 := (consume_le tks s TokenType.LBRACE Parser.msgLBrace).1
      split at h
      · simp at h
      · rename_i s2 heqN
        have g2 := skipNewlinesF_mono f tks _ _ heqN
        split at h
        · simp at h
        · rename_i stmts s3 heqL
          have g3 := mCloop _ _ _ _ heqL
          simp only [Option.some.injEq, Prod.mk.injEq] at h
          obtain ⟨-, h2⟩ := h
          subst h2
          have g4 := (consume_le tks s3 TokenType.RBRACE Parser.msgRBrace).1
          omega
    · -- compoundLoopF
      intro acc s n s' h
      simp only [Parser.compoundLoopF] at h
      split at h
      · simp only [Option.some.injEq, Prod.mk.injEq] at h
        obtain ⟨-, h2⟩ := h
        subst h2
        exact Nat.le_refl _
      · split at h
        · simp at h
        · rename_i stmtOpt s1 heqS
          have g1 := mStmt _ _ _ heqS
          split at h
          · simp at h
          · rename_i s2 heqN
            have g2 := skipNewlinesF_mono f tks _ _ heqN
            split at h
            case isTrue hstk =>
              have g3 := mCloop _ _ _ _ h
              have g4 := (advanceP_le tks (Parser.recordError tks s2 Parser.msgStuckCompound)).1
              have g5 := recordError_pos tks s2 Parser.msgStuckCompound
              omega
            case isFalse hstk =>
              split at h
              case isTrue heq0 =>
                simp only [Option.some.injEq, Prod.mk.injEq] at h
                obtain ⟨-, h2⟩ := h
                subst h2
                omega
              case isFalse heq0 =>
                have g3 := mCloop _ _ _ _ h
                omega
    · -- parseReturnStatementF
      intro s n s' h
      simp only [Parser.parseReturnStatementF] at h
      split at h
      case isTrue hc =>
        split at h
        · simp at h
        · rename_i e s1 heqE
          have g1 := mExprM _ _ _ heqE
          simp only [Option.some.injEq, Prod.mk.injEq] at h
          obtain ⟨-, h2⟩ := h
          subst h2
          have g2 := (consume_le tks s1 TokenType.SEMICOLON Parser.msgSemiReturn).1
          omega
      case isFalse hc =>
        simp only [Option.some.injEq, Prod.mk.injEq] at h
        obtain ⟨-, h2⟩ := h
        subst h2
        exact (consume_le tks s TokenType.SEMICOLON Parser.msgSemiReturn).1
    · -- parseExpressionStatementF
      intro s o s' h
      simp only [Parser.parseExpressionStatementF] at h
      split at h
      · simp only [Option.some.injEq, Prod.mk.injEq] at h
        obtain ⟨-, h2⟩ := h
        subst h2
        exact Nat.le_refl _
      · split at h
        case isTrue hsemi =>
          simp only [Option.some.injEq, Prod.mk.injEq] at h
          obtain ⟨-, h2⟩ := h
          subst h2
          exact (advanceP_le tks s).1
        case isFalse hsemi =>
          split at h
          case isTrue hincdec =>
            split at h
            case isTrue hid =>
              simp only [Option.some.injEq, Prod.mk.injEq] at h
              obtain ⟨-, h2⟩ := h
              subst h2
              have g1 := (advanceP_le tks s).1
              have g2 := (advanceP_le tks (Parser.advanceP tks s)).1
              have g3 := (consume_le tks (Parser.advanceP tks (Parser.advanceP tks s)) TokenType.SEMICOLON Parser.msgSemiIncDec).1
              omega
            case isFalse hid =>
              simp only [Option.some.injEq, Prod.mk.injEq] at h
              obtain ⟨-, h2⟩ := h
              subst h2
              rw [recordError_pos]
              exact (advanceP_le tks s).1
          case isFalse hincdec =>
            split at h
            · simp at h
            · rename_i e s1 heqE
              have g1 := mExprM _ _ _ heqE
              simp only [Option.some.injEq, Prod.mk.injEq] at h
              obtain ⟨-, h2⟩ := h
              subst h2
              have g2 := (consume_le tks s1 TokenType.SEMICOLON Parser.msgSemiExpr).1
              omega
    · -- programLoopF
      intro acc s n s' h
      simp only [Parser.programLoopF] at h
      split at h
      · simp only [Option.some.injEq, Prod.mk.injEq] at h
        obtain ⟨-, h2⟩ := h
        subst h2
        exact Nat.le_refl _
      · split at h
        · simp at h
        · rename_i stmtOpt s1 heqS
          have g1 := mStmt _ _ _ heqS
          split at h
          · simp at h
          · rename_i s2 heqN
            have g2 := skipNewlinesF_mono f tks _ _ heqN
            split at h
            case isTrue hstk =>
              have g3 := mPloop _ _ _ _ h
              have g4 := (advanceP_le tks (Parser.recordError tks s2 Parser.msgStuckProgram)).1
              have g5 := recordError_pos tks s2 Parser.msgStuckProgram
              omega
            case isFalse hstk =>
              split at h
              case isTrue heq0 =>
                simp only [Option.some.injEq, Prod.mk.injEq] at h
                obtain ⟨-, h2⟩ := h
                subst h2
                omega
              case isFalse heq0 =>
                have g3 := mPloop _ _ _ _ h
                omega
    · -- parseProgramF
      intro s n s' h
      simp only [Parser.parseProgramF] at h
      split at h
      · simp at h
      · rename_i s1 heqN
        have g1 := skipNewlinesF_mono f tks _ _ heqN
        split at h
        · simp at h
        · rename_i stmts s2 heqL
          have g2 := mPloop _ _ _ _ heqL
          simp only [Option.some.injEq, Prod.mk.injEq] at h
          obtain ⟨-, h2⟩ := h
          subst h2
          omega
    · -- forInitStepF
      intro s o s' h
      simp only [Parser.forInitStepF] at h
      split at h
      · split at h
        · simp at h
        · rename_i vd sA heqV
          have g1 := mVd _ _ _ heqV
          simp only [Option.some.injEq, Prod.mk.injEq] at h
          obtain ⟨-, h2⟩ := h
          subst h2
          omega
      · split at h
        · split at h
          · simp at h
          · rename_i e sA heqE
            have g1 := mExprM _ _ _ heqE
            have g2 := (consume_le tks sA TokenType.SEMICOLON Parser.msgSemiForInit).1
            simp only [Option.some.injEq, Prod.mk.injEq] at h
            obtain ⟨-, h2⟩ := h
            subst h2
            omega
        · simp only [Option.some.injEq, Prod.mk.injEq] at h
          obtain ⟨-, h2⟩ := h
          subst h2
          exact (consume_le tks s TokenType.SEMICOLON Parser.msgSemiForInit).1
    · -- forCondStepF
      intro s o s' h
      simp only [Parser.forCondStepF] at h
      split at h
      · split at h
        · simp at h
        · rename_i e sA heqE
          have g1 := mExprM _ _ _ heqE
          simp only [Option.some.injEq, Prod.mk.injEq] at h
          obtain ⟨-, h2⟩ := h
          subst h2
          omega
      · simp only [Option.some.injEq, Prod.mk.injEq] at h
        obtain ⟨-, h2⟩ := h
        subst h2
        exact Nat.le_refl _
    · -- forUpdStepF
      intro s o s' h
      simp only [Parser.forUpdStepF] at h
      split at h
      · split at h
        · simp at h
        · rename_i e sA heqE
          have g1 := mExprM _ _ _ heqE
          simp only [Option.some.injEq, Prod.mk.injEq] at h
          obtain ⟨-, h2⟩ := h
          subst h2
          omega
      · simp only [Option.some.injEq, Prod.mk.injEq] at h
        obtain ⟨-, h2⟩ := h
        subst h2
        exact Nat.le_refl _

theorem checkTok_true_type (tks : List Token) (s : PState) (ty : TokenType) :
    Parser.checkTok tks s ty = true → (Parser.getCurrentToken tks s).type = ty := by
  intro h
  unfold Parser.checkTok at h
  split at h
  · simp at h
  · simpa using h

theorem skipNewlinesF_adv_lt : ∀ (fuel : Nat) (tks : List Token) (s s1 : PState),
    Parser.skipNewlinesF tks fuel s = some s1 → s.pos < s1.pos → s.pos < tks.length := by
  intro fuel tks s s1 h hlt
  cases fuel with
  | zero => simp [Parser.skipNewlinesF] at h
  | succ f =>
    simp only [Parser.skipNewlinesF] at h
    split at h
    case isTrue hc => exact (checkTok_true_lt tks s TokenType.NEWLINE hc).1
    case isFalse hc =>
      simp only [Option.some.injEq] at h
      subst h
      omega

theorem consume_ne_lt (tks : List Token) (s : PState) (ty : TokenType) (msg : String) :
    (Parser.consume tks s ty msg).2.pos ≠ s.pos → s.pos < tks.length := by
  intro h
  unfold Parser.consume at h
  split at h
  case isTrue hc => exact (checkTok_true_lt tks s ty hc).1
  case isFalse hc =>
    simp only [] at h
    rw [recordError_pos] at h
    exact absurd rfl h

theorem getCurrentToken_pos_congr (tks : List Token) (s1 s2 : PState) :
    s1.pos = s2.pos → Parser.getCurrentToken tks s1 = Parser.getCurrentToken tks s2 := by
  intro h
  unfold Parser.getCurrentToken
  rw [h]

theorem lbP_le (tks : List Token) (s : PState) : lbP tks s ≤ 1 := by
  unfold lbP
  split <;> omega

theorem lbP_congr (tks : List Token) (s1 s2 : PState) :
    s1.pos = s2.pos → lbP tks s1 = lbP tks s2 := by
  intro h
  unfold lbP
  rw [getCurrentToken_pos_congr tks s1 s2 h]

theorem lbP_one (tks : List Token) (s : PState) :
    Parser.checkTok tks s TokenType.LBRACE = true → lbP tks s = 1 := by
  intro h
  unfold lbP
  rw [if_pos (checkTok_true_type tks s _ h)]

theorem lbP_zero (tks : List Token) (s : PState) :
    Parser.checkTok tks s TokenType.LBRACE = false → lbP tks s = 0 := by
  intro h
  unfold Parser.checkTok at h
  unfold lbP
  split at h
  case isTrue he =>
    unfold Parser.isAtEnd at he
    rw [if_neg]
    intro hc
    rw [hc] at he
    simp at he
  case isFalse he =>
    have hne : (Parser.getCurrentToken tks s).type ≠ TokenType.LBRACE := by simpa using h
    rw [if_neg hne]

theorem stmtSuff : ∀ (fuel : Nat) (tks : List Token),
    (∀ s, 64 * (tks.length - s.pos) + 52 + 4 * lbP tks s < fuel → (Parser.parseStatementF tks fuel s).isSome) ∧
    (∀ s, 64 * (tks.length - s.pos) + 36 < fuel → (Parser.parseVarDeclarationF tks fuel s).isSome) ∧
    (∀ s, 64 * (tks.length - s.pos) + 35 < fuel → (Parser.vdCommaLoopF tks fuel s).isSome) ∧
    (∀ s, 64 * (tks.length - s.pos) + 40 < fuel → (Parser.parseAssignmentF tks fuel s).isSome) ∧
    (∀ s, 64 * (tks.length - s.pos) + 58 < fuel → (Parser.parseIfStatementF tks fuel s).isSome) ∧
    (∀ s, 64 * (tks.length - s.pos) + 58 < fuel → (Parser.parseWhileStatementF tks fuel s).isSome) ∧
    (∀ s, 64 * (tks.length - s.pos) + 58 < fuel → (Parser.parseForStatementF tks fuel s).isSome) ∧
    (∀ s, 64 * (tks.length - s.pos) + 54 < fuel → (Parser.parseCompoundStatementF tks fuel s).isSome) ∧
    (∀ acc s, 64 * (tks.length - s.pos) + 53 + 4 * lbP tks s < fuel → (Parser.compoundLoopF tks fuel acc s).isSome) ∧
    (∀ s, 64 * (tks.length - s.pos) + 42 < fuel → (Parser.parseReturnStatementF tks fuel s).isSome) ∧
    (∀ s, 64 * (tks.length - s.pos) + 34 < fuel → (Parser.parseExpressionStatementF tks fuel s).isSome) ∧
    (∀ acc s, 64 * (tks.length - s.pos) + 60 < fuel → (Parser.programLoopF tks fuel acc s).isSome) ∧
    (∀ s, 64 * (tks.length - s.pos) + 62 < fuel → (Parser.parseProgramF tks fuel s).isSome) ∧
    (∀ s, 64 * (tks.length - s.pos) + 38 < fuel → (Parser.forInitStepF tks fuel s).isSome) ∧
    (∀ s, 64 * (tks.length - s.pos) + 38 < fuel → (Parser.forCondStepF tks fuel s).isSome) ∧
    (∀ s, 64 * (tks.length - s.pos) + 38 < fuel → (Parser.forUpdStepF tks fuel s).isSome) := by
  intro fuel
  induction fuel with
  | zero =>
    intro tks
    exact ⟨fun s hb => by omega, fun s hb => by omega, fun s hb => by omega,
           fun s hb => by omega, fun s hb => by omega, fun s hb => by omega,
           fun s hb => by omega, fun s hb => by omega, fun acc s hb => by omega,
           fun s hb => by omega, fun s hb => by omega, fun acc s hb => by omega,
           fun s hb => by omega, fun s hb => by omega, fun s hb => by omega,
           fun s hb => by omega⟩
  | succ f ih =>
    intro tks
    obtain ⟨sStmt, sVd, sVdc, sAssign, sIf, sWhile, sFor, sPcs, sCloop, sRet, sPes,
            sPloop, sProg, sInit, sCond, sUpd⟩ := ih tks
    obtain ⟨mStmt, mVd, mVdc, mAssign, mIf, mWhile, mFor, mPcs, mCloop, mRet, mPes,
            mPloop, mProg, mInit, mCond, mUpd⟩ := stmtMono f tks
    obtain ⟨mPrim, mArg, mUn, mMulL, mMul, mAddL, mAdd, mCmpL, mCmp, mEqL, mEq,
            mAndL, mAnd, mOrL, mOr, mExprM⟩ := exprMono f tks
    have sExpr := (exprSuff f tks).2.2.2.2.2.2.2.2.2.2.2.2.2.2.2
    refine ⟨?_, ?_, ?_, ?_, ?_, ?_, ?_, ?_, ?_, ?_, ?_, ?_, ?_, ?_, ?_, ?_⟩
    · -- parseStatementF
      intro s0 hb
      simp only [Parser.parseStatementF]
      cases hsn : Parser.skipNewlinesF tks f s0 with
      | none =>
        have := skipNewlinesF_suff f tks s0 (by omega)
        rw [hsn] at this
        simp at this
      | some s =>
        simp only []
        have hm0 := skipNewlinesF_mono f tks s0 s hsn
        have hkey : 64 * (tks.length - s.pos) + 52 + 4 * lbP tks s < f + 1 := by
          by_cases hpos : s.pos = s0.pos
          · rw [lbP_congr tks s s0 hpos, hpos]
            exact hb
          · have hlt := skipNewlinesF_adv_lt f tks s0 s hsn (by omega)
            have h1 := lbP_le tks s
            omega
        by_cases hend : Parser.isAtEnd tks s = true ∨ Parser.checkTok tks s TokenType.RBRACE = true
        · rw [if_pos hend]
          simp
        · rw [if_neg hend]
          by_cases hmh : (Parser.matchTok tks s TokenType.HASH).1 = true
          · rw [if_pos hmh]
            have g1 := (matchTok_le tks s TokenType.HASH).1
            by_cases hmi : (Parser.matchTok tks (Parser.matchTok tks s TokenType.HASH).2 TokenType.INCLUDE).1 = true
            · rw [if_pos hmi]
              have g2 := (matchTok_le tks (Parser.matchTok tks s TokenType.HASH).2 TokenType.INCLUDE).1
              by_cases hml : (Parser.matchTok tks (Parser.matchTok tks (Parser.matchTok tks s TokenType.HASH).2 TokenType.INCLUDE).2 TokenType.LANGLE).1 = true
              · rw [if_pos hml]
                have g3 := (matchTok_le tks (Parser.matchTok tks (Parser.matchTok tks s TokenType.HASH).2 TokenType.INCLUDE).2 TokenType.LANGLE).1
                cases hsc : Parser.scanIncludeNameF tks f "" (Parser.matchTok tks (Parser.matchTok tks (Parser.matchTok tks s TokenType.HASH).2 TokenType.INCLUDE).2 TokenType.LANGLE).2 with
                | none =>
                  have := scanIncludeNameF_suff f tks "" (Parser.matchTok tks (Parser.matchTok tks (Parser.matchTok tks s TokenType.HASH).2 TokenType.INCLUDE).2 TokenType.LANGLE).2 (by omega)
                  rw [hsc] at this
                  simp at this
                | some r =>
                  obtain ⟨content, sc⟩ := r
                  simp only []
                  split <;> simp
              · rw [if_neg hml]
                split <;> simp
            · rw [if_neg hmi]
              have g2 := (matchTok_le tks (Parser.matchTok tks s TokenType.HASH).2 TokenType.INCLUDE).1
              have g3 := (matchTok_le tks (Parser.matchTok tks (Parser.matchTok tks s TokenType.HASH).2 TokenType.INCLUDE).2 TokenType.DEFINE).1
              by_cases hmd : (Parser.matchTok tks (Parser.matchTok tks (Parser.matchTok tks s TokenType.HASH).2 TokenType.INCLUDE).2 TokenType.DEFINE).1 = true
              · rw [if_pos hmd]
                cases hsd : Parser.scanDirectiveF tks f "" (Parser.matchTok tks (Parser.matchTok tks (Parser.matchTok tks s TokenType.HASH).2 TokenType.INCLUDE).2 TokenType.DEFINE).2 with
                | none =>
                  have := scanDirectiveF_suff f tks "" (Parser.matchTok tks (Parser.matchTok tks (Parser.matchTok tks s TokenType.HASH).2 TokenType.INCLUDE).2 TokenType.DEFINE).2 (by omega)
                  rw [hsd] at this
                  simp at this
                | some r =>
                  obtain ⟨content, sc⟩ := r
                  simp
              · rw [if_neg hmd]
                cases hsd : Parser.scanDirectiveF tks f "" (Parser.matchTok tks (Parser.matchTok tks (Parser.matchTok tks s TokenType.HASH).2 TokenType.INCLUDE).2 TokenType.DEFINE).2 with
                | none =>
                  have := scanDirectiveF_suff f tks "" (Parser.matchTok tks (Parser.matchTok tks (Parser.matchTok tks s TokenType.HASH).2 TokenType.INCLUDE).2 TokenType.DEFINE).2 (by omega)
                  rw [hsd] at this
                  simp at this
                | some r =>
                  obtain ⟨content, sc⟩ := r
                  simp
          · rw [if_neg hmh]
            by_cases hfn : (Parser.checkTok tks s TokenType.INT = true ∨ Parser.checkTok tks s TokenType.FLOAT_KW = true ∨ Parser.checkTok tks s TokenType.CHAR = true ∨ Parser.checkTok tks s TokenType.VOID = true) ∧ (Parser.peekTokenP tks s 1).type = TokenType.IDENTIFIER ∧ (Parser.peekTokenP tks s 2).type = TokenType.LPAREN
            · rw [if_pos hfn]
              have hlt : s.pos < tks.length ∧ (Parser.advanceP tks s).pos = s.pos + 1 := by
                rcases hfn.1 with hc | hc | hc | hc
                · exact checkTok_true_lt tks s _ hc
                · exact checkTok_true_lt tks s _ hc
                · exact checkTok_true_lt tks s _ hc
                · exact checkTok_true_lt tks s _ hc
              have g2 := (advanceP_le tks (Parser.advanceP tks s)).1
              have g3 := (advanceP_le tks (Parser.advanceP tks (Parser.advanceP tks s))).1
              cases hP : Parser.paramLoopF tks f [] (Parser.advanceP tks (Parser.advanceP tks (Parser.advanceP tks s))) with
              | none =>
                have := paramLoopF_suff f tks [] (Parser.advanceP tks (Parser.advanceP tks (Parser.advanceP tks s))) (by omega)
                rw [hP] at this
                simp at this
              | some r =>
                obtain ⟨params, s4⟩ := r
                have g4 := paramLoopF_mono f tks [] _ _ hP
                simp only [] at g4
                simp only []
                have g5 := (consume_le tks s4 TokenType.RPAREN Parser.msgRParenParams).1
                by_cases hsemi : Parser.checkTok tks (Parser.consume tks s4 TokenType.RPAREN Parser.msgRParenParams).2 TokenType.SEMICOLON = true
                · rw [if_pos hsemi]
                  simp
                · rw [if_neg hsemi]
                  cases hB : Parser.parseCompoundStatementF tks f (Parser.consume tks s4 TokenType.RPAREN Parser.msgRParenParams).2 with
                  | none =>
                    have := sPcs (Parser.consume tks s4 TokenType.RPAREN Parser.msgRParenParams).2 (by omega)
                    rw [hB] at this
                    simp at this
                  | some r2 =>
                    obtain ⟨body, s6⟩ := r2
                    simp
            · rw [if_neg hfn]
              by_cases hvd : Parser.checkTok tks s TokenType.INT = true ∨ Parser.checkTok tks s TokenType.FLOAT_KW = true ∨ Parser.checkTok tks s TokenType.CHAR = true
              · rw [if_pos hvd]
                cases hV : Parser.parseVarDeclarationF tks f s with
                | none =>
                  have := sVd s (by omega)
                  rw [hV] at this
                  simp at this
                | some r =>
                  obtain ⟨vd, s1⟩ := r
                  simp
              · rw [if_neg hvd]
                by_cases hmif : (Parser.matchTok tks s TokenType.IF).1 = true
                · rw [if_pos hmif]
                  have hmt := matchTok_true tks s TokenType.IF hmif
                  cases hI : Parser.parseIfStatementF tks f (Parser.matchTok tks s TokenType.IF).2 with
                  | none =>
                    have := sIf (Parser.matchTok tks s TokenType.IF).2 (by omega)
                    rw [hI] at this
                    simp at this
                  | some r =>
                    obtain ⟨st, s1⟩ := r
                    simp
                · rw [if_neg hmif]
                  by_cases hmw : (Parser.matchTok tks s TokenType.WHILE).1 = true
                  · rw [if_pos hmw]
                    have hmt := matchTok_true tks s TokenType.WHILE hmw
                    cases hW : Parser.parseWhileStatementF tks f (Parser.matchTok tks s TokenType.WHILE).2 with
                    | none =>
                      have := sWhile (Parser.matchTok tks s TokenType.WHILE).2 (by omega)
                      rw [hW] at this
                      simp at this
                    | some r =>
                      obtain ⟨st, s1⟩ := r
                      simp
                  · rw [if_neg hmw]
                    by_cases hmf : (Parser.matchTok tks s TokenType.FOR).1 = true
                    · rw [if_pos hmf]
                      have hmt := matchTok_true tks s TokenType.FOR hmf
                      cases hF : Parser.parseForStatementF tks f (Parser.matchTok tks s TokenType.FOR).2 with
                      | none =>
                        have := sFor (Parser.matchTok tks s TokenType.FOR).2 (by omega)
                        rw [hF] at this
                        simp at this
                      | some r =>
                        obtain ⟨st, s1⟩ := r
                        simp
                    · rw [if_neg hmf]
                      by_cases hlb : Parser.checkTok tks s TokenType.LBRACE = true
                      · rw [if_pos hlb]
                        have hl1 := lbP_one tks s hlb
                        cases hC : Parser.parseCompoundStatementF tks f s with
                        | none =>
                          have := sPcs s (by omega)
                          rw [hC] at this
                          simp at this
                        | some r =>
                          obtain ⟨st, s1⟩ := r
                          simp
                      · rw [if_neg hlb]
                        by_cases hmr : (Parser.matchTok tks s TokenType.RETURN).1 = true
                        · rw [if_pos hmr]
                          have hmt := matchTok_true tks s TokenType.RETURN hmr
                          cases hR : Parser.parseReturnStatementF tks f (Parser.matchTok tks s TokenType.RETURN).2 with
                          | none =>
                            have := sRet (Parser.matchTok tks s TokenType.RETURN).2 (by omega)
                            rw [hR] at this
                            simp at this
                          | some r =>
                            obtain ⟨st, s1⟩ := r
                            simp
                        · rw [if_neg hmr]
                          by_cases hmb : (Parser.matchTok tks s TokenType.BREAK).1 = true
                          · rw [if_pos hmb]
                            simp
                          · rw [if_neg hmb]
                            by_cases hmc : (Parser.matchTok tks s TokenType.CONTINUE).1 = true
                            · rw [if_pos hmc]
                              simp
                            · rw [if_neg hmc]
                              by_cases hia : Parser.checkTok tks s TokenType.IDENTIFIER = true ∧ (Parser.peekTokenP tks s 1).type = TokenType.ASSIGN
                              · rw [if_pos hia]
                                cases hA : Parser.parseAssignmentF tks f s with
                                | none =>
                                  have := sAssign s (by omega)
                                  rw [hA] at this
                                  simp at this
                                | some r =>
                                  obtain ⟨st, s1⟩ := r
                                  simp
                              · rw [if_neg hia]
                                exact sPes s (by omega)
    · -- parseVarDeclarationF
      intro s hb
      simp only [Parser.parseVarDeclarationF]
      have g1 := (advanceP_le tks s).1
      have g2 := (consume_le tks (Parser.advanceP tks s) TokenType.IDENTIFIER Parser.msgVarName).1
      have g3 := (matchTok_le tks (Parser.consume tks (Parser.advanceP tks s) TokenType.IDENTIFIER Parser.msgVarName).2 TokenType.ASSIGN).1
      by_cases hmA : (Parser.matchTok tks (Parser.consume tks (Parser.advanceP tks s) TokenType.IDENTIFIER Parser.msgVarName).2 TokenType.ASSIGN).1 = true
      · rw [if_pos hmA]
        cases hE : Parser.parseExpressionF tks f (Parser.matchTok tks (Parser.consume tks (Parser.advanceP tks s) TokenType.IDENTIFIER Parser.msgVarName).2 TokenType.ASSIGN).2 with
        | none =>
          have := sExpr (Parser.matchTok tks (Parser.consume tks (Parser.advanceP tks s) TokenType.IDENTIFIER Parser.msgVarName).2 TokenType.ASSIGN).2 (by omega)
          rw [hE] at this
          simp at this
        | some r =>
          obtain ⟨e, s4⟩ := r
          have g4 := mExprM _ _ _ hE
          simp only []
          cases hV : Parser.vdCommaLoopF tks f s4 with
          | none =>
            have := sVdc s4 (by omega)
            rw [hV] at this
            simp at this
          | some s5 =>
            simp
      · rw [if_neg hmA]
        cases hV : Parser.vdCommaLoopF tks f (Parser.matchTok tks (Parser.consume tks (Parser.advanceP tks s) TokenType.IDENTIFIER Parser.msgVarName).2 TokenType.ASSIGN).2 with
        | none =>
          have := sVdc (Parser.matchTok tks (Parser.consume tks (Parser.advanceP tks s) TokenType.IDENTIFIER Parser.msgVarName).2 TokenType.ASSIGN).2 (by omega)
          rw [hV] at this
          simp at this
        | some s5 =>
          simp
    · -- vdCommaLoopF
      intro s hb
      simp only [Parser.vdCommaLoopF]
      by_cases hm : (Parser.matchTok tks s TokenType.COMMA).1 = true
      · rw [if_pos hm]
        have hmt := matchTok_true tks s TokenType.COMMA hm
        have g2 := (consume_le tks (Parser.matchTok tks s TokenType.COMMA).2 TokenType.IDENTIFIER Parser.msgVarNameComma).1
        have g3 := (matchTok_le tks (Parser.consume tks (Parser.matchTok tks s TokenType.COMMA).2 TokenType.IDENTIFIER Parser.msgVarNameComma).2 TokenType.ASSIGN).1
        by_cases hmA : (Parser.matchTok tks (Parser.consume tks (Parser.matchTok tks s TokenType.COMMA).2 TokenType.IDENTIFIER Parser.msgVarNameComma).2 TokenType.ASSIGN).1 = true
        · rw [if_pos hmA]
          cases hE : Parser.parseExpressionF tks f (Parser.matchTok tks (Parser.consume tks (Parser.matchTok tks s TokenType.COMMA).2 TokenType.IDENTIFIER Parser.msgVarNameComma).2 TokenType.ASSIGN).2 with
          | none =>
            have := sExpr (Parser.matchTok tks (Parser.consume tks (Parser.matchTok tks s TokenType.COMMA).2 TokenType.IDENTIFIER Parser.msgVarNameComma).2 TokenType.ASSIGN).2 (by omega)
            rw [hE] at this
            simp at this
          | some r =>
            obtain ⟨e, s4⟩ := r
            have g4 := mExprM _ _ _ hE
            simp only []
            exact sVdc s4 (by omega)
        · rw [if_neg hmA]
          exact sVdc (Parser.matchTok tks (Parser.consume tks (Parser.matchTok tks s TokenType.COMMA).2 TokenType.IDENTIFIER Parser.msgVarNameComma).2 TokenType.ASSIGN).2 (by omega)
      · rw [if_neg hm]
        simp
    · -- parseAssignmentF
      intro s hb
      simp only [Parser.parseAssignmentF]
      have g1 := (consume_le tks s TokenType.IDENTIFIER Parser.msgExpectedIdent).1
      have g2 := (consume_le tks (Parser.consume tks s TokenType.IDENTIFIER Parser.msgExpectedIdent).2 TokenType.ASSIGN Parser.msgExpectedAssign).1
      cases hE : Parser.parseExpressionF tks f (Parser.consume tks (Parser.consume tks s TokenType.IDENTIFIER Parser.msgExpectedIdent).2 TokenType.ASSIGN Parser.msgExpectedAssign).2 with
      | none =>
        have := sExpr (Parser.consume tks (Parser.consume tks s TokenType.IDENTIFIER Parser.msgExpectedIdent).2 TokenType.ASSIGN Parser.msgExpectedAssign).2 (by omega)
        rw [hE] at this
        simp at this
      | some r =>
        obtain ⟨e, s3⟩ := r
        simp
    · -- parseIfStatementF
      intro s hb
      simp only [Parser.parseIfStatementF]
      have g1 := (consume_le tks s TokenType.LPAREN Parser.msgLParenIf).1
      cases hE : Parser.parseExpressionF tks f (Parser.consume tks s TokenType.LPAREN Parser.msgLParenIf).2 with
      | none =>
        have := sExpr (Parser.consume tks s TokenType.LPAREN Parser.msgLParenIf).2 (by omega)
        rw [hE] at this
        simp at this
      | some r =>
        obtain ⟨cond, s2⟩ := r
        have g2 := mExprM _ _ _ hE
        simp only []
        have g3 := (consume_le tks s2 TokenType.RPAREN Parser.msgRParenIf).1
        cases hS : Parser.parseStatementF tks f (Parser.consume tks s2 TokenType.RPAREN Parser.msgRParenIf).2 with
        | none =>
          have hl := lbP_le tks (Parser.consume tks s2 TokenType.RPAREN Parser.msgRParenIf).2
          have := sStmt (Parser.consume tks s2 TokenType.RPAREN Parser.msgRParenIf).2 (by omega)
          rw [hS] at this
          simp at this
        | some r2 =>
          obtain ⟨thenStmt, s4⟩ := r2
          have g4 := mStmt _ _ _ hS
          simp only []
          cases hN : Parser.skipNewlinesF tks f s4 with
          | none =>
            have := skipNewlinesF_suff f tks s4 (by omega)
            rw [hN] at this
            simp at this
          | some s5 =>
            have g5 := skipNewlinesF_mono f tks _ _ hN
            simp only []
            have g6 := (matchTok_le tks s5 TokenType.ELSE).1
            by_cases hmE : (Parser.matchTok tks s5 TokenType.ELSE).1 = true
            · rw [if_pos hmE]
              cases hS2 : Parser.parseStatementF tks f (Parser.matchTok tks s5 TokenType.ELSE).2 with
              | none =>
                have hl := lbP_le tks (Parser.matchTok tks s5 TokenType.ELSE).2
                have := sStmt (Parser.matchTok tks s5 TokenType.ELSE).2 (by omega)
                rw [hS2] at this
                simp at this
              | some r3 =>
                obtain ⟨elseStmt, s7⟩ := r3
                simp
            · rw [if_neg hmE]
              simp
    · -- parseWhileStatementF
      intro s hb
      simp only [Parser.parseWhileStatementF]
      have g1 := (consume_le tks s TokenType.LPAREN Parser.msgLParenWhile).1
      cases hE : Parser.parseExpressionF tks f (Parser.consume tks s TokenType.LPAREN Parser.msgLParenWhile).2 with
      | none =>
        have := sExpr (Parser.consume tks s TokenType.LPAREN Parser.msgLParenWhile).2 (by omega)
        rw [hE] at this
        simp at this
      | some r =>
        obtain ⟨cond, s2⟩ := r
        have g2 := mExprM _ _ _ hE
        simp only []
        have g3 := (consume_le tks s2 TokenType.RPAREN Parser.msgRParenWhile).1
        cases hS : Parser.parseStatementF tks f (Parser.consume tks s2 TokenType.RPAREN Parser.msgRParenWhile).2 with
        | none =>
          have hl := lbP_le tks (Parser.consume tks s2 TokenType.RPAREN Parser.msgRParenWhile).2
          have := sStmt (Parser.consume tks s2 TokenType.RPAREN Parser.msgRParenWhile).2 (by omega)
          rw [hS] at this
          simp at this
        | some r2 =>
          obtain ⟨body, s4⟩ := r2
          simp
    · -- parseForStatementF
      intro s hb
      simp only [Parser.parseForStatementF]
      have g1 := (consume_le tks s TokenType.LPAREN Parser.msgLParenFor).1
      cases hI : Parser.forInitStepF tks f (Parser.consume tks s TokenType.LPAREN Parser.msgLParenFor).2 with
      | none =>
        have := sInit (Parser.consume tks s TokenType.LPAREN Parser.msgLParenFor).2 (by omega)
        rw [hI] at this
        simp at this
      | some r =>
        obtain ⟨initOpt, s2⟩ := r
        have g2 := mInit _ _ _ hI
        simp only []
        cases hC : Parser.forCondStepF tks f s2 with
        | none =>
          have := sCond s2 (by omega)
          rw [hC] at this
          simp at this
        | some r2 =>
          obtain ⟨condOpt, s3⟩ := r2
          have g3 := mCond _ _ _ hC
          simp only []
          have g4 := (consume_le tks s3 TokenType.SEMICOLON Parser.msgSemiForCond).1
          cases hU : Parser.forUpdStepF tks f (Parser.consume tks s3 TokenType.SEMICOLON Parser.msgSemiForCond).2 with
          | none =>
            have := sUpd (Parser.consume tks s3 TokenType.SEMICOLON Parser.msgSemiForCond).2 (by omega)
            rw [hU] at this
            simp at this
          | some r3 =>
            obtain ⟨updOpt, s5⟩ := r3
            have g5 := mUpd _ _ _ hU
            simp only []
            have g6 := (consume_le tks s5 TokenType.RPAREN Parser.msgRParenFor).1
            cases hS : Parser.parseStatementF tks f (Parser.consume tks s5 TokenType.RPAREN Parser.msgRParenFor).2 with
            | none =>
              have hl := lbP_le tks (Parser.consume tks s5 TokenType.RPAREN Parser.msgRParenFor).2
              have := sStmt (Parser.consume tks s5 TokenType.RPAREN Parser.msgRParenFor).2 (by omega)
              rw [hS] at this
              simp at this
            | some r4 =>
              obtain ⟨body, s7⟩ := r4
              simp
    · -- parseCompoundStatementF
      intro s hb
      simp only [Parser.parseCompoundStatementF]
      have g1 := (consume_le tks s TokenType.LBRACE Parser.msgLBrace).1
      cases hN : Parser.skipNewlinesF tks f (Parser.consume tks s TokenType.LBRACE Parser.msgLBrace).2 with
      | none =>
        have := skipNewlinesF_suff f tks (Parser.consume tks s TokenType.LBRACE Parser.msgLBrace).2 (by omega)
        rw [hN] at this
        simp at this
      | some s2 =>
        have g2 := skipNewlinesF_mono f tks _ _ hN
        simp only []
        cases hL : Parser.compoundLoopF tks f [] s2 with
        | none =>
          have hbl : 64 * (tks.length - s2.pos) + 53 + 4 * lbP tks s2 < f := by
            by_cases hpos : s2.pos = s.pos
            · have hc1 : (Parser.consume tks s TokenType.LBRACE Parser.msgLBrace).2.pos = s.pos := by omega
              have hck := consume_noadv tks s TokenType.LBRACE Parser.msgLBrace hc1
              have hl0 : lbP tks s2 = 0 := by
                rw [lbP_congr tks s2 s hpos]
                exact lbP_zero tks s hck
              omega
            · by_cases hc : (Parser.consume tks s TokenType.LBRACE Parser.msgLBrace).2.pos = s.pos
              · have hadv := skipNewlinesF_adv_lt f tks (Parser.consume tks s TokenType.LBRACE Parser.msgLBrace).2 s2 hN (by omega)
                have hl := lbP_le tks s2
                omega
              · have hlen := consume_ne_lt tks s TokenType.LBRACE Parser.msgLBrace hc
                have hl := lbP_le tks s2
                omega
          have := sCloop [] s2 hbl
          rw [hL] at this
          simp at this
        | some r =>
          obtain ⟨stmts, s3⟩ := r
          simp
    · -- compoundLoopF
      intro acc s hb
      simp only [Parser.compoundLoopF]
      by_cases hguard : Parser.checkTok tks s TokenType.RBRACE = true ∨ Parser.isAtEnd tks s = true
      · rw [if_pos hguard]
        simp
      · rw [if_neg hguard]
        have hend : Parser.isAtEnd tks s = false := by
          cases hA : Parser.isAtEnd tks s
          · rfl
          · exact absurd (Or.inr hA) hguard
        have hlen := isAtEnd_false_lt tks s hend
        cases hS : Parser.parseStatementF tks f s with
        | none =>
          have := sStmt s (by omega)
          rw [hS] at this
          simp at this
        | some r =>
          obtain ⟨stmtOpt, s1⟩ := r
          have g1 := mStmt _ _ _ hS
          simp only []
          cases hN : Parser.skipNewlinesF tks f s1 with
          | none =>
            have := skipNewlinesF_suff f tks s1 (by omega)
            rw [hN] at this
            simp at this
          | some s2 =>
            have g2 := skipNewlinesF_mono f tks _ _ hN
            simp only []
            by_cases hstk : s2.pos = s.pos ∧ ¬ Parser.isAtEnd tks s2 = true ∧ ¬ Parser.checkTok tks s2 TokenType.RBRACE = true
            · rw [if_pos hstk]
              have hend2 : Parser.isAtEnd tks s2 = false := bool_not_true hstk.2.1
              have hlen2 := isAtEnd_false_lt tks s2 hend2
              have hadv : (Parser.advanceP tks (Parser.recordError tks s2 Parser.msgStuckCompound)).pos = s2.pos + 1 := by
                have h1 := advanceP_not_end tks (Parser.recordError tks s2 Parser.msgStuckCompound) (by rw [isAtEnd_recordError]; exact hend2)
                rw [recordError_pos] at h1
                exact h1
              apply sCloop
              have hl := lbP_le tks (Parser.advanceP tks (Parser.recordError tks s2 Parser.msgStuckCompound))
              have hs2 := hstk.1
              omega
            · rw [if_neg hstk]
              by_cases heq0 : s2.pos = s.pos
              · rw [if_pos heq0]
                simp
              · rw [if_neg heq0]
                apply sCloop
                have hl := lbP_le tks s2
                omega
    · -- parseReturnStatementF
      intro s hb
      simp only [Parser.parseReturnStatementF]
      by_cases hc : ¬ Parser.checkTok tks s TokenType.SEMICOLON = true
      · rw [if_pos hc]
        cases hE : Parser.parseExpressionF tks f s with
        | none =>
          have := sExpr s (by omega)
          rw [hE] at this
          simp at this
        | some r =>
          obtain ⟨e, s1⟩ := r
          simp
      · rw [if_neg hc]
        simp
    · -- parseExpressionStatementF
      intro s hb
      simp only [Parser.parseExpressionStatementF]
      by_cases h1 : Parser.checkTok tks s TokenType.RBRACE = true ∨ Parser.isAtEnd tks s = true
      · rw [if_pos h1]
        simp
      · rw [if_neg h1]
        by_cases h2 : Parser.checkTok tks s TokenType.SEMICOLON = true
        · rw [if_pos h2]
          simp
        · rw [if_neg h2]
          by_cases h3 : Parser.checkTok tks s TokenType.INCREMENT = true ∨ Parser.checkTok tks s TokenType.DECREMENT = true
          · rw [if_pos h3]
            split <;> simp
          · rw [if_neg h3]
            cases hE : Parser.parseExpressionF tks f s with
            | none =>
              have := sExpr s (by omega)
              rw [hE] at this
              simp at this
            | some r =>
              obtain ⟨e, s1⟩ := r
              simp
    · -- programLoopF
      intro acc s hb
      simp only [Parser.programLoopF]
      by_cases hguard : Parser.isAtEnd tks s = true
      · rw [if_pos hguard]
        simp
      · rw [if_neg hguard]
        have hend : Parser.isAtEnd tks s = false := bool_not_true hguard
        have hlen := isAtEnd_false_lt tks s hend
        have hl := lbP_le tks s
        cases hS : Parser.parseStatementF tks f s with
        | none =>
          have := sStmt s (by omega)
          rw [hS] at this
          simp at this
        | some r =>
          obtain ⟨stmtOpt, s1⟩ := r
          have g1 := mStmt _ _ _ hS
          simp only []
          cases hN : Parser.skipNewlinesF tks f s1 with
          | none =>
            have := skipNewlinesF_suff f tks s1 (by omega)
            rw [hN] at this
            simp at this
          | some s2 =>
            have g2 := skipNewlinesF_mono f tks _ _ hN
            simp only []
            by_cases hstk : s2.pos = s.pos ∧ ¬ Parser.isAtEnd tks s2 = true
            · rw [if_pos hstk]
              have hend2 : Parser.isAtEnd tks s2 = false := bool_not_true hstk.2
              have hlen2 := isAtEnd_false_lt tks s2 hend2
              have hadv : (Parser.advanceP tks (Parser.recordError tks s2 Parser.msgStuckProgram)).pos = s2.pos + 1 := by
                have h1 := advanceP_not_end tks (Parser.recordError tks s2 Parser.msgStuckProgram) (by rw [isAtEnd_recordError]; exact hend2)
                rw [recordError_pos] at h1
                exact h1
              apply sPloop
              have hs2 := hstk.1
              omega
            · rw [if_neg hstk]
              by_cases heq0 : s2.pos = s.pos
              · rw [if_pos heq0]
                simp
              · rw [if_neg heq0]
                apply sPloop
                omega
    · -- parseProgramF
      intro s hb
      simp only [Parser.parseProgramF]
      cases hN : Parser.skipNewlinesF tks f s with
      | none =>
        have := skipNewlinesF_suff f tks s (by omega)
        rw [hN] at this
        simp at this
      | some s1 =>
        have g1 := skipNewlinesF_mono f tks _ _ hN
        simp only []
        cases hL : Parser.programLoopF tks f [] s1 with
        | none =>
          have := sPloop [] s1 (by omega)
          rw [hL] at this
          simp at this
        | some r =>
          obtain ⟨stmts, s2⟩ := r
          simp
    · -- forInitStepF
      intro s hb
      simp only [Parser.forInitStepF]
      by_cases hc1 : Parser.checkTok tks s TokenType.INT = true ∨ Parser.checkTok tks s TokenType.FLOAT_KW = true ∨ Parser.checkTok tks s TokenType.CHAR = true
      · rw [if_pos hc1]
        cases hV : Parser.parseVarDeclarationF tks f s with
        | none =>
          have := sVd s (by omega)
          rw [hV] at this
          simp at this
        | some r =>
          obtain ⟨vd, sA⟩ := r
          simp
      · rw [if_neg hc1]
        by_cases hc2 : ¬ Parser.checkTok tks s TokenType.SEMICOLON = true
        · rw [if_pos hc2]
          cases hE : Parser.parseExpressionF tks f s with
          | none =>
            have := sExpr s (by omega)
            rw [hE] at this
            simp at this
          | some r =>
            obtain ⟨e, sA⟩ := r
            simp
        · rw [if_neg hc2]
          simp
    · -- forCondStepF
      intro s hb
      simp only [Parser.forCondStepF]
      by_cases hc2 : ¬ Parser.checkTok tks s TokenType.SEMICOLON = true
      · rw [if_pos hc2]
        cases hE : Parser.parseExpressionF tks f s with
        | none =>
          have := sExpr s (by omega)
          rw [hE] at this
          simp at this
        | some r =>
          obtain ⟨e, sA⟩ := r
          simp
      · rw [if_neg hc2]
        simp
    · -- forUpdStepF
      intro s hb
      simp only [Parser.forUpdStepF]
      by_cases hc2 : ¬ Parser.checkTok tks s TokenType.RPAREN = true
      · rw [if_pos hc2]
        cases hE : Parser.parseExpressionF tks f s with
        | none =>
          have := sExpr s (by omega)
          rw [hE] at this
          simp at this
        | some r =>
          obtain ⟨e, sA⟩ := r
          simp
      · rw [if_neg hc2]
        simp

theorem exprWF_literal (v : String) (t : TokenType) : exprWF (ASTNode.literal v t) = true := by
  unfold exprWF
  rfl

theorem exprWF_identifier (n : String) : exprWF (ASTNode.identifier n) = true := by
  unfold exprWF
  rfl

theorem exprWF_bin (op : String) (l r : ASTNode) (hl : exprWF l = true) (hr : exprWF r = true) :
    exprWF (ASTNode.binaryExpression op (some l) (some r)) = true := by
  unfold exprWF
  simp [hl, hr]

theorem exprWF_un (op : String) (o : ASTNode) (ho : exprWF o = true) :
    exprWF (ASTNode.unaryExpression op (some o)) = true := by
  unfold exprWF
  simp [ho]

theorem exprWF_functionCall (n : String) (args : List ASTNode) :
    (∀ a ∈ args, exprWF a = true) → exprWF (ASTNode.functionCall n args) = true := by
  intro h
  unfold exprWF
  rw [List.all_eq_true]
  intro x hx
  exact h x.1 x.2

theorem exprWFAll : ∀ (fuel : Nat) (tks : List Token),
    (∀ s e s1, Parser.parsePrimaryF tks fuel s = some (e, s1) → exprWF e = true) ∧
    (∀ args0 s args1 s1, (∀ a ∈ args0, exprWF a = true) →
       Parser.argLoopF tks fuel args0 s = some (args1, s1) → ∀ a ∈ args1, exprWF a = true) ∧
    (∀ s e s1, Parser.parseUnaryF tks fuel s = some (e, s1) → exprWF e = true) ∧
    (∀ e0 s e s1, exprWF e0 = true → Parser.mulLoopF tks fuel e0 s = some (e, s1) → exprWF e = true) ∧
    (∀ s e s1, Parser.parseMultiplicationF tks fuel s = some (e, s1) → exprWF e = true) ∧
    (∀ e0 s e s1, exprWF e0 = true → Parser.addLoopF tks fuel e0 s = some (e, s1) → exprWF e = true) ∧
    (∀ s e s1, Parser.parseAdditionF tks fuel s = some (e, s1) → exprWF e = true) ∧
    (∀ e0 s e s1, exprWF e0 = true → Parser.cmpLoopF tks fuel e0 s = some (e, s1) → exprWF e = true) ∧
    (∀ s e s1, Parser.parseComparisonF tks fuel s = some (e, s1) → exprWF e = true) ∧
    (∀ e0 s e s1, exprWF e0 = true → Parser.eqLoopF tks fuel e0 s = some (e, s1) → exprWF e = true) ∧
    (∀ s e s1, Parser.parseEqualityF tks fuel s = some (e, s1) → exprWF e = true) ∧
    (∀ e0 s e s1, exprWF e0 = true → Parser.andLoopF tks fuel e0 s = some (e, s1) → exprWF e = true) ∧
    (∀ s e s1, Parser.parseLogicalAndF tks fuel s = some (e, s1) → exprWF e = true) ∧
    (∀ e0 s e s1, exprWF e0 = true → Parser.orLoopF tks fuel e0 s = some (e, s1) → exprWF e = true) ∧
    (∀ s e s1, Parser.parseLogicalOrF tks fuel s = some (e, s1) → exprWF e = true) ∧
    (∀ s e s1, Parser.parseExpressionF tks fuel s = some (e, s1) → exprWF e = true) := by
  intro fuel
  induction fuel with
  | zero =>
    intro tks
    exact ⟨fun s e s1 h => by simp [Parser.parsePrimaryF] at h,
           fun args0 s args1 s1 ha h => by simp [Parser.argLoopF] at h,
           fun s e s1 h => by simp [Parser.parseUnaryF] at h,
           fun e0 s e s1 he h => by simp [Parser.mulLoopF] at h,
           fun s e s1 h => by simp [Parser.parseMultiplicationF] at h,
           fun e0 s e s1 he h => by simp [Parser.addLoopF] at h,
           fun s e s1 h => by simp [Parser.parseAdditionF] at h,
           fun e0 s e s1 he h => by simp [Parser.cmpLoopF] at h,
           fun s e s1 h => by simp [Parser.parseComparisonF] at h,
           fun e0 s e s1 he h => by simp [Parser.eqLoopF] at h,
           fun s e s1 h => by simp [Parser.parseEqualityF] at h,
           fun e0 s e s1 he h => by simp [Parser.andLoopF] at h,
           fun s e s1 h => by simp [Parser.parseLogicalAndF] at h,
           fun e0 s e s1 he h => by simp [Parser.orLoopF] at h,
           fun s e s1 h => by simp [Parser.parseLogicalOrF] at h,
           fun s e s1 h => by simp [Parser.parseExpressionF] at h⟩
  | succ f ih =>
    intro tks
    obtain ⟨wPrim, wArg, wUn, wMulL, wMul, wAddL, wAdd, wCmpL, wCmp, wEqL, wEq,
            wAndL, wAnd, wOrL, wOr, wExpr⟩ := ih tks
    refine ⟨?_, ?_, ?_, ?_, ?_, ?_, ?_, ?_, ?_, ?_, ?_, ?_, ?_, ?_, ?_, ?_⟩
    · -- parsePrimaryF
      intro s e s1 h
      simp only [Parser.parsePrimaryF] at h
      split at h
      · simp only [Option.some.injEq, Prod.mk.injEq] at h
        obtain ⟨h1, -⟩ := h
        subst h1
        exact exprWF_literal _ _
      · split at h
        · simp only [Option.some.injEq, Prod.mk.injEq] at h
          obtain ⟨h1, -⟩ := h
          subst h1
          exact exprWF_literal _ _
        · split at h
          case isTrue hid =>
            split at h
            case isTrue hlp =>
              split at h
              · simp at h
              · rename_i args s3 heqA
                have hargs := wArg [] _ _ _ (by intro a ha; simp at ha) heqA
                simp only [Option.some.injEq, Prod.mk.injEq] at h
                obtain ⟨h1, -⟩ := h
                subst h1
                exact exprWF_functionCall _ _ hargs
            case isFalse hlp =>
              split at h
              · simp only [Option.some.injEq, Prod.mk.injEq] at h
                obtain ⟨h1, -⟩ := h
                subst h1
                exact exprWF_identifier _
              · simp only [Option.some.injEq, Prod.mk.injEq] at h
                obtain ⟨h1, -⟩ := h
                subst h1
                exact exprWF_identifier _
          case isFalse hid =>
            split at h
            case isTrue hlp =>
              split at h
              · simp at h
              · rename_i e2 s2 heqE
                have hwf := wExpr _ _ _ heqE
                simp only [Option.some.injEq, Prod.mk.injEq] at h
                obtain ⟨h1, -⟩ := h
                subst h1
                exact hwf
            case isFalse hlp =>
              simp only [Option.some.injEq, Prod.mk.injEq] at h
              obtain ⟨h1, -⟩ := h
              subst h1
              exact exprWF_literal _ _
    · -- argLoopF
      intro args0 s args1 s1 hargs h
      simp only [Parser.argLoopF] at h
      split at h
      case isTrue hc =>
        split at h
        · simp at h
        · rename_i arg sA heqE
          have harg := wExpr _ _ _ heqE
          split at h
          case isTrue hm =>
            refine wArg _ _ _ _ ?_ h
            intro a ha
            rw [List.mem_append] at ha
            rcases ha with ha | ha
            · exact hargs a ha
            · simp at ha
              subst ha
              exact harg
          case isFalse hm =>
            simp only [Option.some.injEq, Prod.mk.injEq] at h
            obtain ⟨h1, -⟩ := h
            subst h1
            intro a ha
            rw [List.mem_append] at ha
            rcases ha with ha | ha
            · exact hargs a ha
            · simp at ha
              subst ha
              exact harg
      case isFalse hc =>
        simp only [Option.some.injEq, Prod.mk.injEq] at h
        obtain ⟨h1, -⟩ := h
        subst h1
        exact hargs
    · -- parseUnaryF
      intro s e s1 h
      simp only [Parser.parseUnaryF] at h
      split at h
      case isTrue hc =>
        split at h
        · simp at h
        · rename_i operand sA heqU
          have hwf := wUn _ _ _ heqU
          simp only [Option.some.injEq, Prod.mk.injEq] at h
          obtain ⟨h1, -⟩ := h
          subst h1
          exact exprWF_un _ _ hwf
      case isFalse hc =>
        exact wPrim _ _ _ h
    · -- mulLoopF
      intro e0 s e s1 he0 h
      simp only [Parser.mulLoopF] at h
      split at h
      case isTrue hc =>
        split at h
        · simp at h
        · rename_i rhs sA heqU
          have hrhs := wUn _ _ _ heqU
          exact wMulL _ _ _ _ (exprWF_bin _ _ _ he0 hrhs) h
      case isFalse hc =>
        simp only [Option.some.injEq, Prod.mk.injEq] at h
        obtain ⟨h1, -⟩ := h
        subst h1
        exact he0
    · -- parseMultiplicationF
      intro s e s1 h
      simp only [Parser.parseMultiplicationF] at h
      split at h
      · simp at h
      · rename_i e2 s2 heqU
        exact wMulL _ _ _ _ (wUn _ _ _ heqU) h
    · -- addLoopF
      intro e0 s e s1 he0 h
      simp only [Parser.addLoopF] at h
      split at h
      case isTrue hc =>
        split at h
        · simp at h
        · rename_i rhs sA heqM
          have hrhs := wMul _ _ _ heqM
          exact wAddL _ _ _ _ (exprWF_bin _ _ _ he0 hrhs) h
      case isFalse hc =>
        simp only [Option.some.injEq, Prod.mk.injEq] at h
        obtain ⟨h1, -⟩ := h
        subst h1
        exact he0
    · -- parseAdditionF
      intro s e s1 h
      simp only [Parser.parseAdditionF] at h
      split at h
      · simp at h
      · rename_i e2 s2 heqM
        exact wAddL _ _ _ _ (wMul _ _ _ heqM) h
    · -- cmpLoopF
      intro e0 s e s1 he0 h
      simp only [Parser.cmpLoopF] at h
      split at h
      case isTrue hc =>
        split at h
        · simp at h
        · rename_i rhs sA heqA
          have hrhs := wAdd _ _ _ heqA
          exact wCmpL _ _ _ _ (exprWF_bin _ _ _ he0 hrhs) h
      case isFalse hc =>
        simp only [Option.some.injEq, Prod.mk.injEq] at h
        obtain ⟨h1, -⟩ := h
        subst h1
        exact he0
    · -- parseComparisonF
      intro s e s1 h
      simp only [Parser.parseComparisonF] at h
      split at h
      · simp at h
      · rename_i e2 s2 heqA
        exact wCmpL _ _ _ _ (wAdd _ _ _ heqA) h
    · -- eqLoopF
      intro e0 s e s1 he0 h
      simp only [Parser.eqLoopF] at h
      split at h
      case isTrue hc =>
        split at h
        · simp at h
        · rename_i rhs sA heqC
          have hrhs := wCmp _ _ _ heqC
          exact wEqL _ _ _ _ (exprWF_bin _ _ _ he0 hrhs) h
      case isFalse hc =>
        simp only [Option.some.injEq, Prod.mk.injEq] at h
        obtain ⟨h1, -⟩ := h
        subst h1
        exact he0
    · -- parseEqualityF
      intro s e s1 h
      simp only [Parser.parseEqualityF] at h
      split at h
      · simp at h
      · rename_i e2 s2 heqC
        exact wEqL _ _ _ _ (wCmp _ _ _ heqC) h
    · -- andLoopF
      intro e0 s e s1 he0 h
      simp only [Parser.andLoopF] at h
      split at h
      case isTrue hc =>
        split at h
        · simp at h
        · rename_i rhs sA heqQ
          have hrhs := wEq _ _ _ heqQ
          exact wAndL _ _ _ _ (exprWF_bin _ _ _ he0 hrhs) h
      case isFalse hc =>
        simp only [Option.some.injEq, Prod.mk.injEq] at h
        obtain ⟨h1, -⟩ := h
        subst h1
        exact he0
    · -- parseLogicalAndF
      intro s e s1 h
      simp only [Parser.parseLogicalAndF] at h
      split at h
      · simp at h
      · rename_i e2 s2 heqQ
        exact wAndL _ _ _ _ (wEq _ _ _ heqQ) h
    · -- orLoopF
      intro e0 s e s1 he0 h
      simp only [Parser.orLoopF] at h
      split at h
      case isTrue hc =>
        split at h
        · simp at h
        · rename_i rhs sA heqN
          have hrhs := wAnd _ _ _ heqN
          exact wOrL _ _ _ _ (exprWF_bin _ _ _ he0 hrhs) h
      case isFalse hc =>
        simp only [Option.some.injEq, Prod.mk.injEq] at h
        obtain ⟨h1, -⟩ := h
        subst h1
        exact he0
    · -- parseLogicalOrF
      intro s e s1 h
      simp only [Parser.parseLogicalOrF] at h
      split at h
      · simp at h
      · rename_i e2 s2 heqN
        exact wOrL _ _ _ _ (wAnd _ _ _ heqN) h
    · -- parseExpressionF
      intro s e s1 h
      simp only [Parser.parseExpressionF] at h
      exact wOr _ _ _ h

theorem parseProgramF_shape (fuel : Nat) (tks : List Token) (s : PState) (n : ASTNode)
    (s1 : PState) :
    Parser.parseProgramF tks fuel s = some (n, s1) → ∃ stmts, n = ASTNode.program stmts := by
  cases fuel with
  | zero => intro h; simp [Parser.parseProgramF] at h
  | succ f =>
    intro h
    simp only [Parser.parseProgramF] at h
    split at h
    · simp at h
    · split at h
      · simp at h
      · rename_i stmts s2 heq
        simp only [Option.some.injEq, Prod.mk.injEq] at h
        exact ⟨stmts, h.1.symm⟩

/-- C1: for every token sequence, Parser::parse returns a (non-null)
    Program node — it never fails and never stops early — and problems are
    accumulated in order while parsing runs to completion, as witnessed by
    the two-error source `"x = ;\ny = ;"` whose parse yields two statements
    and both diagnostics in source order. -/
theorem C1_parse_total_and_error_accumulating :
    (∀ tks : List Token, ∃ stmts s1, Parser.parseF tks = some (ASTNode.program stmts, s1)) ∧
    runPipeline srcTwoErrors =
      some (ASTNode.program
        [ASTNode.expressionStatement (some (ASTNode.binaryExpression "="
           (some (ASTNode.identifier "x")) (some (ASTNode.literal "ERROR" TokenType.ERROR)))),
         ASTNode.expressionStatement (some (ASTNode.binaryExpression "="
           (some (ASTNode.identifier "y")) (some (ASTNode.literal "ERROR" TokenType.ERROR))))],
        PState.mk 7 [SyntaxError.mk Parser.msgExpectedExpr 1 5,
                     SyntaxError.mk Parser.msgExpectedExpr 2 5]) := by
  constructor
  · intro tks
    have hs := (stmtSuff (Parser.parserFuel tks) tks).2.2.2.2.2.2.2.2.2.2.2.2.1
    have h := hs (PState.mk 0 [])
      (by show 64 * (tks.length - 0) + 62 < 64 * tks.length + 64; omega)
    unfold Parser.parseF
    cases hp : Parser.parseProgramF tks (Parser.parserFuel tks) (PState.mk 0 []) with
    | none => rw [hp] at h; simp at h
    | some r =>
      obtain ⟨n, s1⟩ := r
      obtain ⟨stmts, hsh⟩ := parseProgramF_shape (Parser.parserFuel tks) tks (PState.mk 0 []) n s1 hp
      subst hsh
      exact ⟨stmts, s1, rfl⟩
  · rfl

/-- C3 counterexample: the claim says every grammar-required AST slot is
    populated on return, with a sentinel substituted on error.  But parsing
    `"if (a)"` returns an IfStatement whose required then-branch slot is
    `none` (Parser::parseStatement returns nullptr at end of input and
    parseIfStatement stores it unchecked), not a sentinel node. -/
theorem C3_counterexample :
    runPipeline srcIfNoThen =
      some (ASTNode.program [ASTNode.ifStatement (some (ASTNode.identifier "a")) none none],
            PState.mk 4 []) := by
  rfl

/-- C3 amended: the slots that are in fact always populated.  Conditions of
    if/while are always present and well-formed, and every expression the
    expression chain returns has both operands of every BinaryExpr and the
    operand of every UnaryExpr present (the sentinel error-literal
    guarantees this); statement-position children may still be absent. -/
theorem C3_required_slots_amended :
    (∀ (tks : List Token) (fuel : Nat) (s : PState) (n : ASTNode) (s1 : PState),
       Parser.parseIfStatementF tks fuel s = some (n, s1) →
       ∃ c t e, n = ASTNode.ifStatement (some c) t e ∧ exprWF c = true) ∧
    (∀ (tks : List Token) (fuel : Nat) (s : PState) (n : ASTNode) (s1 : PState),
       Parser.parseWhileStatementF tks fuel s = some (n, s1) →
       ∃ c b, n = ASTNode.whileStatement (some c) b ∧ exprWF c = true) ∧
    (∀ (tks : List Token) (fuel : Nat) (s : PState) (e : ASTNode) (s1 : PState),
       Parser.parseExpressionF tks fuel s = some (e, s1) → exprWF e = true) := by
  refine ⟨?_, ?_, ?_⟩
  · intro tks fuel s n s1 h
    cases fuel with
    | zero => simp [Parser.parseIfStatementF] at h
    | succ f =>
      have wExpr := (exprWFAll f tks).2.2.2.2.2.2.2.2.2.2.2.2.2.2.2
      simp only [Parser.parseIfStatementF] at h
      split at h
      · simp at h
      · rename_i cond s2 heqE
        have hwf := wExpr _ _ _ heqE
        split at h
        · simp at h
        · rename_i thenStmt s4 heqS
          split at h
          · simp at h
          · rename_i s5 heqN
            split at h
            case isTrue hmE =>
              split at h
              · simp at h
              · rename_i elseStmt s7 heqS2
                simp only [Option.some.injEq, Prod.mk.injEq] at h
                obtain ⟨h1, -⟩ := h
                subst h1
                exact ⟨cond, thenStmt, elseStmt, rfl, hwf⟩
            case isFalse hmE =>
              simp only [Option.some.injEq, Prod.mk.injEq] at h
              obtain ⟨h1, -⟩ := h
              subst h1
              exact ⟨cond, thenStmt, none, rfl, hwf⟩
  · intro tks fuel s n s1 h
    cases fuel with
    | zero => simp [Parser.parseWhileStatementF] at h
    | succ f =>
      have wExpr := (exprWFAll f tks).2.2.2.2.2.2.2.2.2.2.2.2.2.2.2
      simp only [Parser.parseWhileStatementF] at h
      split at h
      · simp at h
      · rename_i cond s2 heqE
        have hwf := wExpr _ _ _ heqE
        split at h
        · simp at h
        · rename_i body s4 heqS
          simp only [Option.some.injEq, Prod.mk.injEq] at h
          obtain ⟨h1, -⟩ := h
          subst h1
          exact ⟨cond, body, rfl, hwf⟩
  · intro tks fuel s e s1 h
    cases fuel with
    | zero => simp [Parser.parseExpressionF] at h
    | succ f =>
      have wExpr := (exprWFAll (f + 1) tks).2.2.2.2.2.2.2.2.2.2.2.2.2.2.2
      exact wExpr _ _ _ h

/-- C3 amended witness: concrete instances for the three components. -/
theorem C3_required_slots_amended_witness :
    (∃ c t e, c3IfNode = ASTNode.ifStatement (some c) t e ∧ exprWF c = true) ∧
    (∃ c b, c3WhileNode = ASTNode.whileStatement (some c) b ∧ exprWF c = true) ∧
    exprWF c3ExprNode = true :=
  ⟨C3_required_slots_amended.1 c3IfToks 600 (PState.mk 0 []) c3IfNode (PState.mk 7 []) (by rfl),
   C3_required_slots_amended.2.1 c3IfToks 600 (PState.mk 0 []) c3WhileNode (PState.mk 7 []) (by rfl),
   C3_required_slots_amended.2.2 (lexTokens "1 + 2") 600 (PState.mk 0 []) c3ExprNode
     (PState.mk 3 []) (by rfl)⟩

/-- C5: operator precedence and left associativity.  Every ordered pair of
    binary operators from `|| && == != < <= > >= + - * / %` groups by the
    stated precedence table, every equal-precedence triple produces the
    fully left-leaning tree, and prefix unary binds tighter than any binary
    operator. -/
theorem C5_operator_precedence_and_left_associativity :
    allPairsOK = true ∧ samePrecPairsOK = true ∧ unaryChecksOK = true :=
  ⟨by decide, by decide, by decide⟩

/-- C6: dangling else binds to the innermost if.  On the spec's canonical
    input `"if (a) if (b) x=1; else x=2;"` the else branch ends up on the
    inner `if (b)` node, while the outer if has no else branch. -/
theorem C6_dangling_else_innermost :
    runPipeline srcDangling =
      some (ASTNode.program
        [ASTNode.ifStatement (some (ASTNode.identifier "a"))
          (some (ASTNode.ifStatement (some (ASTNode.identifier "b"))
            (some (ASTNode.expressionStatement (some (ASTNode.binaryExpression "="
              (some (ASTNode.identifier "x")) (some (ASTNode.literal "1" TokenType.INTEGER))))))
            (some (ASTNode.expressionStatement (some (ASTNode.binaryExpression "="
              (some (ASTNode.identifier "x")) (some (ASTNode.literal "2" TokenType.INTEGER))))))))
          none],
        PState.mk 17 []) := by
  rfl

/-- C7: both statement loops terminate, and an iteration that makes no
    cursor progress (while not at the end) forces the cursor one token
    forward and records a parser-stuck diagnostic before looping. -/
theorem C7_loops_terminate_with_forced_progress :
    (∀ (tks : List Token) (fuel : Nat) (acc : List ASTNode) (s : PState),
       64 * (tks.length - s.pos) + 60 < fuel → (Parser.programLoopF tks fuel acc s).isSome) ∧
    (∀ (tks : List Token) (fuel : Nat) (acc : List ASTNode) (s : PState),
       64 * (tks.length - s.pos) + 57 < fuel → (Parser.compoundLoopF tks fuel acc s).isSome) ∧
    (∀ (tks : List Token) (f : Nat) (acc : List ASTNode) (s : PState) (o : Option ASTNode)
       (s1 s2 : PState),
       Parser.isAtEnd tks s = false →
       Parser.parseStatementF tks f s = some (o, s1) →
       Parser.skipNewlinesF tks f s1 = some s2 →
       s2.pos = s.pos →
       Parser.isAtEnd tks s2 = false →
       ∃ acc2, Parser.programLoopF tks (f + 1) acc s =
           Parser.programLoopF tks f acc2
             (Parser.advanceP tks (Parser.recordError tks s2 Parser.msgStuckProgram)) ∧
         (Parser.advanceP tks (Parser.recordError tks s2 Parser.msgStuckProgram)).pos = s.pos + 1 ∧
         (Parser.advanceP tks (Parser.recordError tks s2 Parser.msgStuckProgram)).errors.length =
           s2.errors.length + 1) ∧
    (∀ (tks : List Token) (f : Nat) (acc : List ASTNode) (s : PState) (o : Option ASTNode)
       (s1 s2 : PState),
       Parser.checkTok tks s TokenType.RBRACE = false →
       Parser.isAtEnd tks s = false →
       Parser.parseStatementF tks f s = some (o, s1) →
       Parser.skipNewlinesF tks f s1 = some s2 →
       s2.pos = s.pos →
       Parser.isAtEnd tks s2 = false →
       Parser.checkTok tks s2 TokenType.RBRACE = false →
       ∃ acc2, Parser.compoundLoopF tks (f + 1) acc s =
           Parser.compoundLoopF tks f acc2
             (Parser.advanceP tks (Parser.recordError tks s2 Parser.msgStuckCompound)) ∧
         (Parser.advanceP tks (Parser.recordError tks s2 Parser.msgStuckCompound)).pos = s.pos + 1 ∧
         (Parser.advanceP tks (Parser.recordError tks s2 Parser.msgStuckCompound)).errors.length =
           s2.errors.length + 1) := by
  refine ⟨?_, ?_, ?_, ?_⟩
  · intro tks fuel acc s hb
    exact (stmtSuff fuel tks).2.2.2.2.2.2.2.2.2.2.2.1 acc s hb
  · intro tks fuel acc s hb
    refine (stmtSuff fuel tks).2.2.2.2.2.2.2.2.1 acc s ?_
    have hl := lbP_le tks s
    omega
  · intro tks f acc s o s1 s2 hend hS hN hpos hend2
    have hadv : (Parser.advanceP tks (Parser.recordError tks s2 Parser.msgStuckProgram)).pos = s.pos + 1 := by
      have h1 := advanceP_not_end tks (Parser.recordError tks s2 Parser.msgStuckProgram)
        (by rw [isAtEnd_recordError]; exact hend2)
      rw [recordError_pos] at h1
      omega
    have herr : (Parser.advanceP tks (Parser.recordError tks s2 Parser.msgStuckProgram)).errors.length = s2.errors.length + 1 := by
      rw [advanceP_errors]
      simp [Parser.recordError]
    cases o with
    | none =>
      refine ⟨acc, ?_, hadv, herr⟩
      simp only [Parser.programLoopF]
      rw [if_neg (by simp [hend])]
      rw [hS]
      simp only []
      rw [hN]
      simp only []
      rw [if_pos ⟨hpos, by simp [hend2]⟩]
    | some st =>
      refine ⟨acc ++ [st], ?_, hadv, herr⟩
      simp only [Parser.programLoopF]
      rw [if_neg (by simp [hend])]
      rw [hS]
      simp only []
      rw [hN]
      simp only []
      rw [if_pos ⟨hpos, by simp [hend2]⟩]
  · intro tks f acc s o s1 s2 hrb hend hS hN hpos hend2 hrb2
    have hadv : (Parser.advanceP tks (Parser.recordError tks s2 Parser.msgStuckCompound)).pos = s.pos + 1 := by
      have h1 := advanceP_not_end tks (Parser.recordError tks s2 Parser.msgStuckCompound)
        (by rw [isAtEnd_recordError]; exact hend2)
      rw [recordError_pos] at h1
      omega
    have herr : (Parser.advanceP tks (Parser.recordError tks s2 Parser.msgStuckCompound)).errors.length = s2.errors.length + 1 := by
      rw [advanceP_errors]
      simp [Parser.recordError]
    cases o with
    | none =>
      refine ⟨acc, ?_, hadv, herr⟩
      simp only [Parser.compoundLoopF]
      rw [if_neg (by simp [hrb, hend])]
      rw [hS]
      simp only []
      rw [hN]
      simp only []
      rw [if_pos ⟨hpos, by simp [hend2], by simp [hrb2]⟩]
    | some st =>
      refine ⟨acc ++ [st], ?_, hadv, herr⟩
      simp only [Parser.compoundLoopF]
      rw [if_neg (by simp [hrb, hend])]
      rw [hS]
      simp only []
      rw [hN]
      simp only []
      rw [if_pos ⟨hpos, by simp [hend2], by simp [hrb2]⟩]

/-- C7 witness: on the bare `)` token list, one statement iteration makes
    no progress and the loops take the forced-advance branch. -/
theorem C7_loops_terminate_with_forced_progress_witness :
    (Parser.programLoopF c7Toks 256 [] (PState.mk 0 [])).isSome ∧
    (Parser.compoundLoopF c7Toks 256 [] (PState.mk 0 [])).isSome ∧
    (∃ acc2, Parser.programLoopF c7Toks (256 + 1) [] (PState.mk 0 []) =
        Parser.programLoopF c7Toks 256 acc2
          (Parser.advanceP c7Toks (Parser.recordError c7Toks c7S2 Parser.msgStuckProgram)) ∧
      (Parser.advanceP c7Toks (Parser.recordError c7Toks c7S2 Parser.msgStuckProgram)).pos = (PState.mk 0 [] : PState).pos + 1 ∧
      (Parser.advanceP c7Toks (Parser.recordError c7Toks c7S2 Parser.msgStuckProgram)).errors.length = c7S2.errors.length + 1) ∧
    (∃ acc2, Parser.compoundLoopF c7Toks (256 + 1) [] (PState.mk 0 []) =
        Parser.compoundLoopF c7Toks 256 acc2
          (Parser.advanceP c7Toks (Parser.recordError c7Toks c7S2 Parser.msgStuckCompound)) ∧
      (Parser.advanceP c7Toks (Parser.recordError c7Toks c7S2 Parser.msgStuckCompound)).pos = (PState.mk 0 [] : PState).pos + 1 ∧
      (Parser.advanceP c7Toks (Parser.recordError c7Toks c7S2 Parser.msgStuckCompound)).errors.length = c7S2.errors.length + 1) :=
  ⟨C7_loops_terminate_with_forced_progress.1 c7Toks 256 [] (PState.mk 0 []) (by decide),
   C7_loops_terminate_with_forced_progress.2.1 c7Toks 256 [] (PState.mk 0 []) (by decide),
   C7_loops_terminate_with_forced_progress.2.2.1 c7Toks 256 [] (PState.mk 0 []) c7Stmt c7S1 c7S2
     (by decide) (by rfl) (by rfl) (by rfl) (by decide),
   C7_loops_terminate_with_forced_progress.2.2.2 c7Toks 256 [] (PState.mk 0 []) c7Stmt c7S1 c7S2
     (by decide) (by decide) (by rfl) (by rfl) (by rfl) (by decide) (by decide)⟩
